import Mathlib

/-!
# Verification of the Call-Frame Kernel (radix engine)

A shallow embedding of `radix-engine/src/engine/call_frame.rs` and the
collaborators it needs (Track lock table, heap nodes, auth zone), together
with theorems settling the claims about the specification.

Machine integers (`u32`, 128-bit ids, addresses) are modelled as `Nat`:
the kernel never performs arithmetic on them, they are only compared for
equality.  Hash sets / maps are modelled as lists (iteration order made
explicit); byte strings as `List Nat`.

Components not present in the provided sources (Track, HeapRENode,
AuthZone, ScryptoValue, id allocation, fee reserve) are modelled from the
specification; each such definition carries a doc comment starting with
`Modelled from the spec:`.
-/

namespace RadixKernel

/-- `RENodeId` from `scrypto::engine::types` (src usage in call_frame.rs):
tagged identifier of a live object.  Addresses and 128-bit ids are `Nat`. -/
inductive RENodeId
  | Bucket (id : Nat)
  | Proof (id : Nat)
  | Worktop
  | Vault (id : Nat)
  | KeyValueStore (id : Nat)
  | Component (addr : Nat)
  | ResourceManager (addr : Nat)
  | Package (addr : Nat)
  | System
  deriving DecidableEq, Repr

/-- `SubstateId`: tagged persistent address (spec section 3, used throughout
call_frame.rs). -/
inductive SubstateId
  | Package (addr : Nat)
  | ComponentInfo (addr : Nat)
  | ComponentState (addr : Nat)
  | ResourceManager (addr : Nat)
  | NonFungibleSpace (addr : Nat)
  | NonFungible (addr : Nat) (id : Nat)
  | KeyValueStoreSpace (id : Nat)
  | KeyValueStoreEntry (id : Nat) (key : List Nat)
  | Vault (id : Nat)
  | System
  | Bucket (id : Nat)
  | Proof (id : Nat)
  | Worktop
  deriving DecidableEq, Repr

/-- `VaultFnIdentifier` (scrypto::core): the kernel inspects only whether the
function is `LockFee`; the remaining vault methods are collapsed into their
names. -/
inductive VaultFnIdentifier
  | LockFee
  | LockContingentFee
  | Put
  | Take
  | TakeNonFungibles
  | GetAmount
  | GetResourceAddress
  | GetNonFungibleIds
  | CreateProof
  | CreateProofByAmount
  | CreateProofByIds
  deriving DecidableEq, Repr

/-- `AuthZoneFnIdentifier` (scrypto::core). -/
inductive AuthZoneFnIdentifier
  | Pop
  | Push
  | CreateProof
  | CreateProofByAmount
  | CreateProofByIds
  | Clear
  deriving DecidableEq, Repr

/-- `TransactionProcessorFnIdentifier` (scrypto::core). -/
inductive TransactionProcessorFnIdentifier
  | Run
  deriving DecidableEq, Repr

/-- `NativeFnIdentifier` (scrypto::core): enumerates the native modules.
Sub-identifiers the kernel never inspects are collapsed to `Nat` tags. -/
inductive NativeFnIdentifier
  | TransactionProcessor (fn : TransactionProcessorFnIdentifier)
  | Package (fn : Nat)
  | ResourceManager (fn : Nat)
  | Bucket (fn : Nat)
  | Proof (fn : Nat)
  | Worktop (fn : Nat)
  | Vault (fn : VaultFnIdentifier)
  | Component (fn : Nat)
  | System (fn : Nat)
  | AuthZone (fn : AuthZoneFnIdentifier)
  deriving DecidableEq, Repr

/-- `FnIdentifier` (scrypto::core): native or Scrypto function. -/
inductive FnIdentifier
  | Native (fn : NativeFnIdentifier)
  | Scrypto (packageAddress : Nat) (blueprintName : String) (ident : String)
  deriving DecidableEq, Repr

/-- `Receiver` (scrypto::core): how a method invocation addresses its
receiver. -/
inductive Receiver
  | Ref (id : RENodeId)
  | Consumed (id : RENodeId)
  | AuthZoneRef
  deriving DecidableEq, Repr

/-- `REActor`: the identity under which a frame executes. -/
structure REActor where
  fnIdentifier : FnIdentifier
  receiver : Option Receiver
  deriving DecidableEq, Repr

/-- `LockFeeError` (engine errors). -/
inductive LockFeeError
  | RENodeAlreadyTouched
  | RENodeNotInTrack
  deriving DecidableEq, Repr

/-- `DropFailure`: kind of heap node that could not be dropped.
Modelled from the spec: the drop-validation lives in `HeapRENode::drop_nodes`,
outside the provided sources. -/
inductive DropFailure
  | Vault
  | KeyValueStore
  | Component
  | Package
  | Resource
  | System
  | Worktop
  | Bucket
  | Proof
  deriving DecidableEq, Repr

/-- `RuntimeError` (engine errors), restricted to the variants reachable from
the embedded operations.  Payloads the claims depend on are kept. -/
inductive RuntimeError
  | MaxCallDepthLimitReached
  | CostingError
  | KeyValueStoreNotAllowed
  | VaultNotAllowed
  | RENodeNotFound (id : RENodeId)
  | RENodeCreateNodeNotFound (id : RENodeId)
  | RENodeGlobalizeTypeNotAllowed (id : RENodeId)
  | InvokeMethodInvalidReceiver (id : RENodeId)
  | InvokeMethodInvalidReferencePass (id : RENodeId)
  | MethodDoesNotExist (fn : FnIdentifier)
  | BlueprintNotFound (packageAddress : Nat) (blueprintName : String)
  | PackageNotFound (packageAddress : Nat)
  | InvalidFnInput (fn : FnIdentifier)
  | InvalidFnOutput (fn : FnIdentifier)
  | LockFeeError (e : LockFeeError)
  | Reentrancy (id : SubstateId)
  | NotAuthorized (rule : Nat)
  | AuthZoneDoesNotExist
  | AuthZoneError
  | DropFailure (e : DropFailure)
  | StoredNodeRemoved (id : RENodeId)
  | ValueNotAllowed
  | SubstateReadNotReadable (id : SubstateId)
  | SubstateReadSubstateNotFound (id : SubstateId)
  | SubstateWriteNotWriteable (id : SubstateId)
  | CantBeMoved
  | CantBePersisted
  | ProofNotFound (id : Nat)
  deriving DecidableEq, Repr

deriving instance DecidableEq for Except

/-- Association-list lookup (model of `HashMap::get`). -/
def alookup {κ β : Type} [DecidableEq κ] : List (κ × β) → κ → Option β
  | [], _ => none
  | (k', v) :: rest, k => if k' = k then some v else alookup rest k

/-- Association-list insert-or-replace (model of `HashMap::insert`). -/
def upsert {κ β : Type} [DecidableEq κ] (l : List (κ × β)) (k : κ) (v : β) :
    List (κ × β) :=
  l.filter (fun p => p.1 ≠ k) ++ [(k, v)]

/-- Association-list removal (model of `HashMap::remove`). -/
def aremove {κ β : Type} [DecidableEq κ] (l : List (κ × β)) (k : κ) :
    List (κ × β) :=
  l.filter (fun p => p.1 ≠ k)

/-- Modelled from the spec: a `Proof` (missing `model::Proof`): bearer token
over a resource; the kernel only inspects its resource address, its
non-fungible ids and the restricted flag (`change_to_restricted`). -/
structure ProofData where
  resourceAddress : Nat
  nonFungibleIds : List (List Nat)
  restricted : Bool
  deriving DecidableEq, Repr

/-- Modelled from the spec: an `AuthZone` (missing `model::AuthZone`): an
ordered list of proofs. -/
structure AuthZone where
  proofs : List ProofData
  deriving DecidableEq, Repr

/-- `AuthZone::new()`. Modelled from the spec: empty proof list. -/
def AuthZone.new : AuthZone := ⟨[]⟩

/-- `AuthZone::new_with_proofs`. Modelled from the spec. -/
def AuthZone.new_with_proofs (proofs : List ProofData) : AuthZone := ⟨proofs⟩

/-- Modelled from the spec: `HeapRENode` (missing `model::HeapRENode`), the
sum type of live objects.  Each variant carries the payload fields the
embedded kernel operations consult. -/
inductive HeapRENode
  | Bucket (resourceAddress : Nat)
  | Proof (p : ProofData)
  | Worktop
  | Vault (resourceAddress : Nat)
  | KeyValueStore (entries : List (List Nat × List Nat))
  | Component (packageAddress : Nat) (blueprintName : String) (state : List Nat)
  | Package (blueprints : List (String × List String))
  | Resource (nonFungibles : Option (List Nat))
  | System
  deriving DecidableEq, Repr

/-- Modelled from the spec: `can_move` — buckets, proofs, vaults, kv-stores
and components may move between frames; worktops and the remaining natives
are pinned (used by `take_available_values`). -/
def HeapRENode.verify_can_move : HeapRENode → Except RuntimeError Unit
  | .Bucket _ => .ok ()
  | .Proof _ => .ok ()
  | .Vault _ => .ok ()
  | .KeyValueStore _ => .ok ()
  | .Component _ _ _ => .ok ()
  | _ => .error RuntimeError.CantBeMoved

/-- Modelled from the spec: `can_persist` — vaults, kv-stores and components
are the persistable kinds (used by `take_available_values(_, persist_only)`
and `insert_non_root_nodes`). -/
def HeapRENode.verify_can_persist : HeapRENode → Except RuntimeError Unit
  | .Vault _ => .ok ()
  | .KeyValueStore _ => .ok ()
  | .Component _ _ _ => .ok ()
  | _ => .error RuntimeError.CantBePersisted

/-- Modelled from the spec: validation performed by `HeapRENode::drop_nodes`
— buckets, proofs and worktops drop freely; the remaining kinds cannot be
dropped and yield the corresponding `DropFailure`. -/
def HeapRENode.dropFailureKind : HeapRENode → Option DropFailure
  | .Bucket _ => none
  | .Proof _ => none
  | .Worktop => none
  | .Vault _ => some DropFailure.Vault
  | .KeyValueStore _ => some DropFailure.KeyValueStore
  | .Component _ _ _ => some DropFailure.Component
  | .Package _ => some DropFailure.Package
  | .Resource _ => some DropFailure.Resource
  | .System => some DropFailure.System

/-- `HeapRootRENode`: a root node plus its owned descendants. -/
structure HeapRootRENode where
  root : HeapRENode
  childNodes : List (RENodeId × HeapRENode)
  deriving DecidableEq, Repr

/-- A frame heap: map `RENodeId → HeapRootRENode` in insertion order. -/
abbrev Heap := List (RENodeId × HeapRootRENode)

/-- Modelled from the spec: `Substate`, the persistent mirror of node kinds,
restricted to the payload fields the embedded operations consult. -/
inductive Substate
  | Package (blueprints : List (String × List String))
  | Component (packageAddress : Nat) (blueprintName : String)
  | ComponentState (raw : List Nat)
  | Resource
  | Vault (resourceAddress : Nat)
  | NonFungible (value : Option (List Nat))
  | KeyValueStoreEntry (value : Option (List Nat))
  | System
  deriving DecidableEq, Repr

/-- Modelled from the spec: one entry of the Track's lock table
(`SubstateId → { mode, write_through, … }` with a count lowered on
release). -/
structure LockSt where
  exclusive : Bool
  count : Nat
  writeThrough : Bool
  deriving DecidableEq, Repr

/-- Observable event of the Track lock table, recorded in program order:
one entry per `acquire_lock` / `release_lock` call that reaches the Track. -/
inductive LockEvent
  | acquire (id : SubstateId) (exclusive : Bool) (writeThrough : Bool)
  | release (id : SubstateId) (writeThrough : Bool)
  deriving DecidableEq, Repr

/-- `TrackError` (Track, modelled from the spec). -/
inductive TrackError
  | NotFound
  | Reentrancy
  | StateTrackErrorRENodeAlreadyTouched
  deriving DecidableEq, Repr

/-- `RENodePointer` from call_frame.rs: locator of a live object. -/
inductive RENodePointer
  | HeapPtr (frameId : Nat) (root : RENodeId) (id : Option RENodeId)
  | Store (id : RENodeId)
  deriving DecidableEq, Repr

/-- `RENodePointer::node_id` (call_frame.rs lines 151-156). -/
def RENodePointer.nodeId : RENodePointer → RENodeId
  | .HeapPtr _ root id => id.getD root
  | .Store nodeId => nodeId

/-- `RENodePointer::child` (call_frame.rs lines 194-203). -/
def RENodePointer.childPtr (p : RENodePointer) (childId : RENodeId) :
    RENodePointer :=
  match p with
  | .HeapPtr frameId root _ => .HeapPtr frameId root (some childId)
  | .Store _ => .Store childId

/-- The shared kernel state threaded through all frames: the Track (substate
store, lock table, logs, fee payments are claims-irrelevant and omitted), per
frame-id heaps, and the fee reserve. -/
structure KState where
  /-- Modelled from the spec: Track lock table, keyed by substate id. -/
  locks : List (SubstateId × LockSt)
  /-- Trace of Track lock operations in program order. -/
  lockLog : List LockEvent
  /-- Modelled from the spec: substates visible through the Track (reads
  cache and updates merged). -/
  substates : List (SubstateId × Substate)
  /-- Modelled from the spec: "touched" bookkeeping for fee-lock
  correctness. -/
  touched : List SubstateId
  /-- The owned heap of each live frame, indexed by frame id (= depth). -/
  heaps : List Heap
  /-- Modelled from the spec: remaining fee reserve balance. -/
  feeBalance : Nat
  /-- Fees consumed so far, as (reason, amount) in program order. -/
  feeCharges : List (String × Nat)
  /-- Track log entries. -/
  logs : List String
  /-- Modelled from the spec: the IdAllocator's monotonic counter (ids are
  minted deterministically from it). -/
  nextId : Nat
  deriving DecidableEq, Repr

/-- Heap of frame `i` (empty when the slot is absent). -/
def KState.heapAt (st : KState) (i : Nat) : Heap := st.heaps.getD i []

/-- Replace the heap of frame `i`, growing the arena when the slot does not
exist yet (a fresh frame's slot). -/
def KState.setHeap (st : KState) (i : Nat) (h : Heap) : KState :=
  { st with heaps :=
      if i < st.heaps.length then st.heaps.set i h
      else (st.heaps ++ List.replicate (i + 1 - st.heaps.length) []).set i h }

/-- A call frame's bookkeeping (its owned heap lives in `KState.heaps` at
index `depth`, mirroring the ordered borrowed-heaps arena of the spec). -/
structure Frame where
  depth : Nat
  maxDepth : Nat
  actor : REActor
  nodeRefs : List (RENodeId × RENodePointer)
  authZone : Option AuthZone
  callerAuthZone : Option AuthZone
  deriving DecidableEq, Repr

/-- Kernel-level failure: a `RuntimeError` surfaced to the caller, or an
internal contract violation (a Rust `panic!` / `unwrap` in the source). -/
inductive KErr
  | rt (e : RuntimeError)
  | panicked (msg : String)
  deriving DecidableEq, Repr

/-- The frame computation monad: threads the current frame and the shared
kernel state; errors preserve the state at the failure point (mirroring that
Rust's early `return Err` leaves the Track and heaps as they are). -/
def FM (α : Type) := Frame → KState → Frame × KState × Except KErr α

instance : Monad FM where
  pure a := fun f st => (f, st, .ok a)
  bind x g := fun f st =>
    match x f st with
    | (f', st', .ok a) => g a f' st'
    | (f', st', .error e) => (f', st', .error e)

/-- Read the current frame. -/
def FM.getFrame : FM Frame := fun f st => (f, st, .ok f)

/-- Replace the current frame. -/
def FM.setFrame (f' : Frame) : FM Unit := fun _ st => (f', st, .ok ())

/-- Read the shared state. -/
def FM.getSt : FM KState := fun f st => (f, st, .ok st)

/-- Replace the shared state. -/
def FM.setSt (st' : KState) : FM Unit := fun f _ => (f, st', .ok ())

/-- Raise a `RuntimeError`. -/
def FM.throw (e : RuntimeError) : FM α := fun f st => (f, st, .error (.rt e))

/-- Model a Rust `panic!` / failed `unwrap`. -/
def FM.panic (msg : String) : FM α := fun f st => (f, st, .error (.panicked msg))

/-- Lift an `Except RuntimeError` value (the `?` operator). -/
def FM.liftE : Except RuntimeError α → FM α
  | .ok a => pure a
  | .error e => FM.throw e

/-! ## Track lock table (modelled from the spec, section 4.2) -/

/-- Increment the hold count of the lock-table entry for `id`. -/
def bumpLocks (l : List (SubstateId × LockSt)) (id : SubstateId) :
    List (SubstateId × LockSt) :=
  l.map (fun p =>
    if p.1 = id then (p.1, { p.2 with count := p.2.count + 1 }) else p)

/-- Decrement the hold count of the lock-table entry for `id`, dropping
entries whose count reaches zero. -/
def decLocks (l : List (SubstateId × LockSt)) (id : SubstateId) :
    List (SubstateId × LockSt) :=
  (l.map (fun p =>
    if p.1 = id then (p.1, { p.2 with count := p.2.count - 1 }) else p)).filter
    (fun p => p.2.count ≠ 0)

/-- Modelled from the spec: `Track::acquire_lock(id, mutable, write_through)`.
An exclusive request or a request against a held exclusive lock is
reentrancy; absent substates are `NotFound`; a write-through acquire against
an already-touched substate fails `RENodeAlreadyTouched`; every successful
acquire marks the substate touched. -/
def trackAcquireLock (st : KState) (id : SubstateId) (mutable writeThrough : Bool) :
    Except TrackError KState :=
  if writeThrough ∧ st.touched.contains id then
    .error TrackError.StateTrackErrorRENodeAlreadyTouched
  else
    match alookup st.locks id with
    | some ls =>
        if mutable ∨ ls.exclusive then .error TrackError.Reentrancy
        else .ok { st with
          locks := bumpLocks st.locks id,
          lockLog := st.lockLog ++ [LockEvent.acquire id mutable writeThrough],
          touched := st.touched ++ [id] }
    | none =>
        if (alookup st.substates id).isSome then
          .ok { st with
            locks := st.locks ++ [(id, ⟨mutable, 1, writeThrough⟩)],
            lockLog := st.lockLog ++ [LockEvent.acquire id mutable writeThrough],
            touched := st.touched ++ [id] }
        else .error TrackError.NotFound

/-- Modelled from the spec: `Track::release_lock(id, write_through)`: lowers
the lock count, removing the entry at zero. -/
def trackReleaseLock (st : KState) (id : SubstateId) (writeThrough : Bool) :
    KState :=
  { st with
    locks := decLocks st.locks id,
    lockLog := st.lockLog ++ [LockEvent.release id writeThrough] }

/-- `RENodePointer::acquire_lock` (call_frame.rs lines 158-180): heap
pointers are a no-op; store pointers go to the Track, with the error
translation of the source. -/
def pointerAcquireLock (p : RENodePointer) (substateId : SubstateId)
    (mutable writeThrough : Bool) : FM Unit := do
  match p with
  | .Store _ =>
      let st ← FM.getSt
      match trackAcquireLock st substateId mutable writeThrough with
      | .ok st' => FM.setSt st'
      | .error TrackError.StateTrackErrorRENodeAlreadyTouched =>
          FM.throw (RuntimeError.LockFeeError LockFeeError.RENodeAlreadyTouched)
      | .error TrackError.NotFound =>
          FM.throw (RuntimeError.RENodeNotFound p.nodeId)
      | .error TrackError.Reentrancy =>
          FM.throw (RuntimeError.Reentrancy substateId)
  | .HeapPtr _ _ _ => pure ()

/-- `RENodePointer::release_lock` (call_frame.rs lines 182-192). -/
def pointerReleaseLock (p : RENodePointer) (substateId : SubstateId)
    (writeThrough : Bool) : FM Unit := do
  match p with
  | .Store _ =>
      let st ← FM.getSt
      FM.setSt (trackReleaseLock st substateId writeThrough)
  | .HeapPtr _ _ _ => pure ()

/-! ## ScryptoValue (modelled from the spec) -/

/-- Modelled from the spec: the decoded-value summary `ScryptoValue`
(missing `scrypto::values`): the kernel consults only the id sets collected
from the value, the referenced component addresses and resource addresses,
and the raw bytes. -/
structure ScryptoValue where
  raw : List Nat
  bucketIds : List Nat
  proofIds : List Nat
  vaultIds : List Nat
  kvStoreIds : List Nat
  refedComponentAddresses : List Nat
  resourceAddresses : List Nat
  deriving DecidableEq, Repr

/-- `ScryptoValue::node_ids()`: the owned node ids appearing in the value
(buckets, proofs, vaults, kv-stores). Modelled from the spec. -/
def ScryptoValue.node_ids (v : ScryptoValue) : List RENodeId :=
  v.bucketIds.map RENodeId.Bucket ++ v.proofIds.map RENodeId.Proof ++
    v.vaultIds.map RENodeId.Vault ++ v.kvStoreIds.map RENodeId.KeyValueStore

/-- `CallFrame::process_call_data` (call_frame.rs lines 932-940). -/
def process_call_data (validated : ScryptoValue) : Except RuntimeError Unit :=
  if ¬ validated.kvStoreIds.isEmpty then
    .error RuntimeError.KeyValueStoreNotAllowed
  else if ¬ validated.vaultIds.isEmpty then
    .error RuntimeError.VaultNotAllowed
  else .ok ()

/-- `CallFrame::process_return_data` (call_frame.rs lines 942-950): only
kv-stores are rejected; the vault check is a TODO in the source. -/
def process_return_data (validated : ScryptoValue) : Except RuntimeError Unit :=
  if ¬ validated.kvStoreIds.isEmpty then
    .error RuntimeError.KeyValueStoreNotAllowed
  else .ok ()

/-! ## `verify_stored_value_update` (call_frame.rs lines 89-107)

The source iterates over two `HashSet`s; we model each set by the list of its
elements in iteration order.  The two loops are the two recursive scans
below. -/

/-- First loop of `verify_stored_value_update`: scan `old` for an element not
contained in `missing`. -/
def scanOldIds (old missing : List RENodeId) : Except RuntimeError Unit :=
  match old with
  | [] => .ok ()
  | oldId :: rest =>
      if missing.contains oldId then scanOldIds rest missing
      else .error (RuntimeError.StoredNodeRemoved oldId)

/-- Second loop of `verify_stored_value_update`: scan `missing` for an element
not contained in `old`. -/
def scanMissingIds (old missing : List RENodeId) : Except RuntimeError Unit :=
  match missing with
  | [] => .ok ()
  | missingId :: rest =>
      if old.contains missingId then scanMissingIds old rest
      else .error (RuntimeError.RENodeNotFound missingId)

/-- `verify_stored_value_update(old, missing)` from call_frame.rs: reject when
an old child is gone (`StoredNodeRemoved`) or a claimed-missing child was
never a child (`RENodeNotFound`). -/
def verify_stored_value_update (old missing : List RENodeId) :
    Except RuntimeError Unit :=
  match scanOldIds old missing with
  | .error e => .error e
  | .ok _ => scanMissingIds old missing

/-! ## take_available_values / drop_owned_values (call_frame.rs 923-930,
1155-1189) -/

/-- The loop of `take_available_values` (call_frame.rs lines 1160-1178):
returns the remaining heap, the taken values and the missing ids. -/
def takeLoop (heap : Heap) (persistOnly : Bool) :
    List RENodeId → Except RuntimeError (Heap × Heap × List RENodeId)
  | [] => .ok (heap, [], [])
  | id :: rest =>
      match alookup heap id with
      | some value =>
          match value.root.verify_can_move with
          | .error e => .error e
          | .ok _ =>
              match (if persistOnly then value.root.verify_can_persist
                     else .ok ()) with
              | .error e => .error e
              | .ok _ =>
                  match takeLoop (aremove heap id) persistOnly rest with
                  | .error e => .error e
                  | .ok (heap', taken, missing) =>
                      .ok (heap', (id, value) :: taken, missing)
      | none =>
          match takeLoop heap persistOnly rest with
          | .error e => .error e
          | .ok (heap', taken, missing) => .ok (heap', taken, id :: missing)

/-- Reference cleanup of `take_available_values` (call_frame.rs lines
1181-1186): moved values and their children lose their node-refs. -/
def refsAfterTake (refs : List (RENodeId × RENodePointer)) (taken : Heap) :
    List (RENodeId × RENodePointer) :=
  refs.filter (fun r =>
    ¬ taken.any (fun t => t.1 = r.1 ∨ t.2.childNodes.any (fun c => c.1 = r.1)))

/-- `CallFrame::take_available_values` (call_frame.rs lines 1155-1189). -/
def takeAvailableValues (nodeIds : List RENodeId) (persistOnly : Bool) :
    FM (Heap × List RENodeId) := do
  let f ← FM.getFrame
  let st ← FM.getSt
  match takeLoop (st.heapAt f.depth) persistOnly nodeIds with
  | .error e => FM.throw e
  | .ok (heap', taken, missing) => do
      FM.setSt (st.setHeap f.depth heap')
      FM.setFrame { f with nodeRefs := refsAfterTake f.nodeRefs taken }
      pure (taken, missing)

/-- First drop failure among a root node and its children (the validation of
`HeapRENode::drop_nodes`, modelled from the spec). -/
def nodeDropFailure (v : HeapRootRENode) : Option DropFailure :=
  match v.root.dropFailureKind with
  | some k => some k
  | none => v.childNodes.findSome? (fun c => c.2.dropFailureKind)

/-- `CallFrame::drop_owned_values` (call_frame.rs lines 923-930): drain the
owned heap, then fail with `DropFailure` when any drained value is of a
non-droppable kind. -/
def dropOwnedValues : FM Unit := do
  let f ← FM.getFrame
  let st ← FM.getSt
  let values := (st.heapAt f.depth).map (fun p => p.2)
  FM.setSt (st.setHeap f.depth [])
  match values.findSome? nodeDropFailure with
  | some k => FM.throw (RuntimeError.DropFailure k)
  | none => pure ()

/-! ## Root frame construction (call_frame.rs lines 817-882) -/

/-- Modelled from the spec: the well-known `ECDSA_TOKEN` resource address. -/
def ECDSA_TOKEN : Nat := 1

/-- Modelled from the spec: the well-known `SYSTEM_TOKEN` resource address
(distinct from `ECDSA_TOKEN`). -/
def SYSTEM_TOKEN : Nat := 2

/-- `NonFungibleId::from_bytes` applied to a 33-byte public key: the id is
the key's byte string.  Modelled from the spec. -/
def nonFungibleIdFromBytes (publicKey : List Nat) : List Nat := publicKey

/-- Modelled from the spec: collecting the signer ids into a `BTreeSet`
deduplicates them (set semantics; order is irrelevant to the kernel). -/
def dedupIds (ids : List (List Nat)) : List (List Nat) :=
  ids.foldl (fun acc x => if acc.contains x then acc else acc ++ [x]) []

/-- Modelled from the spec: `Bucket::create_proof` on a non-fungible bucket
yields a proof over the same resource carrying the bucket's ids. -/
def bucketCreateProof (resourceAddress : Nat) (ids : List (List Nat)) :
    ProofData :=
  ⟨resourceAddress, ids, false⟩

/-- The initial auth-zone proofs of `CallFrame::new_root` (call_frame.rs
lines 830-856): an ECDSA proof (only when there are signers), then a system
proof when `is_system`. -/
def initialAuthZoneProofs (signerPublicKeys : List (List Nat))
    (isSystem : Bool) : List ProofData :=
  let signerIds := dedupIds (signerPublicKeys.map nonFungibleIdFromBytes)
  let ecdsaProofs :=
    if signerIds.isEmpty then []
    else [bucketCreateProof ECDSA_TOKEN signerIds]
  if isSystem then
    ecdsaProofs ++ [bucketCreateProof SYSTEM_TOKEN [[0]]]
  else ecdsaProofs

/-- `CallFrame::new_root` (call_frame.rs lines 817-882), projected onto the
frame record: depth 0, transaction-processor actor, pre-seeded auth zone. -/
def new_root (signerPublicKeys : List (List Nat)) (isSystem : Bool)
    (maxDepth : Nat) : Frame :=
  { depth := 0
    maxDepth := maxDepth
    actor := ⟨FnIdentifier.Native (NativeFnIdentifier.TransactionProcessor
      TransactionProcessorFnIdentifier.Run), none⟩
    nodeRefs := []
    authZone := some (AuthZone.new_with_proofs
      (initialAuthZoneProofs signerPublicKeys isSystem))
    callerAuthZone := none }

/-! ## External collaborators -/

/-- The pluggable collaborators of the kernel (spec sections 1 and 6): the
fee table's cost classification, the auth policy decision, ABI schema
matching, substate visibility predicates, and the transaction-processor
decoding.  All are outside the kernel; theorems quantify over them. -/
structure Ext where
  invokeMethodCost : Receiver → ScryptoValue → Nat
  runMethodCost : Option Receiver → FnIdentifier → ScryptoValue → Nat
  invokeFunctionCost : FnIdentifier → ScryptoValue → Nat
  createCost : Nat
  globalizeCost : Nat
  readCost : Nat
  writeCost : Nat
  emitLogCost : Nat → Nat
  receiverAuth : FnIdentifier → Receiver → ScryptoValue → Option RuntimeError
  fnInputMatches : FnIdentifier → ScryptoValue → Bool
  fnOutputMatches : FnIdentifier → ScryptoValue → Bool
  isSubstateReadable : REActor → SubstateId → Bool
  isSubstateWriteable : REActor → SubstateId → Bool
  tpInstructionRefs : ScryptoValue → List Nat
  /-- `HeapRENode::get_child_nodes()`: the node ids the payload directly
  references (a property of the SBOR-encoded payload, outside the kernel). -/
  childNodeIds : HeapRENode → List RENodeId
  /-- SBOR decoding of raw bytes into the `ScryptoValue` summary (outside
  the kernel). -/
  decodeValue : List Nat → ScryptoValue

/-- `fee_reserve.consume(cost, reason)` (spec section 6): fails with
`CostingError` on exhaustion.  Modelled from the spec. -/
def feeConsume (cost : Nat) (reason : String) : FM Unit := do
  let st ← FM.getSt
  if st.feeBalance < cost then FM.throw RuntimeError.CostingError
  else FM.setSt { st with
    feeBalance := st.feeBalance - cost,
    feeCharges := st.feeCharges ++ [(reason, cost)] }

/-- The proof-restriction step of both invokes (call_frame.rs lines
1347-1354 / 1551-1558): any moved proof becomes restricted. -/
def restrictProofRoot (v : HeapRootRENode) : HeapRootRENode :=
  match v.root with
  | .Proof p => { v with root := .Proof { p with restricted := true } }
  | _ => v

/-- Modelled from the spec: `RENodeProperties::to_primary_substate_id` — the
substate locked on behalf of a method invocation on the node. -/
def toPrimarySubstateId (fn : FnIdentifier) (nodeId : RENodeId) :
    Except RuntimeError SubstateId :=
  match nodeId with
  | .Bucket i => .ok (.Bucket i)
  | .Proof i => .ok (.Proof i)
  | .Worktop => .ok .Worktop
  | .Vault i => .ok (.Vault i)
  | .KeyValueStore i => .ok (.KeyValueStoreSpace i)
  | .Component a =>
      match fn with
      | .Scrypto _ _ _ => .ok (.ComponentState a)
      | .Native _ => .ok (.ComponentInfo a)
  | .ResourceManager a => .ok (.ResourceManager a)
  | .Package a => .ok (.Package a)
  | .System => .ok .System

/-- Modelled from the spec: `RENodeProperties::can_globalize` — only
components, packages and resource managers may be globalized. -/
def canGlobalize : RENodeId → Bool
  | .Component _ => true
  | .Package _ => true
  | .ResourceManager _ => true
  | _ => false

/-- Resolve a heap pointer to the node it designates (root or child),
mirroring `RENodePointer::to_ref` for stack pointers. -/
def heapLookupNode (st : KState) (frameId : Nat) (root : RENodeId)
    (id : Option RENodeId) : Option HeapRENode :=
  match alookup (st.heapAt frameId) root with
  | none => none
  | some rootNode =>
      match id with
      | none => some rootNode.root
      | some child => alookup rootNode.childNodes child

/-- `node_ref.component_info()` through a pointer (call_frame.rs lines
463-479): package address and blueprint name of the component. -/
def componentInfoOf (p : RENodePointer) : FM (Nat × String) := do
  let st ← FM.getSt
  match p with
  | .HeapPtr frameId root id =>
      match heapLookupNode st frameId root id with
      | some (.Component packageAddress blueprintName _) =>
          pure (packageAddress, blueprintName)
      | _ => FM.panic "component info expected"
  | .Store (RENodeId.Component a) =>
      match alookup st.substates (SubstateId.ComponentInfo a) with
      | some (.Component packageAddress blueprintName) =>
          pure (packageAddress, blueprintName)
      | _ => FM.panic "component info expected"
  | .Store _ => FM.panic "component info expected"

/-- `node_ref.vault().resource_address()` through a pointer (call_frame.rs
lines 395-409). -/
def vaultResourceOf (p : RENodePointer) : FM Nat := do
  let st ← FM.getSt
  match p with
  | .HeapPtr frameId root id =>
      match heapLookupNode st frameId root id with
      | some (.Vault resourceAddress) => pure resourceAddress
      | _ => FM.panic "vault expected"
  | .Store (RENodeId.Vault v) =>
      match alookup st.substates (SubstateId.Vault v) with
      | some (.Vault resourceAddress) => pure resourceAddress
      | _ => FM.panic "vault expected"
  | .Store _ => FM.panic "vault expected"

/-- `node_ref.bucket().resource_address()` through a pointer (call_frame.rs
lines 383-393; buckets live only on the stack). -/
def bucketResourceOf (p : RENodePointer) : FM Nat := do
  let st ← FM.getSt
  match p with
  | .HeapPtr frameId root id =>
      match heapLookupNode st frameId root id with
      | some (.Bucket resourceAddress) => pure resourceAddress
      | _ => FM.panic "bucket expected"
  | .Store _ => FM.panic "bucket expected"

/-- The "Lock Resource Managers in request" loop (call_frame.rs lines
1726-1741 and 1782-1795): acquire a lock on every resource manager named in
the input, returning the locked pointers in acquisition order together with
the node-ref entries to expose to the child. -/
def lockResourceManagers (mutable : Bool) :
    List Nat → FM (List (RENodePointer × SubstateId × Bool) ×
      List (RENodeId × RENodePointer))
  | [] => pure ([], [])
  | resourceAddress :: rest => do
      let substateId := SubstateId.ResourceManager resourceAddress
      let nodeId := RENodeId.ResourceManager resourceAddress
      let ptr := RENodePointer.Store nodeId
      pointerAcquireLock ptr substateId mutable false
      let (locked, refs) ← lockResourceManagers mutable rest
      pure ((ptr, substateId, false) :: locked, (nodeId, ptr) :: refs)

/-- The "Pass argument references" loop (call_frame.rs lines 1803-1813 and
1427-1437): every referenced component address must already be visible. -/
def passArgumentRefs (refs : List (RENodeId × RENodePointer)) :
    List Nat → Except RuntimeError (List (RENodeId × RENodePointer))
  | [] => .ok []
  | addr :: rest =>
      match alookup refs (RENodeId.Component addr) with
      | some ptr =>
          match passArgumentRefs refs rest with
          | .error e => .error e
          | .ok more => .ok ((RENodeId.Component addr, ptr) :: more)
      | none =>
          .error (RuntimeError.InvokeMethodInvalidReferencePass
            (RENodeId.Component addr))

/-! ## invoke_method (call_frame.rs lines 1500-1876) -/

/-- Propagate a kernel-level failure (the `?` on a child-frame result). -/
def FM.throwK (e : KErr) : FM α := fun f st => (f, st, .error e)

/-- Insert-or-replace a batch of entries (successive `HashMap::insert`). -/
def upsertMany {κ β : Type} [DecidableEq κ] (l : List (κ × β))
    (adds : List (κ × β)) : List (κ × β) :=
  adds.foldl (fun acc p => upsert acc p.1 p.2) l

/-- Release a list of locked pointers in order (the loops at call_frame.rs
lines 1771-1773 and 1853-1857). -/
def releaseLocks : List (RENodePointer × SubstateId × Bool) → FM Unit
  | [] => pure ()
  | (p, substateId, writeThrough) :: rest => do
      pointerReleaseLock p substateId writeThrough
      releaseLocks rest

/-- What the "Authorization and state load" match of `invoke_method`
(call_frame.rs lines 1566-1801) produces for the child frame. -/
structure ReceiverSetup where
  maybeAuthZone : Option AuthZone
  lockedPointers : List (RENodePointer × SubstateId × Bool)
  nextFrameNodeRefs : List (RENodeId × RENodePointer)
  consumedNode : Option (RENodeId × HeapRootRENode)
  nextCallerAuthZone : Option AuthZone

/-- The receiver-location step of `invoke_method` (call_frame.rs lines
1568-1586): owned heap first, then node-refs, then the global fallback for
resource managers and the system node. -/
def findReceiverPointer (nodeId : RENodeId) : FM RENodePointer := do
  let f ← FM.getFrame
  let st ← FM.getSt
  if (alookup (st.heapAt f.depth) nodeId).isSome then
    pure (RENodePointer.HeapPtr f.depth nodeId none)
  else
    match alookup f.nodeRefs nodeId with
    | some ptr => pure ptr
    | none =>
        match nodeId with
        | .ResourceManager _ => pure (RENodePointer.Store nodeId)
        | .System => pure (RENodePointer.Store nodeId)
        | _ => FM.throw (RuntimeError.InvokeMethodInvalidReceiver nodeId)

/-- The "Load actor" step of `invoke_method` (call_frame.rs lines
1606-1646): for Scrypto calls, take a temporary shared ComponentInfo lock
and verify the component's package and blueprint. -/
def loadActorLocks (nodePointer : RENodePointer) (nodeId : RENodeId)
    (fn : FnIdentifier) : FM (List (RENodePointer × SubstateId × Bool)) := do
  match fn with
  | .Scrypto packageAddress blueprintName _ =>
      match nodeId with
      | .Component componentAddress => do
          let tempSubstateId := SubstateId.ComponentInfo componentAddress
          pointerAcquireLock nodePointer tempSubstateId false false
          let (pa, bn) ← componentInfoOf nodePointer
          if packageAddress ≠ pa then
            FM.throw (RuntimeError.MethodDoesNotExist fn)
          else if blueprintName ≠ bn then
            FM.throw (RuntimeError.MethodDoesNotExist fn)
          else pure [(nodePointer, tempSubstateId, false)]
      | _ => FM.panic "Should not get here."
  | .Native _ => pure ([] : List (RENodePointer × SubstateId × Bool))

/-- The "Lock Parent Substates" step of `invoke_method` (call_frame.rs lines
1648-1722): Component → Package, Bucket/Vault → ResourceManager. -/
def lockParentSubstates (nodePointer : RENodePointer) (nodeId : RENodeId) :
    FM (List (RENodePointer × SubstateId × Bool) ×
      List (RENodeId × RENodePointer)) := do
  match nodeId with
  | .Component _ => do
      let (packageAddress, _) ← componentInfoOf nodePointer
      let packageSubstateId := SubstateId.Package packageAddress
      let packageNodeId := RENodeId.Package packageAddress
      let packagePtr := RENodePointer.Store packageNodeId
      pointerAcquireLock packagePtr packageSubstateId false false
      pure ([(packagePtr, packageSubstateId, false)],
        [(packageNodeId, packagePtr)])
  | .Bucket _ => do
      let resourceAddress ← bucketResourceOf nodePointer
      let resourceSubstateId := SubstateId.ResourceManager resourceAddress
      let resourceNodeId := RENodeId.ResourceManager resourceAddress
      let resourcePtr := RENodePointer.Store resourceNodeId
      pointerAcquireLock resourcePtr resourceSubstateId true false
      pure ([(resourcePtr, resourceSubstateId, false)],
        [(resourceNodeId, resourcePtr)])
  | .Vault _ => do
      let resourceAddress ← vaultResourceOf nodePointer
      let resourceSubstateId := SubstateId.ResourceManager resourceAddress
      let resourceNodeId := RENodeId.ResourceManager resourceAddress
      let resourcePtr := RENodePointer.Store resourceNodeId
      pointerAcquireLock resourcePtr resourceSubstateId true false
      pure ([(resourcePtr, resourceSubstateId, false)],
        [(resourceNodeId, resourcePtr)])
  | _ => pure ([], [])

/-- The `Receiver::Consumed` ownership transfer of `invoke_method`
(call_frame.rs lines 1757-1765). -/
def takeConsumedNode (receiver : Receiver) (nodeId : RENodeId) :
    FM (Option (RENodeId × HeapRootRENode)) := do
  match receiver with
  | .Consumed _ => do
      let f' ← FM.getFrame
      let st' ← FM.getSt
      match alookup (st'.heapAt f'.depth) nodeId with
      | some heapNode => do
          FM.setSt (st'.setHeap f'.depth
            (aremove (st'.heapAt f'.depth) nodeId))
          pure (some (nodeId, heapNode))
      | none => FM.throw (RuntimeError.InvokeMethodInvalidReceiver nodeId)
  | _ => pure none

/-- The `Receiver::Ref`/`Receiver::Consumed` arm of `invoke_method`'s
authorization-and-state-load match (call_frame.rs lines 1567-1778): locate
the receiver, lock the primary substate (with the lock-fee special case),
take the temporary ComponentInfo lock for Scrypto calls, lock parent
substates and requested resource managers, run the auth check, extract a
consumed receiver, release the temporary locks. -/
def receiverSetupRef (ext : Ext) (receiver : Receiver) (nodeId : RENodeId)
    (fn : FnIdentifier) (input : ScryptoValue) : FM ReceiverSetup := do
  let f ← FM.getFrame
  let nodePointer ← findReceiverPointer nodeId
  let substateId ← FM.liftE (toPrimarySubstateId fn nodeId)
  let isLockFee : Bool :=
    match nodeId, fn with
    | .Vault _, .Native (.Vault .LockFee) => true
    | _, _ => false
  if isLockFee && (match nodePointer with
      | .HeapPtr _ _ _ => true
      | _ => false) then
    FM.throw (RuntimeError.LockFeeError LockFeeError.RENodeNotInTrack)
  else do
  pointerAcquireLock nodePointer substateId true isLockFee
  let lockedPrimary := [(nodePointer, substateId, isLockFee)]
  let temporaryLocks ← loadActorLocks nodePointer nodeId fn
  let (lockedParents, parentRefs) ← lockParentSubstates nodePointer nodeId
  let rmStep : FM (List (RENodePointer × SubstateId × Bool) ×
      List (RENodeId × RENodePointer)) :=
    match fn with
    | .Native _ => lockResourceManagers false input.resourceAddresses
    | _ => pure ([], [])
  let (lockedRMs, rmRefs) ← rmStep
  let authStep : FM Unit :=
    match ext.receiverAuth fn receiver input with
    | some e => FM.throw e
    | none => pure ()
  authStep
  let consumedNode ← takeConsumedNode receiver nodeId
  releaseLocks temporaryLocks
  pure
    { maybeAuthZone := none
      lockedPointers := lockedPrimary ++ lockedParents ++ lockedRMs
      nextFrameNodeRefs :=
        upsertMany [] (parentRefs ++ rmRefs ++ [(nodeId, nodePointer)])
      consumedNode := consumedNode
      nextCallerAuthZone := f.authZone }

/-- The `Receiver::AuthZoneRef` arm of `invoke_method`'s match
(call_frame.rs lines 1779-1800). -/
def receiverSetupAuthZone (input : ScryptoValue) : FM ReceiverSetup := do
  let f ← FM.getFrame
  match f.authZone with
  | some authZone => do
      let (lockedRMs, rmRefs) ←
        lockResourceManagers false input.resourceAddresses
      pure
        { maybeAuthZone := some authZone
          lockedPointers := lockedRMs
          nextFrameNodeRefs := upsertMany [] rmRefs
          consumedNode := none
          nextCallerAuthZone := none }
  | none => FM.throw RuntimeError.AuthZoneDoesNotExist

/-- The child-frame run of an invoke: given the child frame, its initial
owned heap, the operand auth zone (`Option<&mut AuthZone>`) and the input,
produce the updated shared state, the auth zone after mutation, and the
result (output plus values handed back).  `invoke_method`/`invoke_function`
are parameterized over this to break the mutual recursion with `run`. -/
def RunFn :=
  Frame → Heap → Option AuthZone → ScryptoValue → KState →
    KState × Option AuthZone × Except KErr (ScryptoValue × Heap)

/-- Run the child frame against the current shared state (the
`frame.run(...)` calls at call_frame.rs lines 1832-1839 and 1463-1470). -/
def runChild (runFn : RunFn) (childFrame : Frame) (owned : Heap)
    (mz : Option AuthZone) (input : ScryptoValue) :
    FM (KState × Option AuthZone × Except KErr (ScryptoValue × Heap)) := do
  let st2 ← FM.getSt
  pure (runFn childFrame owned mz input st2)

/-- `CallFrame::invoke_method` (call_frame.rs lines 1500-1876). -/
def invokeMethodCore (ext : Ext) (runFn : RunFn) (receiver : Receiver)
    (fnIdentifier : FnIdentifier) (input : ScryptoValue) : FM ScryptoValue := do
  let f ← FM.getFrame
  if f.depth = f.maxDepth then
    FM.throw RuntimeError.MaxCallDepthLimitReached
  else do
  feeConsume (ext.invokeMethodCost receiver input) "invoke_method"
  feeConsume (ext.runMethodCost (some receiver) fnIdentifier input) "run_method"
  FM.liftE (process_call_data input)
  let (takenValues, missing) ← takeAvailableValues input.node_ids false
  let missingStep : FM Unit :=
    match missing.head? with
    | some missingValue => FM.throw (RuntimeError.RENodeNotFound missingValue)
    | none => pure ()
  missingStep
  let nextOwnedBase := takenValues.map (fun p => (p.1, restrictProofRoot p.2))
  let setupStep : FM ReceiverSetup :=
    match receiver with
    | .Ref nodeId => receiverSetupRef ext receiver nodeId fnIdentifier input
    | .Consumed nodeId =>
        receiverSetupRef ext receiver nodeId fnIdentifier input
    | .AuthZoneRef => receiverSetupAuthZone input
  let setup ← setupStep
  let f2 ← FM.getFrame
  let argRefs ← FM.liftE
    (passArgumentRefs f2.nodeRefs input.refedComponentAddresses)
  let nextFrameNodeRefs := upsertMany setup.nextFrameNodeRefs argRefs
  let nextOwnedValues := nextOwnedBase ++ setup.consumedNode.toList
  let childFrame : Frame :=
    { depth := f2.depth + 1
      maxDepth := f2.maxDepth
      actor := ⟨fnIdentifier, some receiver⟩
      nodeRefs := nextFrameNodeRefs
      authZone :=
        match fnIdentifier with
        | .Scrypto _ _ _ => some AuthZone.new
        | _ => none
      callerAuthZone := setup.nextCallerAuthZone }
  let (st3, zoneAfter, runResult) ←
    runChild runFn childFrame nextOwnedValues setup.maybeAuthZone input
  FM.setSt (st3.setHeap (f2.depth + 1) [])
  let zoneStep : FM Unit :=
    match receiver with
    | .AuthZoneRef => FM.setFrame { f2 with authZone := zoneAfter }
    | _ => pure ()
  zoneStep
  match runResult with
  | .error e => FM.throwK e
  | .ok (result, receivedValues) => do
      releaseLocks setup.lockedPointers
      let f3 ← FM.getFrame
      let st5 ← FM.getSt
      FM.setSt (st5.setHeap f3.depth
        (upsertMany (st5.heapAt f3.depth) receivedValues))
      let acceptedRefs := result.refedComponentAddresses.map (fun a =>
        (RENodeId.Component a, RENodePointer.Store (RENodeId.Component a)))
      FM.setFrame { f3 with nodeRefs := upsertMany f3.nodeRefs acceptedRefs }
      pure result

/-! ## invoke_function (call_frame.rs lines 1299-1498) -/

/-- Release raw track locks in order (call_frame.rs lines 1475-1479). -/
def releaseTrackLocks : List SubstateId → FM Unit
  | [] => pure ()
  | substateId :: rest => do
      let st ← FM.getSt
      FM.setSt (trackReleaseLock st substateId false)
      releaseTrackLocks rest

/-- The package lock of `invoke_function`'s Scrypto branch (call_frame.rs
lines 1365-1373), with the source's error translation. -/
def acquirePackageLock (packageAddress : Nat) : FM Unit := do
  let st ← FM.getSt
  match trackAcquireLock st (SubstateId.Package packageAddress) false false with
  | .ok st' => FM.setSt st'
  | .error TrackError.NotFound =>
      FM.throw (RuntimeError.PackageNotFound packageAddress)
  | .error TrackError.Reentrancy =>
      FM.panic "Package reentrancy error should never occur."
  | .error TrackError.StateTrackErrorRENodeAlreadyTouched =>
      FM.panic "Unexpected"

/-- The Scrypto state-load of `invoke_function` (call_frame.rs lines
1359-1393): lock the package, check blueprint, function and input schema. -/
def scryptoFunctionChecks (ext : Ext) (fn : FnIdentifier)
    (packageAddress : Nat) (blueprintName ident : String)
    (input : ScryptoValue) : FM (List SubstateId) := do
  acquirePackageLock packageAddress
  let st ← FM.getSt
  match alookup st.substates (SubstateId.Package packageAddress) with
  | some (.Package blueprints) =>
      match alookup blueprints blueprintName with
      | some fns =>
          if fns.contains ident then
            if ext.fnInputMatches fn input then
              pure [SubstateId.Package packageAddress]
            else FM.throw (RuntimeError.InvalidFnInput fn)
          else FM.throw (RuntimeError.MethodDoesNotExist fn)
      | none =>
          FM.throw (RuntimeError.BlueprintNotFound packageAddress blueprintName)
  | _ => FM.panic "package expected"

/-- The depth-0 component-visibility loop of `invoke_function`
(call_frame.rs lines 1416-1425): prove each referenced component exists by
an acquire/release pair on its `ComponentInfo`, then expose it. -/
def makeComponentsVisible :
    List Nat → FM (List (RENodeId × RENodePointer))
  | [] => pure []
  | componentAddress :: rest => do
      let nodeId := RENodeId.Component componentAddress
      let substateId := SubstateId.ComponentInfo componentAddress
      let ptr := RENodePointer.Store nodeId
      pointerAcquireLock ptr substateId false false
      pointerReleaseLock ptr substateId false
      let more ← makeComponentsVisible rest
      pure ((nodeId, ptr) :: more)

/-- `CallFrame::invoke_function` (call_frame.rs lines 1299-1498). -/
def invokeFunctionCore (ext : Ext) (runFn : RunFn)
    (fnIdentifier : FnIdentifier) (input : ScryptoValue) : FM ScryptoValue := do
  let f ← FM.getFrame
  if f.depth = f.maxDepth then
    FM.throw RuntimeError.MaxCallDepthLimitReached
  else do
  feeConsume (ext.invokeFunctionCost fnIdentifier input) "invoke_function"
  feeConsume (ext.runMethodCost none fnIdentifier input) "run_function"
  FM.liftE (process_call_data input)
  let (takenValues, missing) ← takeAvailableValues input.node_ids false
  let missingStep : FM Unit :=
    match missing.head? with
    | some missingValue => FM.throw (RuntimeError.RENodeNotFound missingValue)
    | none => pure ()
  missingStep
  let nextOwnedValues := takenValues.map (fun p => (p.1, restrictProofRoot p.2))
  let lockStep : FM (List SubstateId) :=
    match fnIdentifier with
    | .Scrypto packageAddress blueprintName ident =>
        scryptoFunctionChecks ext fnIdentifier packageAddress blueprintName
          ident input
    | .Native _ => pure ([] : List SubstateId)
  let lockedValues ← lockStep
  let f1 ← FM.getFrame
  let refsStep : FM (List (RENodeId × RENodePointer)) :=
    if f1.depth = 0 then do
      let componentAddresses :=
        (input.refedComponentAddresses ++ ext.tpInstructionRefs input).dedup
      let refs ← makeComponentsVisible componentAddresses
      pure (upsertMany [] refs)
    else do
      let argRefs ← FM.liftE
        (passArgumentRefs f1.nodeRefs input.refedComponentAddresses)
      pure (upsertMany [] argRefs)
  let nextFrameNodeRefs ← refsStep
  let f2 ← FM.getFrame
  let childFrame : Frame :=
    { depth := f2.depth + 1
      maxDepth := f2.maxDepth
      actor := ⟨fnIdentifier, none⟩
      nodeRefs := nextFrameNodeRefs
      authZone := some AuthZone.new
      callerAuthZone := f2.authZone }
  let (st3, _, runResult) ←
    runChild runFn childFrame nextOwnedValues none input
  FM.setSt (st3.setHeap (f2.depth + 1) [])
  match runResult with
  | .error e => FM.throwK e
  | .ok (result, receivedValues) => do
      releaseTrackLocks lockedValues
      let f3 ← FM.getFrame
      let st5 ← FM.getSt
      FM.setSt (st5.setHeap f3.depth
        (upsertMany (st5.heapAt f3.depth) receivedValues))
      let acceptedRefs := result.refedComponentAddresses.map (fun a =>
        (RENodeId.Component a, RENodePointer.Store (RENodeId.Component a)))
      FM.setFrame { f3 with nodeRefs := upsertMany f3.nodeRefs acceptedRefs }
      pure result

/-! ## node_create / node_globalize (call_frame.rs lines 2088-2245) and the
substate read/write operations (lines 1191-1228, 2247-2366) -/

/-- `HeapRootRENode::to_nodes(id)`: the root and its children as a flat
node map. -/
def HeapRootRENode.to_nodes (v : HeapRootRENode) (id : RENodeId) :
    List (RENodeId × HeapRENode) :=
  (id, v.root) :: v.childNodes

/-- Flatten taken root nodes into a node map (`child_nodes.extend(...)`). -/
def flattenNodes (taken : Heap) : List (RENodeId × HeapRENode) :=
  taken.foldl (fun acc p => acc ++ p.2.to_nodes p.1) []

/-- Update the substate store. -/
def modifySubstates (g : List (SubstateId × Substate) →
    List (SubstateId × Substate)) : FM Unit := do
  let st ← FM.getSt
  FM.setSt { st with substates := g st.substates }

/-- `insert_non_root_nodes` (call_frame.rs lines 109-138): persist vaults,
components and kv-stores; any other kind is a kernel bug. -/
def insertNonRootNodes : List (RENodeId × HeapRENode) → FM Unit
  | [] => pure ()
  | (id, node) :: rest => do
      match id, node with
      | RENodeId.Vault v, HeapRENode.Vault resourceAddress =>
          modifySubstates (fun s =>
            upsert s (SubstateId.Vault v) (Substate.Vault resourceAddress))
      | RENodeId.Component a, HeapRENode.Component pa bn state =>
          modifySubstates (fun s =>
            upsert (upsert s (SubstateId.ComponentInfo a)
                (Substate.Component pa bn))
              (SubstateId.ComponentState a) (Substate.ComponentState state))
      | RENodeId.KeyValueStore k, HeapRENode.KeyValueStore entries =>
          modifySubstates (fun s => entries.foldl (fun acc e =>
            upsert acc (SubstateId.KeyValueStoreEntry k e.1)
              (Substate.KeyValueStoreEntry (some e.2))) s)
      | _, _ => FM.panic "Invalid node being persisted"
      insertNonRootNodes rest

/-- `CallFrame::new_node_id` (call_frame.rs lines 1235-1290).  Modelled from
the spec: the IdAllocator mints deterministically from its counter; only the
node kind tag matters here. -/
def newNodeId (node : HeapRENode) : FM RENodeId := do
  let st ← FM.getSt
  let mint := st.nextId
  let bump : FM Unit := FM.setSt { st with nextId := mint + 1 }
  match node with
  | .Bucket _ => do bump; pure (RENodeId.Bucket mint)
  | .Proof _ => do bump; pure (RENodeId.Proof mint)
  | .Worktop => pure RENodeId.Worktop
  | .Vault _ => do bump; pure (RENodeId.Vault mint)
  | .KeyValueStore _ => do bump; pure (RENodeId.KeyValueStore mint)
  | .Package _ => do bump; pure (RENodeId.Package mint)
  | .Resource _ => do bump; pure (RENodeId.ResourceManager mint)
  | .Component _ _ _ => do bump; pure (RENodeId.Component mint)
  | .System => FM.panic "Should not get here."

/-- `CallFrame::node_create` (call_frame.rs lines 2088-2152). -/
def nodeCreateCore (ext : Ext) (reNode : HeapRENode) : FM RENodeId := do
  feeConsume ext.createCost "create"
  let children := ext.childNodeIds reNode
  let (takenRootNodes, missing) ← takeAvailableValues children true
  let missingStep : FM Unit :=
    match missing.head? with
    | some missingNode =>
        FM.throw (RuntimeError.RENodeCreateNodeNotFound missingNode)
    | none => pure ()
  missingStep
  let childNodes := flattenNodes takenRootNodes
  let nodeId ← newNodeId reNode
  let f ← FM.getFrame
  let st ← FM.getSt
  FM.setSt (st.setHeap f.depth
    (upsert (st.heapAt f.depth) nodeId ⟨reNode, childNodes⟩))
  let refStep : FM Unit :=
    match nodeId with
    | .KeyValueStore _ | .ResourceManager _ | .Component _ =>
        let newRefs := upsert f.nodeRefs nodeId
          (RENodePointer.HeapPtr f.depth nodeId none)
        FM.setFrame { f with nodeRefs := newRefs }
    | _ => pure ()
  refStep
  pure nodeId

/-- `CallFrame::node_globalize` (call_frame.rs lines 2154-2245). -/
def nodeGlobalizeCore (ext : Ext) (nodeId : RENodeId) : FM Unit := do
  feeConsume ext.globalizeCost "globalize"
  if ¬ canGlobalize nodeId then
    FM.throw (RuntimeError.RENodeGlobalizeTypeNotAllowed nodeId)
  else do
  let (takenNodes, missingNodes) ← takeAvailableValues [nodeId] false
  if ¬ missingNodes.isEmpty then FM.panic "assert missing_nodes.is_empty()"
  else do
  match takenNodes with
  | [(_, rootNode)] => do
      let persistStep : FM Unit :=
        match nodeId, rootNode.root with
        | RENodeId.Component a, HeapRENode.Component pa bn state => do
            modifySubstates (fun s =>
              upsert (upsert s (SubstateId.ComponentInfo a)
                  (Substate.Component pa bn))
                (SubstateId.ComponentState a) (Substate.ComponentState state))
            insertNonRootNodes rootNode.childNodes
        | RENodeId.Package a, HeapRENode.Package blueprints => do
            modifySubstates (fun s =>
              upsert s (SubstateId.Package a) (Substate.Package blueprints))
            insertNonRootNodes rootNode.childNodes
        | RENodeId.ResourceManager a, HeapRENode.Resource maybeNonFungibles => do
            modifySubstates (fun s =>
              upsert s (SubstateId.ResourceManager a) Substate.Resource)
            insertNonRootNodes rootNode.childNodes
            match maybeNonFungibles with
            | some ids =>
                modifySubstates (fun s => ids.foldl (fun acc i =>
                  upsert acc (SubstateId.NonFungible a i)
                    (Substate.NonFungible (some []))) s)
            | none => pure ()
        | _, _ => FM.panic "Not expected"
      persistStep
      let f ← FM.getFrame
      let newRefs := upsert f.nodeRefs nodeId (RENodePointer.Store nodeId)
      FM.setFrame { f with nodeRefs := newRefs }
  | _ => FM.panic "assert taken_nodes.len() == 1"

/-- Modelled from the spec: `SubstateProperties::get_node_id` — the owning
node of each substate address (one-to-one). -/
def substateNodeId : SubstateId → RENodeId
  | .Package a => .Package a
  | .ComponentInfo a => .Component a
  | .ComponentState a => .Component a
  | .ResourceManager a => .ResourceManager a
  | .NonFungibleSpace a => .ResourceManager a
  | .NonFungible a _ => .ResourceManager a
  | .KeyValueStoreSpace k => .KeyValueStore k
  | .KeyValueStoreEntry k _ => .KeyValueStore k
  | .Vault v => .Vault v
  | .System => .System
  | .Bucket b => .Bucket b
  | .Proof p => .Proof p
  | .Worktop => .Worktop

/-- Modelled from the spec: `SubstateProperties::can_own_nodes` — only
component state and kv-store entries own child nodes. -/
def canOwnNodes : SubstateId → Bool
  | .ComponentState _ => true
  | .KeyValueStoreEntry _ _ => true
  | _ => false

/-- A `ScryptoValue` carrying no ids or references (e.g. a decoded
component-info or non-fungible wrapper). -/
def emptyScryptoValue : ScryptoValue := ⟨[], [], [], [], [], [], []⟩

/-- `RENodeRefMut::read_scrypto_value` (call_frame.rs lines 504-528)
resolved through a pointer. -/
def readScryptoValueAt (ext : Ext) (p : RENodePointer)
    (substateId : SubstateId) : FM ScryptoValue := do
  let st ← FM.getSt
  match substateId with
  | .ComponentInfo _ => do
      let _ ← componentInfoOf p
      pure emptyScryptoValue
  | .ComponentState _ =>
      match p with
      | .HeapPtr frameId root id =>
          match heapLookupNode st frameId root id with
          | some (.Component _ _ state) => pure (ext.decodeValue state)
          | _ => FM.panic "component state expected"
      | .Store (RENodeId.Component a) =>
          match alookup st.substates (SubstateId.ComponentState a) with
          | some (.ComponentState raw) => pure (ext.decodeValue raw)
          | _ => FM.panic "component state expected"
      | .Store _ => FM.panic "component state expected"
  | .NonFungible _ _ => pure emptyScryptoValue
  | .KeyValueStoreEntry k key =>
      match p with
      | .HeapPtr frameId root id =>
          match heapLookupNode st frameId root id with
          | some (.KeyValueStore entries) =>
              match alookup entries key with
              | some raw => pure (ext.decodeValue raw)
              | none => pure emptyScryptoValue
          | _ => FM.panic "kv store expected"
      | .Store _ =>
          match alookup st.substates (SubstateId.KeyValueStoreEntry k key) with
          | some (.KeyValueStoreEntry (some raw)) => pure (ext.decodeValue raw)
          | _ => pure emptyScryptoValue
  | _ => FM.panic "Should never have received permissions to read this native type."

/-- The `expect("Should never fail")` ComponentInfo acquire of
`read_value_internal` (call_frame.rs lines 1205-1209). -/
def acquireComponentInfoOrPanic (p : RENodePointer) (substateId : SubstateId) :
    FM Unit := do
  match p with
  | .Store _ =>
      let st ← FM.getSt
      match trackAcquireLock st substateId false false with
      | .ok st' => FM.setSt st'
      | .error _ => FM.panic "Should never fail"
  | .HeapPtr _ _ _ => pure ()

/-- `CallFrame::read_value_internal` (call_frame.rs lines 1191-1228). -/
def readValueInternal (ext : Ext) (substateId : SubstateId) :
    FM (RENodePointer × ScryptoValue) := do
  let f ← FM.getFrame
  let nodeId := substateNodeId substateId
  match alookup f.nodeRefs nodeId with
  | none => FM.throw (RuntimeError.SubstateReadSubstateNotFound substateId)
  | some nodePointer => do
      match substateId with
      | .ComponentInfo _ => acquireComponentInfoOrPanic nodePointer substateId
      | _ => pure ()
      let currentValue ← readScryptoValueAt ext nodePointer substateId
      match substateId with
      | .ComponentInfo _ => pointerReleaseLock nodePointer substateId false
      | _ => pure ()
      pure (nodePointer, currentValue)

/-- `CallFrame::substate_read` (call_frame.rs lines 2247-2275). -/
def substateReadCore (ext : Ext) (substateId : SubstateId) :
    FM ScryptoValue := do
  feeConsume ext.readCost "read"
  let f ← FM.getFrame
  if ¬ ext.isSubstateReadable f.actor substateId then
    FM.throw (RuntimeError.SubstateReadNotReadable substateId)
  else do
  let (parentPointer, currentValue) ← readValueInternal ext substateId
  let f2 ← FM.getFrame
  let childRefs := currentValue.node_ids.map (fun c =>
    (c, parentPointer.childPtr c))
  FM.setFrame { f2 with nodeRefs := upsertMany f2.nodeRefs childRefs }
  pure currentValue

/-- Modify the root node at `(frameId, root)` through a transformation that
fails on a wrong kind (the typed accessors panic in the source). -/
def heapModifyRoot (frameId : Nat) (root : RENodeId)
    (g : HeapRootRENode → Option HeapRootRENode) : FM Unit := do
  let st ← FM.getSt
  match alookup (st.heapAt frameId) root with
  | some rv =>
      match g rv with
      | some rv' => FM.setSt (st.setHeap frameId
          (upsert (st.heapAt frameId) root rv'))
      | none => FM.panic "wrong node kind"
  | none => FM.panic "node missing"

/-- Apply a payload transformation to the designated node (root or child)
of a root node. -/
def modifyNodeIn (rv : HeapRootRENode) (id : Option RENodeId)
    (h : HeapRENode → Option HeapRENode) : Option HeapRootRENode :=
  match id with
  | none => (h rv.root).map (fun r => { rv with root := r })
  | some c =>
      match alookup rv.childNodes c with
      | some n => (h n).map (fun n' =>
          { rv with childNodes := upsert rv.childNodes c n' })
      | none => none

/-- `RENodeRefMut::write_value` (call_frame.rs lines 550-595) resolved
through a pointer: component-state set, kv-store put or non-fungible put,
together with the insertion of the moved child nodes. -/
def writeValueAt (p : RENodePointer) (substateId : SubstateId)
    (value : ScryptoValue) (taken : Heap) : FM Unit := do
  match substateId, p with
  | .ComponentState _, .HeapPtr frameId root id =>
      heapModifyRoot frameId root (fun rv =>
        (modifyNodeIn rv id (fun n =>
          match n with
          | .Component pa bn _ => some (.Component pa bn value.raw)
          | _ => none)).map (fun rv' =>
            { rv' with childNodes := rv'.childNodes ++ flattenNodes taken }))
  | .ComponentState a, .Store _ => do
      modifySubstates (fun s => upsert s (SubstateId.ComponentState a)
        (Substate.ComponentState value.raw))
      insertNonRootNodes (flattenNodes taken)
  | .KeyValueStoreEntry _ key, .HeapPtr frameId root id =>
      heapModifyRoot frameId root (fun rv =>
        (modifyNodeIn rv id (fun n =>
          match n with
          | .KeyValueStore entries =>
              some (.KeyValueStore (upsert entries key value.raw))
          | _ => none)).map (fun rv' =>
            { rv' with childNodes := rv'.childNodes ++ flattenNodes taken }))
  | .KeyValueStoreEntry k key, .Store _ => do
      modifySubstates (fun s => upsert s (SubstateId.KeyValueStoreEntry k key)
        (Substate.KeyValueStoreEntry (some value.raw)))
      insertNonRootNodes (flattenNodes taken)
  | .NonFungible _ id, .HeapPtr frameId root cid =>
      heapModifyRoot frameId root (fun rv =>
        modifyNodeIn rv cid (fun n =>
          match n with
          | .Resource (some ids) => some (.Resource (some (ids ++ [id])))
          | _ => none))
  | .NonFungible addr id, .Store _ =>
      modifySubstates (fun s => upsert s (SubstateId.NonFungible addr id)
        (Substate.NonFungible (some value.raw)))
  | _, _ => FM.panic "Should not get here"

/-- `CallFrame::substate_write` (call_frame.rs lines 2308-2366). -/
def substateWriteCore (ext : Ext) (substateId : SubstateId)
    (value : ScryptoValue) : FM Unit := do
  feeConsume ext.writeCost "write"
  let f ← FM.getFrame
  if ¬ ext.isSubstateWriteable f.actor substateId then
    FM.throw (RuntimeError.SubstateWriteNotWriteable substateId)
  else do
  let nodeIds := value.node_ids
  let (takenNodes, missingNodes) ←
    if ¬ nodeIds.isEmpty then
      if ¬ canOwnNodes substateId then FM.throw RuntimeError.ValueNotAllowed
      else takeAvailableValues nodeIds true
    else pure (([] : Heap), ([] : List RENodeId))
  let (pointer, currentValue) ← readValueInternal ext substateId
  FM.liftE (verify_stored_value_update currentValue.node_ids missingNodes)
  writeValueAt pointer substateId value takenNodes

/-- `CallFrame::emit_log` (call_frame.rs lines 2386-2396). -/
def emitLogCore (ext : Ext) (message : String) : FM Unit := do
  feeConsume (ext.emitLogCost message.length) "emit_log"
  let st ← FM.getSt
  FM.setSt { st with logs := st.logs ++ [message] }

/-! ## run() (call_frame.rs lines 952-1153) -/

/-- The system operations a frame body can perform, used to model the native
modules and WASM guests (which live outside the provided sources) as
arbitrary finite sequences of SystemApi calls. -/
inductive KOp
  | opInvokeMethod (receiver : Receiver) (fn : FnIdentifier) (input : ScryptoValue)
  | opInvokeFunction (fn : FnIdentifier) (input : ScryptoValue)
  | opNodeCreate (node : HeapRENode)
  | opNodeGlobalize (nodeId : RENodeId)
  | opSubstateRead (id : SubstateId)
  | opSubstateWrite (id : SubstateId) (value : ScryptoValue)
  | opEmitLog (message : String)
  | opFail (e : RuntimeError)

/-- Modelled from the spec: the body of each actor (native module dispatch
or instrumented WASM export) as the SystemApi calls it makes and the output
value it returns. -/
structure BodyOracle where
  bodyOf : REActor → ScryptoValue → List KOp × ScryptoValue

/-- The returned-references check of `run` (call_frame.rs lines 1130-1138):
every returned component address must be a Store (globalized) ref. -/
def checkReturnRefs (refs : List (RENodeId × RENodePointer)) :
    List Nat → Except RuntimeError Unit
  | [] => .ok ()
  | addr :: rest =>
      match alookup refs (RENodeId.Component addr) with
      | some (RENodePointer.Store _) => checkReturnRefs refs rest
      | _ => .error (RuntimeError.InvokeMethodInvalidReferencePass
          (RENodeId.Component addr))

/-- Modelled from the spec: `AuthZone::main`.  Only `Clear` (drop all
contained proofs) is exercised by the embedded kernel paths (the frame-exit
cleanup); the remaining auth-zone methods run through native modules outside
the provided sources and are mapped to the `AuthZoneError` bucket. -/
def authZoneMain (zfn : AuthZoneFnIdentifier) (_az : AuthZone)
    (_input : ScryptoValue) : Except RuntimeError (ScryptoValue × AuthZone) :=
  match zfn with
  | .Clear => .ok (emptyScryptoValue, ⟨[]⟩)
  | _ => .error RuntimeError.AuthZoneError

/-- The receiver/function combinations of `run`'s dispatch match
(call_frame.rs lines 960-1114), excluding the AuthZone and Scrypto arms
which are handled separately. -/
def nativeComboOk : NativeFnIdentifier → Option Receiver → Bool
  | .TransactionProcessor _, none => true
  | .Package _, none => true
  | .ResourceManager _, none => true
  | .Bucket _, some (.Consumed (.Bucket _)) => true
  | .Proof _, some (.Consumed (.Proof _)) => true
  | .Bucket _, some (.Ref (.Bucket _)) => true
  | .Proof _, some (.Ref (.Proof _)) => true
  | .Worktop _, some (.Ref .Worktop) => true
  | .Vault _, some (.Ref (.Vault _)) => true
  | .Component _, some (.Ref (.Component _)) => true
  | .ResourceManager _, some (.Ref (.ResourceManager _)) => true
  | .System _, some (.Ref .System) => true
  | _, _ => false

/-- Execute one body operation (dispatch into the embedded SystemApi). -/
def execOp (ext : Ext) (runSub : RunFn) : KOp → FM Unit
  | .opInvokeMethod receiver fn input => do
      let _ ← invokeMethodCore ext runSub receiver fn input
      pure ()
  | .opInvokeFunction fn input => do
      let _ ← invokeFunctionCore ext runSub fn input
      pure ()
  | .opNodeCreate node => do
      let _ ← nodeCreateCore ext node
      pure ()
  | .opNodeGlobalize nodeId => nodeGlobalizeCore ext nodeId
  | .opSubstateRead substateId => do
      let _ ← substateReadCore ext substateId
      pure ()
  | .opSubstateWrite substateId value => substateWriteCore ext substateId value
  | .opEmitLog message => emitLogCore ext message
  | .opFail e => FM.throw e

/-- Execute a body's operations in order. -/
def execOps (ext : Ext) (runSub : RunFn) : List KOp → FM Unit
  | [] => pure ()
  | op :: rest => do
      execOp ext runSub op
      execOps ext runSub rest

/-- `CallFrame::run` (call_frame.rs lines 952-1153): dispatch the actor's
body, then the return-path: validate the returned value, extract the values
to hand back, check returned references, clear the frame's auth zone through
a recursive `invoke_method`, and drop all still-owned values. -/
def dispatchActor (ext : Ext) (bo : BodyOracle) (runSub : RunFn)
    (maybeAuthZone : Option AuthZone) (input : ScryptoValue) :
    FM (ScryptoValue × Option AuthZone) := do
  let f ← FM.getFrame
  match f.actor.fnIdentifier, f.actor.receiver with
  | .Native (.AuthZone zfn), some .AuthZoneRef =>
      (match maybeAuthZone with
       | none => FM.panic "maybe_authzone.unwrap()"
       | some az =>
           match authZoneMain zfn az input with
           | .error e => FM.throw e
           | .ok (out, az') => pure (out, some az'))
  | .Scrypto _ _ _, receiver =>
      (match receiver with
       | some (.Ref (RENodeId.Component _)) | none => do
           let (ops, out) := bo.bodyOf f.actor input
           execOps ext runSub ops
           if ext.fnOutputMatches f.actor.fnIdentifier out then
             pure (out, maybeAuthZone)
           else FM.throw (RuntimeError.InvalidFnOutput f.actor.fnIdentifier)
       | _ => FM.throw (RuntimeError.MethodDoesNotExist f.actor.fnIdentifier))
  | .Native nfn, receiver =>
      if nativeComboOk nfn receiver then do
        let (ops, out) := bo.bodyOf f.actor input
        execOps ext runSub ops
        pure (out, maybeAuthZone)
      else FM.throw (RuntimeError.MethodDoesNotExist f.actor.fnIdentifier)

/-- The return path of `run` (call_frame.rs lines 1119-1152): validate the
returned value, take the returned node ids, check returned references, clear
the frame's auth zone through a recursive `invoke_method`, drop all
still-owned values. -/
def runEpilogue (ext : Ext) (runSub : RunFn) (output : ScryptoValue) :
    FM (ScryptoValue × Heap) := do
  FM.liftE (process_return_data output)
  let (takenValues, missing) ← takeAvailableValues output.node_ids false
  let missingStep : FM Unit :=
    match missing.head? with
    | some missingNode => FM.throw (RuntimeError.RENodeNotFound missingNode)
    | none => pure ()
  missingStep
  let fr ← FM.getFrame
  FM.liftE (checkReturnRefs fr.nodeRefs output.refedComponentAddresses)
  let clearStep : FM Unit :=
    if fr.authZone.isSome then do
      let _ ← invokeMethodCore ext runSub Receiver.AuthZoneRef
        (FnIdentifier.Native (NativeFnIdentifier.AuthZone
          AuthZoneFnIdentifier.Clear))
        emptyScryptoValue
      pure ()
    else pure ()
  clearStep
  dropOwnedValues
  pure (output, takenValues)

def runFrameM (ext : Ext) (bo : BodyOracle) (runSub : RunFn)
    (maybeAuthZone : Option AuthZone) (input : ScryptoValue) :
    FM (ScryptoValue × Heap × Option AuthZone) := do
  let (output, zoneAfter) ← dispatchActor ext bo runSub maybeAuthZone input
  let (result, takenValues) ← runEpilogue ext runSub output
  pure (result, takenValues, zoneAfter)

/-- The interpreter: run a frame with a fuel bound on the nesting of
`run`/`invoke` (the real nesting is bounded by `max_depth`). -/
def runFrameFn (ext : Ext) (bo : BodyOracle) : Nat → RunFn
  | 0 => fun _ _ zone _ st => (st, zone, .error (KErr.panicked "out of fuel"))
  | fuel + 1 => fun frame initialOwned zone input st =>
      let st0 := st.setHeap frame.depth initialOwned
      match runFrameM ext bo (runFrameFn ext bo fuel) zone input frame st0 with
      | (_, st', .ok (output, taken, zone')) => (st', zone', .ok (output, taken))
      | (_, st', .error e) => (st', zone, .error e)

/-! ## Concrete collaborators used by the witnesses -/

/-- A body oracle whose bodies perform no operations and return the unit
value. -/
def trivialBody : BodyOracle := ⟨fun _ _ => ([], emptyScryptoValue)⟩

/-- A concrete instantiation of the external collaborators: unit costs,
permissive auth and visibility, trivial decoding. -/
def witnessExt : Ext :=
  { invokeMethodCost := fun _ _ => 1
    runMethodCost := fun _ _ _ => 1
    invokeFunctionCost := fun _ _ => 1
    createCost := 1
    globalizeCost := 1
    readCost := 1
    writeCost := 1
    emitLogCost := fun n => n
    receiverAuth := fun _ _ _ => none
    fnInputMatches := fun _ _ => true
    fnOutputMatches := fun _ _ => true
    isSubstateReadable := fun _ _ => true
    isSubstateWriteable := fun _ _ => true
    tpInstructionRefs := fun _ => []
    childNodeIds := fun _ => []
    decodeValue := fun _ => emptyScryptoValue }

/-- An empty kernel state with a 100-unit fee reserve. -/
def emptyKState : KState :=
  { locks := [], lockLog := [], substates := [], touched := [], heaps := []
    feeBalance := 100, feeCharges := [], logs := [], nextId := 0 }

/-- A run function that is never reached (used where the theorem's path
fails before spawning a child frame). -/
def haltRunFn : RunFn :=
  fun _ _ zone _ st => (st, zone, .error (KErr.panicked "unused"))

/-- A child run that performs no operations, returns the unit value and
hands no values back. -/
def inertRunFn : RunFn :=
  fun _ _ zone _ st => (st, zone, .ok (emptyScryptoValue, []))

/-- A frame already at the maximum call depth. -/
def maxDepthFrame : Frame :=
  { depth := 2, maxDepth := 2
    actor := ⟨FnIdentifier.Native (NativeFnIdentifier.TransactionProcessor
      TransactionProcessorFnIdentifier.Run), none⟩
    nodeRefs := [], authZone := none, callerAuthZone := none }

/-- A root-level frame with ample head-room. -/
def baseFrame : Frame :=
  { depth := 0, maxDepth := 2
    actor := ⟨FnIdentifier.Native (NativeFnIdentifier.TransactionProcessor
      TransactionProcessorFnIdentifier.Run), none⟩
    nodeRefs := [], authZone := none, callerAuthZone := none }

/-- A value carrying one kv-store id. -/
def kvValue : ScryptoValue := ⟨[], [], [], [], [7], [], []⟩

/-- A value carrying one vault id (and nothing else). -/
def vaultValue : ScryptoValue := ⟨[], [], [], [9], [], [], []⟩

/-- A vault root node used in several witnesses. -/
def vaultHeapNode : HeapRootRENode := ⟨HeapRENode.Vault 5, []⟩

/-- A state with vault 9 held in the frame-0 heap. -/
def heapVaultState : KState :=
  { emptyKState with heaps := [[(RENodeId.Vault 9, vaultHeapNode)]] }

/-- A frame that sees vault 9 through a Store pointer. -/
def lockFeeFrame : Frame :=
  { baseFrame with
      nodeRefs := [(RENodeId.Vault 9, RENodePointer.Store (RENodeId.Vault 9))] }

/-- A state whose Track holds vault 9 (resource 5) and resource manager 5. -/
def lockFeeState : KState :=
  { emptyKState with
      substates := [(SubstateId.Vault 9, Substate.Vault 5),
        (SubstateId.ResourceManager 5, Substate.Resource)] }

/-- A child run that applies a transformation to the auth zone it was
handed (observing which zone the parent passed down). -/
def probeRunFn (g : Option AuthZone → Option AuthZone) : RunFn :=
  fun _ _ zone _ st => (st, g zone, .ok (emptyScryptoValue, []))

/-- The witness collaborators with an auth policy that denies every
receiver method (`NotAuthorized` with rule tag 7). -/
def authFailExt : Ext :=
  { witnessExt with
      receiverAuth := fun _ _ _ => some (RuntimeError.NotAuthorized 7) }

/-- A one-proof auth zone used by the auth-zone witnesses. -/
def probedAuthZone : AuthZone := ⟨[bucketCreateProof ECDSA_TOKEN [[3]]]⟩

/-- The base frame carrying `probedAuthZone`. -/
def probedFrame : Frame := { baseFrame with authZone := some probedAuthZone }

/-- The state after a successful fee consumption. -/
def chargedState (cost : Nat) (reason : String) (st : KState) : KState :=
  { st with
      feeBalance := st.feeBalance - cost
      feeCharges := st.feeCharges ++ [(reason, cost)] }

/-! ## Evaluation lemmas for the frame monad -/

theorem FM.run_bind {α β : Type} (x : FM α) (g : α → FM β) (fr : Frame)
    (st : KState) :
    (x >>= g) fr st =
      match x fr st with
      | (f', st', Except.ok a) => g a f' st'
      | (f', st', Except.error e) => (f', st', Except.error e) := rfl

theorem FM.run_pure {α : Type} (a : α) (fr : Frame) (st : KState) :
    (pure a : FM α) fr st = (fr, st, Except.ok a) := rfl

theorem FM.run_getFrame (fr : Frame) (st : KState) :
    FM.getFrame fr st = (fr, st, Except.ok fr) := rfl

theorem FM.run_getSt (fr : Frame) (st : KState) :
    FM.getSt fr st = (fr, st, Except.ok st) := rfl

theorem FM.run_setFrame (f' fr : Frame) (st : KState) :
    FM.setFrame f' fr st = (f', st, Except.ok ()) := rfl

theorem FM.run_setSt (st' : KState) (fr : Frame) (st : KState) :
    FM.setSt st' fr st = (fr, st', Except.ok ()) := rfl

theorem FM.run_throw {α : Type} (e : RuntimeError) (fr : Frame) (st : KState) :
    (FM.throw e : FM α) fr st = (fr, st, Except.error (KErr.rt e)) := rfl

theorem FM.run_throwK {α : Type} (e : KErr) (fr : Frame) (st : KState) :
    (FM.throwK e : FM α) fr st = (fr, st, Except.error e) := rfl

theorem FM.run_panic {α : Type} (msg : String) (fr : Frame) (st : KState) :
    (FM.panic msg : FM α) fr st = (fr, st, Except.error (KErr.panicked msg)) :=
  rfl

theorem FM.run_ite {α : Type} (c : Prop) [Decidable c] (x y : FM α)
    (fr : Frame) (st : KState) :
    (if c then x else y) fr st = if c then x fr st else y fr st := by
  split <;> rfl

/-- Successful fee consumption: the reserve decreases and the charge is
recorded. -/
theorem feeConsume_success (cost : Nat) (reason : String) (fr : Frame)
    (st : KState) (h : cost ≤ st.feeBalance) :
    feeConsume cost reason fr st =
      (fr, chargedState cost reason st, Except.ok ()) := by
  simp [feeConsume, chargedState, FM.run_bind, FM.run_getSt, FM.run_setSt,
    FM.run_throw, Nat.not_lt.mpr h]

theorem feeConsume_fail (cost : Nat) (reason : String) (fr : Frame)
    (st : KState) (h : st.feeBalance < cost) :
    feeConsume cost reason fr st =
      (fr, st, Except.error (KErr.rt RuntimeError.CostingError)) := by
  simp [feeConsume, FM.run_bind, FM.run_getSt, FM.run_setSt, FM.run_throw, h]

/-- The contribution of one pointer-lock acquisition to a substate's hold
count (heap pointers never reach the Track). -/
def ptrAcq (p : RENodePointer) (sid k : SubstateId) : Nat :=
  match p with
  | .Store _ => if k = sid then 1 else 0
  | _ => 0

/-- Total hold-count contribution of a list of locked pointers. -/
def acqSum : List (RENodePointer × SubstateId × Bool) → SubstateId → Nat
  | [], _ => 0
  | e :: t, k => ptrAcq e.1 e.2.1 k + acqSum t k

/-- The state after releasing one pointer lock. -/
def ptrRelState (p : RENodePointer) (sid : SubstateId) (wt : Bool)
    (st : KState) : KState :=
  match p with
  | .Store _ => trackReleaseLock st sid wt
  | _ => st

/-- The state after releasing a list of pointer locks in order. -/
def relAllState : List (RENodePointer × SubstateId × Bool) → KState → KState
  | [], st => st
  | e :: t, st => relAllState t (ptrRelState e.1 e.2.1 e.2.2 st)

/-- The number of holds the Track lock table records for a substate. -/
def countOf (l : List (SubstateId × LockSt)) (k : SubstateId) : Nat :=
  match alookup l k with
  | some ls => ls.count
  | none => 0

/-- The number of holds on substate `k` in state `st`. -/
def heldCount (st : KState) (k : SubstateId) : Nat := countOf st.locks k

/-- Well-formedness of the lock table: one entry per substate. -/
def locksNodup (st : KState) : Prop := (st.locks.map Prod.fst).Nodup

/-- Hold-count contribution of a list of raw track locks (`invoke_function`
keeps raw substate ids rather than pointers). -/
def sidSum : List SubstateId → SubstateId → Nat
  | [], _ => 0
  | s :: t, k => (if k = s then 1 else 0) + sidSum t k

/-- The state after releasing a list of raw track locks in order. -/
def relTrackAll : List SubstateId → KState → KState
  | [], st => st
  | s :: t, st => relTrackAll t (trackReleaseLock st s false)

theorem scanOldIds_ok_iff (old missing : List RENodeId) :
    scanOldIds old missing = .ok () ↔ ∀ x ∈ old, x ∈ missing := by
  induction old with
  | nil => simp [scanOldIds]
  | cons a rest ih =>
      by_cases h : missing.contains a
      · simp only [scanOldIds, if_pos h, ih]
        have ha : a ∈ missing := by simpa using h
        constructor
        · intro hall x hx
          rcases List.mem_cons.mp hx with rfl | hx
          · exact ha
          · exact hall x hx
        · intro hall x hx
          exact hall x (List.mem_cons_of_mem _ hx)
      · simp only [scanOldIds, if_neg h]
        constructor
        · intro hcontra; cases hcontra
        · intro hall
          exact absurd (by simpa using hall a (List.mem_cons_self a rest)) h

theorem scanMissingIds_ok_iff (old missing : List RENodeId) :
    scanMissingIds old missing = .ok () ↔ ∀ x ∈ missing, x ∈ old := by
  induction missing with
  | nil => simp [scanMissingIds]
  | cons a rest ih =>
      by_cases h : old.contains a
      · simp only [scanMissingIds, if_pos h, ih]
        have ha : a ∈ old := by simpa using h
        constructor
        · intro hall x hx
          rcases List.mem_cons.mp hx with rfl | hx
          · exact ha
          · exact hall x hx
        · intro hall x hx
          exact hall x (List.mem_cons_of_mem _ hx)
      · simp only [scanMissingIds, if_neg h]
        constructor
        · intro hcontra; cases hcontra
        · intro hall
          exact absurd (by simpa using hall a (List.mem_cons_self a rest)) h

theorem scanOldIds_error_mem (old missing : List RENodeId) (i : RENodeId)
    (h : scanOldIds old missing = .error (RuntimeError.StoredNodeRemoved i)) :
    i ∈ old ∧ i ∉ missing := by
  induction old with
  | nil => simp [scanOldIds] at h
  | cons a rest ih =>
      by_cases hc : missing.contains a
      · simp only [scanOldIds, if_pos hc] at h
        have := ih h
        exact ⟨List.mem_cons_of_mem _ this.1, this.2⟩
      · simp only [scanOldIds, if_neg hc] at h
        cases h
        exact ⟨List.mem_cons_self _ _, by simpa using hc⟩

theorem scanMissingIds_error_mem (old missing : List RENodeId) (i : RENodeId)
    (h : scanMissingIds old missing = .error (RuntimeError.RENodeNotFound i)) :
    i ∈ missing ∧ i ∉ old := by
  induction missing with
  | nil => simp [scanMissingIds] at h
  | cons a rest ih =>
      by_cases hc : old.contains a
      · simp only [scanMissingIds, if_pos hc] at h
        have := ih h
        exact ⟨List.mem_cons_of_mem _ this.1, this.2⟩
      · simp only [scanMissingIds, if_neg hc] at h
        cases h
        exact ⟨List.mem_cons_self _ _, by simpa using hc⟩

theorem scanOldIds_error_shape (old missing : List RENodeId) (e : RuntimeError)
    (h : scanOldIds old missing = .error e) :
    ∃ i, e = RuntimeError.StoredNodeRemoved i := by
  induction old with
  | nil => simp [scanOldIds] at h
  | cons a rest ih =>
      by_cases hc : missing.contains a
      · simp only [scanOldIds, if_pos hc] at h
        exact ih h
      · simp only [scanOldIds, if_neg hc] at h
        cases h
        exact ⟨a, rfl⟩

theorem scanMissingIds_error_shape (old missing : List RENodeId)
    (e : RuntimeError) (h : scanMissingIds old missing = .error e) :
    ∃ i, e = RuntimeError.RENodeNotFound i := by
  induction missing with
  | nil => simp [scanMissingIds] at h
  | cons a rest ih =>
      by_cases hc : old.contains a
      · simp only [scanMissingIds, if_pos hc] at h
        exact ih h
      · simp only [scanMissingIds, if_neg hc] at h
        cases h
        exact ⟨a, rfl⟩

/-- C7: `verify_stored_value_update(old, missing)` returns `Ok` iff `old` and
`missing` are equal as sets; when some id of `old` is absent from `missing` it
returns `StoredNodeRemoved` carrying such an id; when `old ⊆ missing` but some
id of `missing` is absent from `old` it returns `RENodeNotFound` carrying such
an id; and conversely each error is only produced in its failure case, with a
correct payload. -/
theorem verify_stored_value_update_spec (old missing : List RENodeId) :
    (verify_stored_value_update old missing = .ok () ↔
      (∀ x, x ∈ old ↔ x ∈ missing)) ∧
    ((∃ i, i ∈ old ∧ i ∉ missing) →
      ∃ i, verify_stored_value_update old missing =
        .error (RuntimeError.StoredNodeRemoved i) ∧ i ∈ old ∧ i ∉ missing) ∧
    ((∀ x ∈ old, x ∈ missing) → (∃ i, i ∈ missing ∧ i ∉ old) →
      ∃ i, verify_stored_value_update old missing =
        .error (RuntimeError.RENodeNotFound i) ∧ i ∈ missing ∧ i ∉ old) ∧
    (∀ i, verify_stored_value_update old missing =
        .error (RuntimeError.StoredNodeRemoved i) → i ∈ old ∧ i ∉ missing) ∧
    (∀ i, verify_stored_value_update old missing =
        .error (RuntimeError.RENodeNotFound i) →
      (∀ x ∈ old, x ∈ missing) ∧ i ∈ missing ∧ i ∉ old) := by
  refine ⟨?_, ?_, ?_, ?_, ?_⟩
  · constructor
    · intro h
      have h1 : scanOldIds old missing = .ok () := by
        cases hh : scanOldIds old missing with
        | ok u => cases u; rfl
        | error e => simp [verify_stored_value_update, hh] at h
      have h2 : scanMissingIds old missing = .ok () := by
        rw [verify_stored_value_update, h1] at h
        exact h
      intro x
      exact ⟨fun hx => (scanOldIds_ok_iff old missing).mp h1 x hx,
        fun hx => (scanMissingIds_ok_iff old missing).mp h2 x hx⟩
    · intro h
      have h1 : scanOldIds old missing = .ok () :=
        (scanOldIds_ok_iff old missing).mpr (fun x hx => (h x).mp hx)
      have h2 : scanMissingIds old missing = .ok () :=
        (scanMissingIds_ok_iff old missing).mpr (fun x hx => (h x).mpr hx)
      rw [verify_stored_value_update, h1]
      exact h2
  · rintro ⟨i, hi, hni⟩
    cases hh : scanOldIds old missing with
    | ok u =>
        exact absurd ((scanOldIds_ok_iff old missing).mp
          (by cases u; exact hh) i hi) hni
    | error e =>
        rcases scanOldIds_error_shape old missing e hh with ⟨j, hj⟩
        subst hj
        obtain ⟨hj1, hj2⟩ := scanOldIds_error_mem old missing j hh
        refine ⟨j, ?_, hj1, hj2⟩
        rw [verify_stored_value_update, hh]
  · rintro hsub ⟨i, hi, hni⟩
    have h1 : scanOldIds old missing = .ok () :=
      (scanOldIds_ok_iff old missing).mpr hsub
    cases hm : scanMissingIds old missing with
    | ok u =>
        exact absurd ((scanMissingIds_ok_iff old missing).mp
          (by cases u; exact hm) i hi) hni
    | error e =>
        rcases scanMissingIds_error_shape old missing e hm with ⟨j, hj⟩
        subst hj
        obtain ⟨hj1, hj2⟩ := scanMissingIds_error_mem old missing j hm
        refine ⟨j, ?_, hj1, hj2⟩
        rw [verify_stored_value_update, h1]
        exact hm
  · intro i h
    cases hh : scanOldIds old missing with
    | ok u =>
        cases u
        rw [verify_stored_value_update, hh] at h
        rcases scanMissingIds_error_shape old missing _ h with ⟨j, hj⟩
        cases hj
    | error e =>
        rw [verify_stored_value_update, hh] at h
        have he : e = RuntimeError.StoredNodeRemoved i := by
          simpa using h
        subst he
        exact scanOldIds_error_mem old missing i hh
  · intro i h
    cases hh : scanOldIds old missing with
    | ok u =>
        cases u
        rw [verify_stored_value_update, hh] at h
        refine ⟨(scanOldIds_ok_iff old missing).mp hh, ?_⟩
        exact scanMissingIds_error_mem old missing i h
    | error e =>
        rw [verify_stored_value_update, hh] at h
        have he : e = RuntimeError.RENodeNotFound i := by
          simpa using h
        subst he
        rcases scanOldIds_error_shape old missing _ hh with ⟨j, hj⟩
        cases hj

/-- Witness for C7: `verify_stored_value_update` on concrete inputs returns
`StoredNodeRemoved` when an old id is gone, `RENodeNotFound` when a
claimed-missing id was never a child, and `Ok` on equal sets. -/
theorem verify_stored_value_update_spec_witness :
    (∃ i, verify_stored_value_update [RENodeId.Vault 1] [] =
      .error (RuntimeError.StoredNodeRemoved i) ∧
      i ∈ [RENodeId.Vault 1] ∧ i ∉ ([] : List RENodeId)) ∧
    (∃ i, verify_stored_value_update [] [RENodeId.Vault 2] =
      .error (RuntimeError.RENodeNotFound i) ∧
      i ∈ [RENodeId.Vault 2] ∧ i ∉ ([] : List RENodeId)) ∧
    verify_stored_value_update [RENodeId.Vault 1] [RENodeId.Vault 1] =
      .ok () := by
  refine ⟨?_, ?_, ?_⟩
  · exact (verify_stored_value_update_spec [RENodeId.Vault 1] []).2.1
      ⟨RENodeId.Vault 1, by decide, by decide⟩
  · exact (verify_stored_value_update_spec [] [RENodeId.Vault 2]).2.2.1
      (by decide) ⟨RENodeId.Vault 2, by decide, by decide⟩
  · exact (verify_stored_value_update_spec [RENodeId.Vault 1]
      [RENodeId.Vault 1]).1.mpr (fun x => Iff.rfl)

/-- C3: for every call frame whose depth equals max_depth, any call to
invoke_function or invoke_method returns `MaxCallDepthLimitReached`, before
any fee is charged and with no state change (frame and shared state are
returned untouched). -/
theorem invoke_at_max_depth (ext : Ext) (runFn : RunFn) (receiver : Receiver)
    (fn : FnIdentifier) (input : ScryptoValue) (f : Frame) (st : KState)
    (h : f.depth = f.maxDepth) :
    invokeMethodCore ext runFn receiver fn input f st =
      (f, st, Except.error (KErr.rt RuntimeError.MaxCallDepthLimitReached)) ∧
    invokeFunctionCore ext runFn fn input f st =
      (f, st, Except.error (KErr.rt RuntimeError.MaxCallDepthLimitReached)) := by
  constructor
  · unfold invokeMethodCore
    rw [FM.run_bind, FM.run_getFrame]
    simp only []
    rw [FM.run_ite, if_pos h, FM.run_throw]
  · unfold invokeFunctionCore
    rw [FM.run_bind, FM.run_getFrame]
    simp only []
    rw [FM.run_ite, if_pos h, FM.run_throw]

/-- Witness for C3: a concrete frame at depth = max_depth = 2. -/
theorem invoke_at_max_depth_witness :
    invokeMethodCore witnessExt haltRunFn Receiver.AuthZoneRef
      (FnIdentifier.Native (NativeFnIdentifier.AuthZone
        AuthZoneFnIdentifier.Clear))
      emptyScryptoValue maxDepthFrame emptyKState =
      (maxDepthFrame, emptyKState,
        Except.error (KErr.rt RuntimeError.MaxCallDepthLimitReached)) :=
  (invoke_at_max_depth witnessExt haltRunFn Receiver.AuthZoneRef
    (FnIdentifier.Native (NativeFnIdentifier.AuthZone
      AuthZoneFnIdentifier.Clear))
    emptyScryptoValue maxDepthFrame emptyKState (by decide)).1

theorem isEmpty_false_of_ne_nil {α : Type} {l : List α} (h : l ≠ []) :
    l.isEmpty = false := by
  cases hl : l with
  | nil => exact absurd hl h
  | cons a t => rfl

set_option maxHeartbeats 2000000 in
/-- C6: for every input value passed to invoke_function or invoke_method
(past the depth guard, with a sufficient fee reserve): a kv-store id in the
input fails the call with `KeyValueStoreNotAllowed`; otherwise a vault id
fails it with `VaultNotAllowed`; an input with neither passes this
validation. -/
theorem invoke_input_validation (ext : Ext) (runFn : RunFn)
    (receiver : Receiver) (fn : FnIdentifier) (input : ScryptoValue)
    (f : Frame) (st : KState)
    (hdepth : ¬ f.depth = f.maxDepth)
    (hfeeM : ext.invokeMethodCost receiver input +
      ext.runMethodCost (some receiver) fn input ≤ st.feeBalance)
    (hfeeF : ext.invokeFunctionCost fn input +
      ext.runMethodCost none fn input ≤ st.feeBalance) :
    (input.kvStoreIds ≠ [] →
      (invokeMethodCore ext runFn receiver fn input f st).2.2 =
        Except.error (KErr.rt RuntimeError.KeyValueStoreNotAllowed) ∧
      (invokeFunctionCore ext runFn fn input f st).2.2 =
        Except.error (KErr.rt RuntimeError.KeyValueStoreNotAllowed)) ∧
    (input.kvStoreIds = [] → input.vaultIds ≠ [] →
      (invokeMethodCore ext runFn receiver fn input f st).2.2 =
        Except.error (KErr.rt RuntimeError.VaultNotAllowed) ∧
      (invokeFunctionCore ext runFn fn input f st).2.2 =
        Except.error (KErr.rt RuntimeError.VaultNotAllowed)) ∧
    (input.kvStoreIds = [] → input.vaultIds = [] →
      process_call_data input = .ok ()) := by
  have h1M : ext.invokeMethodCost receiver input ≤ st.feeBalance := by omega
  have h2M : ext.runMethodCost (some receiver) fn input ≤
      (chargedState (ext.invokeMethodCost receiver input) "invoke_method"
        st).feeBalance := by
    simp only [chargedState]
    omega
  have h1F : ext.invokeFunctionCost fn input ≤ st.feeBalance := by omega
  have h2F : ext.runMethodCost none fn input ≤
      (chargedState (ext.invokeFunctionCost fn input) "invoke_function"
        st).feeBalance := by
    simp only [chargedState]
    omega
  refine ⟨?_, ?_, ?_⟩
  · intro hkv
    have hpcd : process_call_data input =
        .error RuntimeError.KeyValueStoreNotAllowed := by
      simp [process_call_data, isEmpty_false_of_ne_nil hkv]
    constructor
    · simp [invokeMethodCore, runChild, FM.run_bind, FM.run_getFrame, hdepth,
        feeConsume_success _ _ _ _ h1M, feeConsume_success _ _ _ _ h2M,
        hpcd, FM.liftE, FM.run_throw]
    · simp [invokeFunctionCore, FM.run_bind, FM.run_getFrame, hdepth,
        feeConsume_success _ _ _ _ h1F, feeConsume_success _ _ _ _ h2F,
        hpcd, FM.liftE, FM.run_throw]
  · intro hkv hv
    have hpcd : process_call_data input =
        .error RuntimeError.VaultNotAllowed := by
      simp [process_call_data, hkv, isEmpty_false_of_ne_nil hv]
    constructor
    · simp [invokeMethodCore, runChild, FM.run_bind, FM.run_getFrame, hdepth,
        feeConsume_success _ _ _ _ h1M, feeConsume_success _ _ _ _ h2M,
        hpcd, FM.liftE, FM.run_throw]
    · simp [invokeFunctionCore, FM.run_bind, FM.run_getFrame, hdepth,
        feeConsume_success _ _ _ _ h1F, feeConsume_success _ _ _ _ h2F,
        hpcd, FM.liftE, FM.run_throw]
  · intro hkv hv
    simp [process_call_data, hkv, hv]

/-- Witness for C6: a concrete input carrying a kv-store id is rejected by
both invokes with `KeyValueStoreNotAllowed`. -/
theorem invoke_input_validation_witness :
    (invokeMethodCore witnessExt haltRunFn Receiver.AuthZoneRef
      (FnIdentifier.Native (NativeFnIdentifier.Worktop 0)) kvValue
      baseFrame emptyKState).2.2 =
      Except.error (KErr.rt RuntimeError.KeyValueStoreNotAllowed) ∧
    (invokeFunctionCore witnessExt haltRunFn
      (FnIdentifier.Native (NativeFnIdentifier.Worktop 0)) kvValue
      baseFrame emptyKState).2.2 =
      Except.error (KErr.rt RuntimeError.KeyValueStoreNotAllowed) :=
  (invoke_input_validation witnessExt haltRunFn Receiver.AuthZoneRef
    (FnIdentifier.Native (NativeFnIdentifier.Worktop 0)) kvValue
    baseFrame emptyKState (by decide) (by decide) (by decide)).1
    (by decide)

/-- C5: run()'s return path fails with `KeyValueStoreNotAllowed` whenever
the returned value contains a kv-store id, while `process_return_data` does
not reject a value for containing vault ids (vault returns are permitted). -/
theorem run_return_validation (ext : Ext) (runSub : RunFn)
    (output : ScryptoValue) (f : Frame) (st : KState) :
    (output.kvStoreIds ≠ [] →
      (runEpilogue ext runSub output f st).2.2 =
        Except.error (KErr.rt RuntimeError.KeyValueStoreNotAllowed)) ∧
    (output.kvStoreIds = [] → process_return_data output = .ok ()) := by
  constructor
  · intro hkv
    have hprd : process_return_data output =
        .error RuntimeError.KeyValueStoreNotAllowed := by
      simp [process_return_data, isEmpty_false_of_ne_nil hkv]
    simp [runEpilogue, FM.run_bind, hprd, FM.liftE, FM.run_throw]
  · intro hkv
    simp [process_return_data, hkv]

/-- Witness for C5: a kv-store-bearing return is rejected; a vault-bearing
return passes validation and the full return path hands the vault back. -/
theorem run_return_validation_witness :
    (runEpilogue witnessExt haltRunFn kvValue baseFrame emptyKState).2.2 =
      Except.error (KErr.rt RuntimeError.KeyValueStoreNotAllowed) ∧
    process_return_data vaultValue = .ok () ∧
    (runEpilogue witnessExt haltRunFn vaultValue baseFrame
        { emptyKState with
          heaps := [[(RENodeId.Vault 9, vaultHeapNode)]] }).2.2 =
      Except.ok (vaultValue, [(RENodeId.Vault 9, vaultHeapNode)]) :=
  ⟨(run_return_validation witnessExt haltRunFn kvValue baseFrame
      emptyKState).1 (by decide),
   (run_return_validation witnessExt haltRunFn vaultValue baseFrame
      emptyKState).2 (by decide),
   by decide⟩

theorem mem_dedupIds_aux (l : List (List Nat)) (acc : List (List Nat))
    (x : List Nat) :
    x ∈ l.foldl (fun a y => if a.contains y then a else a ++ [y]) acc ↔
      x ∈ acc ∨ x ∈ l := by
  induction l generalizing acc with
  | nil => simp
  | cons y t ih =>
      simp only [List.foldl_cons]
      rw [ih]
      by_cases h : acc.contains y
      · have hy : y ∈ acc := by simpa using h
        simp only [if_pos h, List.mem_cons]
        constructor
        · rintro (h1 | h2)
          · exact Or.inl h1
          · exact Or.inr (Or.inr h2)
        · rintro (h1 | rfl | h3)
          · exact Or.inl h1
          · exact Or.inl hy
          · exact Or.inr h3
      · simp only [if_neg h, List.mem_append, List.mem_singleton,
          List.mem_cons, List.not_mem_nil, or_false]
        constructor
        · rintro ((h1 | h2) | h3)
          · exact Or.inl h1
          · exact Or.inr (Or.inl h2)
          · exact Or.inr (Or.inr h3)
        · rintro (h1 | h2 | h3)
          · exact Or.inl (Or.inl h1)
          · exact Or.inl (Or.inr h2)
          · exact Or.inr h3

theorem nodup_dedupIds_aux (l : List (List Nat)) (acc : List (List Nat))
    (hacc : acc.Nodup) :
    (l.foldl (fun a y => if a.contains y then a else a ++ [y]) acc).Nodup := by
  induction l generalizing acc with
  | nil => simpa using hacc
  | cons y t ih =>
      simp only [List.foldl_cons]
      by_cases h : acc.contains y
      · rw [if_pos h]
        exact ih acc hacc
      · rw [if_neg h]
        refine ih _ ?_
        have hy : y ∉ acc := by simpa using h
        simp [List.nodup_append, hacc, hy]

theorem mem_dedupIds (l : List (List Nat)) (x : List Nat) :
    x ∈ dedupIds l ↔ x ∈ l := by
  simpa [dedupIds] using mem_dedupIds_aux l [] x

theorem nodup_dedupIds (l : List (List Nat)) : (dedupIds l).Nodup :=
  nodup_dedupIds_aux l [] (by simp)

/-- C8: the root frame's initial auth zone contains no ECDSA proof when the
signer list is empty; otherwise exactly one ECDSA_TOKEN proof carrying one
non-fungible id per distinct signer public key; plus a SYSTEM_TOKEN proof
exactly when `is_system`. -/
theorem new_root_auth_zone (signerPublicKeys : List (List Nat))
    (isSystem : Bool) (maxDepth : Nat) :
    ∃ zone, (new_root signerPublicKeys isSystem maxDepth).authZone =
        some zone ∧
      (signerPublicKeys = [] →
        ∀ p ∈ zone.proofs, p.resourceAddress ≠ ECDSA_TOKEN) ∧
      (signerPublicKeys ≠ [] →
        zone.proofs.filter (fun q => q.resourceAddress == ECDSA_TOKEN) =
          [bucketCreateProof ECDSA_TOKEN
            (dedupIds (signerPublicKeys.map nonFungibleIdFromBytes))] ∧
        (dedupIds (signerPublicKeys.map nonFungibleIdFromBytes)).Nodup ∧
        (∀ x, x ∈ dedupIds (signerPublicKeys.map nonFungibleIdFromBytes) ↔
          x ∈ signerPublicKeys.map nonFungibleIdFromBytes)) ∧
      (zone.proofs.filter (fun q => q.resourceAddress == SYSTEM_TOKEN) =
        if isSystem then [bucketCreateProof SYSTEM_TOKEN [[0]]] else []) := by
  refine ⟨AuthZone.new_with_proofs
    (initialAuthZoneProofs signerPublicKeys isSystem), rfl, ?_, ?_, ?_⟩
  · intro hs
    subst hs
    cases isSystem <;>
      simp [AuthZone.new_with_proofs, initialAuthZoneProofs, dedupIds,
        bucketCreateProof, ECDSA_TOKEN, SYSTEM_TOKEN]
  · intro hs
    obtain ⟨a, ha⟩ := List.exists_mem_of_ne_nil signerPublicKeys hs
    have hmem : nonFungibleIdFromBytes a ∈
        dedupIds (signerPublicKeys.map nonFungibleIdFromBytes) := by
      rw [mem_dedupIds]
      exact List.mem_map_of_mem _ ha
    have hne : dedupIds (signerPublicKeys.map nonFungibleIdFromBytes) ≠ [] :=
      List.ne_nil_of_mem hmem
    have hie : (dedupIds
        (signerPublicKeys.map nonFungibleIdFromBytes)).isEmpty = false :=
      isEmpty_false_of_ne_nil hne
    refine ⟨?_, nodup_dedupIds _, fun x => mem_dedupIds _ x⟩
    cases isSystem <;>
      simp [AuthZone.new_with_proofs, initialAuthZoneProofs, hie,
        bucketCreateProof, ECDSA_TOKEN, SYSTEM_TOKEN]
  · by_cases hie : (dedupIds
        (signerPublicKeys.map nonFungibleIdFromBytes)).isEmpty
    · cases isSystem <;>
        simp [AuthZone.new_with_proofs, initialAuthZoneProofs, hie,
          bucketCreateProof, ECDSA_TOKEN, SYSTEM_TOKEN]
    · cases isSystem <;>
        simp [AuthZone.new_with_proofs, initialAuthZoneProofs,
          Bool.of_not_eq_true hie, bucketCreateProof, ECDSA_TOKEN,
          SYSTEM_TOKEN]

/-- Witness for C8: three signers with one duplicate key, system mode on:
one ECDSA proof carrying the two distinct ids, plus the system proof. -/
theorem new_root_auth_zone_witness :
    ∃ zone, (new_root [[1], [2], [1]] true 2).authZone = some zone ∧
      zone.proofs.filter (fun q => q.resourceAddress == ECDSA_TOKEN) =
        [bucketCreateProof ECDSA_TOKEN [[1], [2]]] ∧
      zone.proofs.filter (fun q => q.resourceAddress == SYSTEM_TOKEN) =
        [bucketCreateProof SYSTEM_TOKEN [[0]]] := by
  obtain ⟨zone, hz, _, h2, h3⟩ := new_root_auth_zone [[1], [2], [1]] true 2
  obtain ⟨hfilter, _, _⟩ := h2 (by decide)
  have hdedup : dedupIds (([[1], [2], [1]] :
      List (List Nat)).map nonFungibleIdFromBytes) = [[1], [2]] := by decide
  rw [hdedup] at hfilter
  exact ⟨zone, hz, hfilter, by simpa using h3⟩

/-- C9: node_globalize succeeds only for Component, Package and
ResourceManager node ids; for any other node id it returns
`RENodeGlobalizeTypeNotAllowed(node_id)` after charging the globalize fee
and without touching the heaps. -/
theorem node_globalize_type_check (ext : Ext) (f : Frame) (st : KState)
    (nodeId : RENodeId) :
    ((nodeGlobalizeCore ext nodeId f st).2.2 = Except.ok () →
      canGlobalize nodeId = true) ∧
    (canGlobalize nodeId = false → ext.globalizeCost ≤ st.feeBalance →
      nodeGlobalizeCore ext nodeId f st =
        (f, chargedState ext.globalizeCost "globalize" st,
          Except.error (KErr.rt
            (RuntimeError.RENodeGlobalizeTypeNotAllowed nodeId)))) := by
  constructor
  · intro hok
    by_cases hcan : canGlobalize nodeId = true
    · exact hcan
    · exfalso
      have hcan' : canGlobalize nodeId = false := by
        simpa using hcan
      by_cases hfee : ext.globalizeCost ≤ st.feeBalance
      · simp [nodeGlobalizeCore, FM.run_bind,
          feeConsume_success _ _ _ _ hfee, hcan', FM.run_throw] at hok
      · simp [nodeGlobalizeCore, FM.run_bind,
          feeConsume_fail ext.globalizeCost "globalize" f st (by omega),
          FM.run_throw] at hok
  · intro hcan hfee
    simp [nodeGlobalizeCore, FM.run_bind, feeConsume_success _ _ _ _ hfee,
      hcan, FM.run_throw]

/-- Witness for C9: globalizing a heap vault charges the fee and fails with
`RENodeGlobalizeTypeNotAllowed`, leaving the heaps untouched. -/
theorem node_globalize_type_check_witness :
    nodeGlobalizeCore witnessExt (RENodeId.Vault 9) baseFrame emptyKState =
      (baseFrame, chargedState witnessExt.globalizeCost "globalize"
        emptyKState,
        Except.error (KErr.rt
          (RuntimeError.RENodeGlobalizeTypeNotAllowed (RENodeId.Vault 9)))) :=
  (node_globalize_type_check witnessExt baseFrame emptyKState
    (RENodeId.Vault 9)).2 (by decide) (by decide)

theorem refsAfterTake_nil (refs : List (RENodeId × RENodePointer)) :
    refsAfterTake refs [] = refs := by
  simp [refsAfterTake]

theorem chargedState_locks (c : Nat) (r : String) (st : KState) :
    (chargedState c r st).locks = st.locks := rfl

theorem chargedState_lockLog (c : Nat) (r : String) (st : KState) :
    (chargedState c r st).lockLog = st.lockLog := rfl

theorem chargedState_substates (c : Nat) (r : String) (st : KState) :
    (chargedState c r st).substates = st.substates := rfl

theorem chargedState_touched (c : Nat) (r : String) (st : KState) :
    (chargedState c r st).touched = st.touched := rfl

theorem chargedState_heaps (c : Nat) (r : String) (st : KState) :
    (chargedState c r st).heaps = st.heaps := rfl

theorem chargedState_heapAt (c : Nat) (r : String) (st : KState) (i : Nat) :
    (chargedState c r st).heapAt i = st.heapAt i := rfl

theorem chargedState_logs (c : Nat) (r : String) (st : KState) :
    (chargedState c r st).logs = st.logs := rfl

theorem chargedState_nextId (c : Nat) (r : String) (st : KState) :
    (chargedState c r st).nextId = st.nextId := rfl

theorem setHeap_locks (st : KState) (i : Nat) (h : Heap) :
    (st.setHeap i h).locks = st.locks := by
  unfold KState.setHeap
  split <;> rfl

theorem setHeap_lockLog (st : KState) (i : Nat) (h : Heap) :
    (st.setHeap i h).lockLog = st.lockLog := by
  unfold KState.setHeap
  split <;> rfl

theorem setHeap_substates (st : KState) (i : Nat) (h : Heap) :
    (st.setHeap i h).substates = st.substates := by
  unfold KState.setHeap
  split <;> rfl

theorem setHeap_touched (st : KState) (i : Nat) (h : Heap) :
    (st.setHeap i h).touched = st.touched := by
  unfold KState.setHeap
  split <;> rfl

theorem setHeap_feeBalance (st : KState) (i : Nat) (h : Heap) :
    (st.setHeap i h).feeBalance = st.feeBalance := by
  unfold KState.setHeap
  split <;> rfl

theorem setHeap_feeCharges (st : KState) (i : Nat) (h : Heap) :
    (st.setHeap i h).feeCharges = st.feeCharges := by
  unfold KState.setHeap
  split <;> rfl

theorem setHeap_logs (st : KState) (i : Nat) (h : Heap) :
    (st.setHeap i h).logs = st.logs := by
  unfold KState.setHeap
  split <;> rfl

theorem setHeap_nextId (st : KState) (i : Nat) (h : Heap) :
    (st.setHeap i h).nextId = st.nextId := by
  unfold KState.setHeap
  split <;> rfl

theorem heapAt_setHeap_self (st : KState) (i : Nat) (h : Heap) :
    (st.setHeap i h).heapAt i = h := by
  unfold KState.setHeap KState.heapAt
  by_cases hlen : i < st.heaps.length
  · simp only [if_pos hlen]
    rw [List.getD_eq_getElem?_getD, List.getElem?_set_eq_of_lt _ hlen]
    rfl
  · have hlen2 : i <
        (st.heaps ++ List.replicate (i + 1 - st.heaps.length) []).length := by
      simp only [List.length_append, List.length_replicate]
      omega
    simp only [if_neg hlen]
    rw [List.getD_eq_getElem?_getD, List.getElem?_set_eq_of_lt _ hlen2]
    rfl

set_option maxHeartbeats 2000000 in
/-- C4: `Vault::lock_fee` on a vault whose pointer resolves to the heap
fails with `LockFeeError(RENodeNotInTrack)`; on a vault in the Track the
primary substate lock is acquired exclusively with write_through = true and
released with write_through = true. -/
theorem vault_lock_fee_spec (ext : Ext) (input : ScryptoValue) (f : Frame)
    (st : KState) (v r : Nat)
    (hdepth : ¬ f.depth = f.maxDepth)
    (hfee : ext.invokeMethodCost (Receiver.Ref (RENodeId.Vault v)) input +
      ext.runMethodCost (some (Receiver.Ref (RENodeId.Vault v)))
        (FnIdentifier.Native (NativeFnIdentifier.Vault
          VaultFnIdentifier.LockFee)) input ≤ st.feeBalance)
    (hb : input.bucketIds = []) (hp : input.proofIds = [])
    (hvi : input.vaultIds = []) (hkv : input.kvStoreIds = [])
    (hra : input.resourceAddresses = [])
    (hrc : input.refedComponentAddresses = []) :
    ((alookup (st.heapAt f.depth) (RENodeId.Vault v)).isSome →
      ∀ runFn,
        (invokeMethodCore ext runFn (Receiver.Ref (RENodeId.Vault v))
          (FnIdentifier.Native (NativeFnIdentifier.Vault
            VaultFnIdentifier.LockFee)) input f st).2.2 =
          Except.error (KErr.rt
            (RuntimeError.LockFeeError LockFeeError.RENodeNotInTrack))) ∧
    (alookup (st.heapAt f.depth) (RENodeId.Vault v) = none →
      alookup f.nodeRefs (RENodeId.Vault v) =
        some (RENodePointer.Store (RENodeId.Vault v)) →
      st.locks = [] → st.touched = [] →
      alookup st.substates (SubstateId.Vault v) = some (Substate.Vault r) →
      alookup st.substates (SubstateId.ResourceManager r) =
        some Substate.Resource →
      ext.receiverAuth (FnIdentifier.Native (NativeFnIdentifier.Vault
          VaultFnIdentifier.LockFee)) (Receiver.Ref (RENodeId.Vault v))
        input = none →
      (invokeMethodCore ext inertRunFn (Receiver.Ref (RENodeId.Vault v))
          (FnIdentifier.Native (NativeFnIdentifier.Vault
            VaultFnIdentifier.LockFee)) input f st).2.2 =
        Except.ok emptyScryptoValue ∧
      (invokeMethodCore ext inertRunFn (Receiver.Ref (RENodeId.Vault v))
          (FnIdentifier.Native (NativeFnIdentifier.Vault
            VaultFnIdentifier.LockFee)) input f st).2.1.lockLog =
        st.lockLog ++
          [LockEvent.acquire (SubstateId.Vault v) true true,
           LockEvent.acquire (SubstateId.ResourceManager r) true false,
           LockEvent.release (SubstateId.Vault v) true,
           LockEvent.release (SubstateId.ResourceManager r) false] ∧
      (invokeMethodCore ext inertRunFn (Receiver.Ref (RENodeId.Vault v))
          (FnIdentifier.Native (NativeFnIdentifier.Vault
            VaultFnIdentifier.LockFee)) input f st).2.1.locks = []) := by
  have h1 : ext.invokeMethodCost (Receiver.Ref (RENodeId.Vault v)) input ≤
      st.feeBalance := by omega
  have h2 : ext.runMethodCost (some (Receiver.Ref (RENodeId.Vault v)))
      (FnIdentifier.Native (NativeFnIdentifier.Vault
        VaultFnIdentifier.LockFee)) input ≤
      (chargedState (ext.invokeMethodCost (Receiver.Ref (RENodeId.Vault v))
        input) "invoke_method" st).feeBalance := by
    simp only [chargedState]
    omega
  have hnode : input.node_ids = [] := by
    simp [ScryptoValue.node_ids, hb, hp, hvi, hkv]
  have hpcd : process_call_data input = .ok () := by
    simp [process_call_data, hkv, hvi]
  constructor
  · intro hheap runFn
    simp [invokeMethodCore, runChild, FM.run_bind, FM.run_getFrame, hdepth,
      feeConsume_success _ _ _ _ h1, feeConsume_success _ _ _ _ h2,
      hpcd, FM.liftE, FM.run_pure, takeAvailableValues, takeLoop, hnode,
      refsAfterTake_nil, FM.run_getSt, FM.run_setSt, FM.run_setFrame,
      receiverSetupRef, findReceiverPointer, loadActorLocks, lockParentSubstates,
      takeConsumedNode, hheap, toPrimarySubstateId, FM.run_throw,
      heapAt_setHeap_self, chargedState_heapAt]
  · intro hheap href hlocks htouched hsubV hsubR hauth
    refine ⟨?_, ?_, ?_⟩ <;>
      simp [invokeMethodCore, runChild, FM.run_bind, FM.run_getFrame, hdepth,
        feeConsume_success _ _ _ _ h1, feeConsume_success _ _ _ _ h2,
        hpcd, FM.liftE, FM.run_pure, takeAvailableValues, takeLoop, hnode,
        refsAfterTake_nil, FM.run_getSt, FM.run_setSt, FM.run_setFrame,
        receiverSetupRef, findReceiverPointer, loadActorLocks, lockParentSubstates,
        takeConsumedNode, hheap, href, toPrimarySubstateId,
        pointerAcquireLock, trackAcquireLock, hlocks, htouched, hsubV, hsubR,
        alookup, vaultResourceOf, hauth, releaseLocks, pointerReleaseLock,
        trackReleaseLock, decLocks, bumpLocks, lockResourceManagers, hra, hrc,
        passArgumentRefs,
        upsertMany, inertRunFn, FM.run_throw, heapAt_setHeap_self,
        chargedState_heapAt, chargedState_locks, chargedState_lockLog,
        chargedState_substates, chargedState_touched, setHeap_locks,
        setHeap_lockLog, setHeap_substates, setHeap_touched]

/-- Witness for C4: lock_fee on a heap vault fails with
`LockFeeError(RENodeNotInTrack)`; on a tracked vault the write-through
exclusive acquire and write-through release both appear in the lock trace. -/
theorem vault_lock_fee_spec_witness :
    (invokeMethodCore witnessExt haltRunFn (Receiver.Ref (RENodeId.Vault 9))
      (FnIdentifier.Native (NativeFnIdentifier.Vault
        VaultFnIdentifier.LockFee)) emptyScryptoValue baseFrame
      heapVaultState).2.2 =
      Except.error (KErr.rt
        (RuntimeError.LockFeeError LockFeeError.RENodeNotInTrack)) ∧
    (invokeMethodCore witnessExt inertRunFn (Receiver.Ref (RENodeId.Vault 9))
      (FnIdentifier.Native (NativeFnIdentifier.Vault
        VaultFnIdentifier.LockFee)) emptyScryptoValue lockFeeFrame
      lockFeeState).2.1.lockLog =
      [LockEvent.acquire (SubstateId.Vault 9) true true,
       LockEvent.acquire (SubstateId.ResourceManager 5) true false,
       LockEvent.release (SubstateId.Vault 9) true,
       LockEvent.release (SubstateId.ResourceManager 5) false] := by
  constructor
  · exact (vault_lock_fee_spec witnessExt emptyScryptoValue baseFrame
      heapVaultState 9 5 (by decide) (by decide) (by decide) (by decide)
      (by decide) (by decide) (by decide) (by decide)).1 (by decide) haltRunFn
  · have h := (vault_lock_fee_spec witnessExt emptyScryptoValue lockFeeFrame
      lockFeeState 9 5 (by decide) (by decide) (by decide) (by decide)
      (by decide) (by decide) (by decide) (by decide)).2 (by decide)
      (by decide) (by decide) (by decide) (by decide) (by decide) (by decide)
    simpa using h.2.1

set_option maxHeartbeats 2000000 in
/-- C10: invoke_method with receiver `AuthZoneRef` on a frame without an
auth zone fails with `AuthZoneDoesNotExist`; on a frame with an auth zone,
that very zone (not a fresh one) is handed to the child frame's run as the
AuthZone operand, and its mutation is visible in the frame afterwards. -/
theorem auth_zone_receiver_spec (ext : Ext) (nfn : NativeFnIdentifier)
    (input : ScryptoValue) (f : Frame) (st : KState) (az : AuthZone)
    (g : Option AuthZone → Option AuthZone)
    (hdepth : ¬ f.depth = f.maxDepth)
    (hfee : ext.invokeMethodCost Receiver.AuthZoneRef input +
      ext.runMethodCost (some Receiver.AuthZoneRef)
        (FnIdentifier.Native nfn) input ≤ st.feeBalance)
    (hb : input.bucketIds = []) (hp : input.proofIds = [])
    (hvi : input.vaultIds = []) (hkv : input.kvStoreIds = [])
    (hra : input.resourceAddresses = [])
    (hrc : input.refedComponentAddresses = []) :
    (f.authZone = none → ∀ runFn,
      (invokeMethodCore ext runFn Receiver.AuthZoneRef
        (FnIdentifier.Native nfn) input f st).2.2 =
        Except.error (KErr.rt RuntimeError.AuthZoneDoesNotExist)) ∧
    (f.authZone = some az →
      (invokeMethodCore ext (probeRunFn g) Receiver.AuthZoneRef
        (FnIdentifier.Native nfn) input f st).2.2 =
        Except.ok emptyScryptoValue ∧
      (invokeMethodCore ext (probeRunFn g) Receiver.AuthZoneRef
        (FnIdentifier.Native nfn) input f st).1.authZone = g (some az)) := by
  have h1 : ext.invokeMethodCost Receiver.AuthZoneRef input ≤
      st.feeBalance := by omega
  have h2 : ext.runMethodCost (some Receiver.AuthZoneRef)
      (FnIdentifier.Native nfn) input ≤
      (chargedState (ext.invokeMethodCost Receiver.AuthZoneRef input)
        "invoke_method" st).feeBalance := by
    simp only [chargedState]
    omega
  have hnode : input.node_ids = [] := by
    simp [ScryptoValue.node_ids, hb, hp, hvi, hkv]
  have hpcd : process_call_data input = .ok () := by
    simp [process_call_data, hkv, hvi]
  constructor
  · intro hzone runFn
    simp [invokeMethodCore, runChild, FM.run_bind, FM.run_getFrame, hdepth,
      feeConsume_success _ _ _ _ h1, feeConsume_success _ _ _ _ h2,
      hpcd, FM.liftE, FM.run_pure, takeAvailableValues, takeLoop, hnode,
      refsAfterTake_nil, FM.run_getSt, FM.run_setSt, FM.run_setFrame,
      receiverSetupAuthZone, hzone, FM.run_throw]
  · intro hzone
    constructor <;>
      simp [invokeMethodCore, runChild, FM.run_bind, FM.run_getFrame, hdepth,
        feeConsume_success _ _ _ _ h1, feeConsume_success _ _ _ _ h2,
        hpcd, FM.liftE, FM.run_pure, takeAvailableValues, takeLoop, hnode,
        refsAfterTake_nil, FM.run_getSt, FM.run_setSt, FM.run_setFrame,
        receiverSetupAuthZone, hzone, lockResourceManagers, hra, hrc,
        passArgumentRefs, upsertMany, probeRunFn, FM.run_throw,
        heapAt_setHeap_self, chargedState_heapAt, releaseLocks,
        emptyScryptoValue]

/-- Witness for C10: a frame without an auth zone is rejected; a frame with
a one-proof auth zone hands exactly that zone to the child run (the identity
transformation returns it unchanged). -/
theorem auth_zone_receiver_spec_witness :
    (invokeMethodCore witnessExt haltRunFn Receiver.AuthZoneRef
      (FnIdentifier.Native (NativeFnIdentifier.AuthZone
        AuthZoneFnIdentifier.Clear)) emptyScryptoValue baseFrame
      emptyKState).2.2 =
      Except.error (KErr.rt RuntimeError.AuthZoneDoesNotExist) ∧
    (invokeMethodCore witnessExt (probeRunFn id) Receiver.AuthZoneRef
      (FnIdentifier.Native (NativeFnIdentifier.AuthZone
        AuthZoneFnIdentifier.Clear)) emptyScryptoValue probedFrame
      emptyKState).1.authZone = some probedAuthZone := by
  constructor
  · exact (auth_zone_receiver_spec witnessExt
      (NativeFnIdentifier.AuthZone AuthZoneFnIdentifier.Clear)
      emptyScryptoValue baseFrame emptyKState ⟨[]⟩ id (by decide) (by decide)
      (by decide) (by decide) (by decide) (by decide) (by decide)
      (by decide)).1 (by decide) haltRunFn
  · exact ((auth_zone_receiver_spec witnessExt
      (NativeFnIdentifier.AuthZone AuthZoneFnIdentifier.Clear)
      emptyScryptoValue probedFrame emptyKState probedAuthZone id (by decide)
      (by decide) (by decide) (by decide) (by decide) (by decide) (by decide)
      (by decide)).2 (by decide)).2

/-- Counterexample for C1: a vault method denied by the auth policy returns
the `NotAuthorized` error unchanged, but the primary substate lock and the
parent resource-manager lock acquired by the invoking frame are still held
in the Track afterwards — no release event is logged. -/
theorem invoke_method_auth_failure_counterexample :
    (invokeMethodCore authFailExt haltRunFn (Receiver.Ref (RENodeId.Vault 9))
      (FnIdentifier.Native (NativeFnIdentifier.Vault VaultFnIdentifier.Take))
      emptyScryptoValue lockFeeFrame lockFeeState).2.2 =
      Except.error (KErr.rt (RuntimeError.NotAuthorized 7)) ∧
    (invokeMethodCore authFailExt haltRunFn (Receiver.Ref (RENodeId.Vault 9))
      (FnIdentifier.Native (NativeFnIdentifier.Vault VaultFnIdentifier.Take))
      emptyScryptoValue lockFeeFrame lockFeeState).2.1.locks =
      [(SubstateId.Vault 9, ⟨true, 1, false⟩),
       (SubstateId.ResourceManager 5, ⟨true, 1, false⟩)] ∧
    (invokeMethodCore authFailExt haltRunFn (Receiver.Ref (RENodeId.Vault 9))
      (FnIdentifier.Native (NativeFnIdentifier.Vault VaultFnIdentifier.Take))
      emptyScryptoValue lockFeeFrame lockFeeState).2.1.lockLog =
      [LockEvent.acquire (SubstateId.Vault 9) true false,
       LockEvent.acquire (SubstateId.ResourceManager 5) true false] := by
  decide

set_option maxHeartbeats 2000000 in
/-- C1 (amended): when `AuthModule::receiver_auth` fails, `invoke_method`
returns the authorization error unchanged to the caller, but the locks the
invoking frame acquired during the call are NOT released: they remain held
in the Track and no release event is logged. -/
theorem invoke_method_auth_failure_spec (ext : Ext) (input : ScryptoValue)
    (f : Frame) (st : KState) (v r : Nat) (e : RuntimeError)
    (hdepth : ¬ f.depth = f.maxDepth)
    (hfee : ext.invokeMethodCost (Receiver.Ref (RENodeId.Vault v)) input +
      ext.runMethodCost (some (Receiver.Ref (RENodeId.Vault v)))
        (FnIdentifier.Native (NativeFnIdentifier.Vault
          VaultFnIdentifier.Take)) input ≤ st.feeBalance)
    (hb : input.bucketIds = []) (hp : input.proofIds = [])
    (hvi : input.vaultIds = []) (hkv : input.kvStoreIds = [])
    (hra : input.resourceAddresses = [])
    (hheap : alookup (st.heapAt f.depth) (RENodeId.Vault v) = none)
    (href : alookup f.nodeRefs (RENodeId.Vault v) =
      some (RENodePointer.Store (RENodeId.Vault v)))
    (hlocks : st.locks = []) (htouched : st.touched = [])
    (hsubV : alookup st.substates (SubstateId.Vault v) =
      some (Substate.Vault r))
    (hsubR : alookup st.substates (SubstateId.ResourceManager r) =
      some Substate.Resource)
    (hauth : ext.receiverAuth (FnIdentifier.Native (NativeFnIdentifier.Vault
        VaultFnIdentifier.Take)) (Receiver.Ref (RENodeId.Vault v)) input =
      some e) :
    ∀ runFn,
      (invokeMethodCore ext runFn (Receiver.Ref (RENodeId.Vault v))
        (FnIdentifier.Native (NativeFnIdentifier.Vault
          VaultFnIdentifier.Take)) input f st).2.2 =
        Except.error (KErr.rt e) ∧
      (invokeMethodCore ext runFn (Receiver.Ref (RENodeId.Vault v))
        (FnIdentifier.Native (NativeFnIdentifier.Vault
          VaultFnIdentifier.Take)) input f st).2.1.locks =
        [(SubstateId.Vault v, ⟨true, 1, false⟩),
         (SubstateId.ResourceManager r, ⟨true, 1, false⟩)] ∧
      (invokeMethodCore ext runFn (Receiver.Ref (RENodeId.Vault v))
        (FnIdentifier.Native (NativeFnIdentifier.Vault
          VaultFnIdentifier.Take)) input f st).2.1.lockLog =
        st.lockLog ++
          [LockEvent.acquire (SubstateId.Vault v) true false,
           LockEvent.acquire (SubstateId.ResourceManager r) true false] := by
  have h1 : ext.invokeMethodCost (Receiver.Ref (RENodeId.Vault v)) input ≤
      st.feeBalance := by omega
  have h2 : ext.runMethodCost (some (Receiver.Ref (RENodeId.Vault v)))
      (FnIdentifier.Native (NativeFnIdentifier.Vault
        VaultFnIdentifier.Take)) input ≤
      (chargedState (ext.invokeMethodCost (Receiver.Ref (RENodeId.Vault v))
        input) "invoke_method" st).feeBalance := by
    simp only [chargedState]
    omega
  have hnode : input.node_ids = [] := by
    simp [ScryptoValue.node_ids, hb, hp, hvi, hkv]
  have hpcd : process_call_data input = .ok () := by
    simp [process_call_data, hkv, hvi]
  intro runFn
  refine ⟨?_, ?_, ?_⟩ <;>
    simp [invokeMethodCore, runChild, FM.run_bind, FM.run_getFrame, hdepth,
      feeConsume_success _ _ _ _ h1, feeConsume_success _ _ _ _ h2,
      hpcd, FM.liftE, FM.run_pure, takeAvailableValues, takeLoop, hnode,
      refsAfterTake_nil, FM.run_getSt, FM.run_setSt, FM.run_setFrame,
      receiverSetupRef, findReceiverPointer, loadActorLocks, lockParentSubstates,
        takeConsumedNode, hheap, href, toPrimarySubstateId,
      pointerAcquireLock, trackAcquireLock, hlocks, htouched, hsubV, hsubR,
      alookup, vaultResourceOf, hauth, lockResourceManagers, hra,
      FM.run_throw, heapAt_setHeap_self, chargedState_heapAt,
      chargedState_locks, chargedState_lockLog, chargedState_substates,
      chargedState_touched, setHeap_locks, setHeap_lockLog,
      setHeap_substates, setHeap_touched]

/-- Witness for the amended C1: a concrete denied vault call leaves both
acquired locks held. -/
theorem invoke_method_auth_failure_spec_witness :
    (invokeMethodCore authFailExt inertRunFn (Receiver.Ref (RENodeId.Vault 9))
      (FnIdentifier.Native (NativeFnIdentifier.Vault VaultFnIdentifier.Take))
      emptyScryptoValue lockFeeFrame lockFeeState).2.2 =
      Except.error (KErr.rt (RuntimeError.NotAuthorized 7)) ∧
    (invokeMethodCore authFailExt inertRunFn (Receiver.Ref (RENodeId.Vault 9))
      (FnIdentifier.Native (NativeFnIdentifier.Vault VaultFnIdentifier.Take))
      emptyScryptoValue lockFeeFrame lockFeeState).2.1.locks =
      [(SubstateId.Vault 9, ⟨true, 1, false⟩),
       (SubstateId.ResourceManager 5, ⟨true, 1, false⟩)] := by
  have h := invoke_method_auth_failure_spec authFailExt emptyScryptoValue
    lockFeeFrame lockFeeState 9 5 (RuntimeError.NotAuthorized 7) (by decide)
    (by decide) (by decide) (by decide) (by decide) (by decide) (by decide)
    (by decide) (by decide) (by decide) (by decide) (by decide) (by decide)
    (by decide) inertRunFn
  exact ⟨h.1, h.2.1⟩

/-! ## Lock-table accounting lemmas (towards the frame-exit discipline) -/

theorem alookup_cons {κ β : Type} [DecidableEq κ] (k₀ : κ) (v : β)
    (t : List (κ × β)) (k : κ) :
    alookup ((k₀, v) :: t) k = if k₀ = k then some v else alookup t k := rfl

theorem alookup_eq_none_iff {κ β : Type} [DecidableEq κ]
    (l : List (κ × β)) (k : κ) :
    alookup l k = none ↔ k ∉ l.map Prod.fst := by
  induction l with
  | nil => simp [alookup]
  | cons p t ih =>
      obtain ⟨k₀, v⟩ := p
      by_cases h : k₀ = k
      · subst h
        simp [alookup_cons]
      · simp [alookup_cons, h, ih, Ne.symm h]

theorem alookup_append_left {κ β : Type} [DecidableEq κ]
    (l₁ l₂ : List (κ × β)) (k : κ) (v : β) (h : alookup l₁ k = some v) :
    alookup (l₁ ++ l₂) k = some v := by
  induction l₁ with
  | nil => simp [alookup] at h
  | cons p t ih =>
      obtain ⟨k₀, v₀⟩ := p
      by_cases h₀ : k₀ = k
      · subst h₀
        simp [alookup_cons] at h ⊢
        exact h
      · simp [alookup_cons, h₀] at h ⊢
        exact ih h

theorem alookup_append_right {κ β : Type} [DecidableEq κ]
    (l₁ l₂ : List (κ × β)) (k : κ) (h : alookup l₁ k = none) :
    alookup (l₁ ++ l₂) k = alookup l₂ k := by
  induction l₁ with
  | nil => simp
  | cons p t ih =>
      obtain ⟨k₀, v₀⟩ := p
      by_cases h₀ : k₀ = k
      · subst h₀
        simp [alookup_cons] at h
      · simp [alookup_cons, h₀] at h ⊢
        exact ih h

theorem countOf_append_fresh (l : List (SubstateId × LockSt))
    (id k : SubstateId) (x : LockSt) (hnone : alookup l id = none) :
    countOf (l ++ [(id, x)]) k =
      if k = id then countOf l k + x.count else countOf l k := by
  by_cases hk : k = id
  · subst hk
    rw [countOf, alookup_append_right _ _ _ hnone, alookup_cons]
    simp [countOf, hnone, alookup]
  · rw [countOf]
    cases hl : alookup l k with
    | some v => rw [alookup_append_left _ _ _ _ hl, if_neg hk, countOf, hl]
    | none =>
        rw [alookup_append_right _ _ _ hl, alookup_cons]
        simp [Ne.symm hk, alookup, if_neg hk, countOf, hl]

theorem bumpLocks_cons (k₀ : SubstateId) (ls : LockSt)
    (t : List (SubstateId × LockSt)) (id : SubstateId) :
    bumpLocks ((k₀, ls) :: t) id =
      (if k₀ = id then (k₀, { ls with count := ls.count + 1 }) else (k₀, ls))
        :: bumpLocks t id := by
  simp only [bumpLocks, List.map_cons]

theorem alookup_bumpLocks (l : List (SubstateId × LockSt))
    (id k : SubstateId) :
    alookup (bumpLocks l id) k =
      (alookup l k).map (fun ls =>
        if k = id then { ls with count := ls.count + 1 } else ls) := by
  induction l with
  | nil => simp [bumpLocks, alookup]
  | cons p t ih =>
      obtain ⟨k₀, ls₀⟩ := p
      rw [bumpLocks_cons]
      by_cases h₀ : k₀ = k
      · subst h₀
        by_cases hid : k₀ = id
        · subst hid
          simp [alookup_cons]
        · simp [alookup_cons, hid]
      · by_cases hid : k₀ = id
        · subst hid
          simp [alookup_cons, h₀, ih]
        · simp [alookup_cons, h₀, hid, ih]

theorem countOf_bumpLocks (l : List (SubstateId × LockSt))
    (id k : SubstateId) (ls₀ : LockSt) (hsome : alookup l id = some ls₀) :
    countOf (bumpLocks l id) k =
      if k = id then countOf l k + 1 else countOf l k := by
  rw [countOf, alookup_bumpLocks]
  by_cases hk : k = id
  · subst hk
    simp [hsome, countOf]
  · simp only [if_neg hk, countOf]
    cases alookup l k <;> simp [hk]

theorem keys_bumpLocks (l : List (SubstateId × LockSt)) (id : SubstateId) :
    (bumpLocks l id).map Prod.fst = l.map Prod.fst := by
  rw [bumpLocks, List.map_map]
  refine List.map_congr_left ?_
  intro p _
  by_cases h : p.1 = id <;> simp [h]

theorem keys_decLocks_sublist (l : List (SubstateId × LockSt))
    (id : SubstateId) :
    ((decLocks l id).map Prod.fst).Sublist (l.map Prod.fst) := by
  have h1 : ((decLocks l id).map Prod.fst).Sublist
      ((l.map (fun p =>
        if p.1 = id then (p.1, { p.2 with count := p.2.count - 1 })
        else p)).map Prod.fst) :=
    (List.filter_sublist _).map Prod.fst
  have h2 : (l.map (fun p =>
      if p.1 = id then (p.1, { p.2 with count := p.2.count - 1 })
      else p)).map Prod.fst = l.map Prod.fst := by
    rw [List.map_map]
    refine List.map_congr_left ?_
    intro q _
    by_cases hq : q.1 = id <;> simp [hq]
  rwa [h2] at h1

theorem decLocks_cons_eq (t : List (SubstateId × LockSt)) (id : SubstateId)
    (ls : LockSt) :
    decLocks ((id, ls) :: t) id =
      if ls.count - 1 = 0 then decLocks t id
      else (id, { ls with count := ls.count - 1 }) :: decLocks t id := by
  by_cases hz : ls.count - 1 = 0 <;> simp [decLocks, hz]

theorem decLocks_cons_ne (t : List (SubstateId × LockSt))
    (id k₀ : SubstateId) (ls : LockSt) (h : ¬ k₀ = id) :
    decLocks ((k₀, ls) :: t) id =
      if ls.count = 0 then decLocks t id
      else (k₀, ls) :: decLocks t id := by
  by_cases hz : ls.count = 0 <;> simp [decLocks, h, hz]

theorem countOf_decLocks (l : List (SubstateId × LockSt)) (id k : SubstateId)
    (hnd : (l.map Prod.fst).Nodup) :
    countOf (decLocks l id) k =
      if k = id then countOf l k - 1 else countOf l k := by
  induction l with
  | nil =>
      simp only [decLocks, List.map_nil, List.filter_nil, countOf, alookup]
      split <;> rfl
  | cons p t ih =>
      obtain ⟨k₀, ls₀⟩ := p
      have hnd' : (t.map Prod.fst).Nodup := (List.nodup_cons.mp hnd).2
      have hk₀ : k₀ ∉ t.map Prod.fst := by
        have := (List.nodup_cons.mp hnd).1
        simpa using this
      have htnone : alookup t k₀ = none := (alookup_eq_none_iff t k₀).mpr hk₀
      have hrestnone : alookup (decLocks t id) k₀ = none := by
        rw [alookup_eq_none_iff]
        intro hmem
        exact hk₀ ((keys_decLocks_sublist t id).mem hmem)
      by_cases h₀ : k₀ = id
      · subst h₀
        rw [decLocks_cons_eq]
        by_cases hz : ls₀.count - 1 = 0
        · rw [if_pos hz, ih hnd']
          by_cases hk : k = k₀
          · subst hk
            simp [countOf, alookup_cons, htnone, hz]
          · simp [countOf, alookup_cons, Ne.symm hk, hk]
        · rw [if_neg hz]
          by_cases hk : k = k₀
          · subst hk
            simp [countOf, alookup_cons]
          · simp only [countOf, alookup_cons, Ne.symm hk, if_neg hk,
              if_neg (fun h => hk h)]
            have h4 := ih hnd'
            simp only [countOf, if_neg hk] at h4
            exact h4
      · rw [decLocks_cons_ne t id k₀ ls₀ h₀]
        by_cases hz : ls₀.count = 0
        · rw [if_pos hz, ih hnd']
          by_cases hk : k = k₀
          · subst hk
            simp [countOf, alookup_cons, htnone, hrestnone, hz, h₀,
              Ne.symm h₀]
          · simp [countOf, alookup_cons, Ne.symm hk]
        · rw [if_neg hz]
          by_cases hk : k = k₀
          · subst hk
            simp [countOf, alookup_cons, h₀]
          · simp only [countOf, alookup_cons, Ne.symm hk, if_neg hk]
            have h4 := ih hnd'
            simp only [countOf] at h4
            exact h4

theorem FM.bind_eq_ok {α β : Type} {x : FM α} {g : α → FM β} {fr : Frame}
    {st : KState} {fr'' : Frame} {st'' : KState} {b : β} :
    (x >>= g) fr st = (fr'', st'', Except.ok b) ↔
      ∃ a fr' st', x fr st = (fr', st', Except.ok a) ∧
        g a fr' st' = (fr'', st'', Except.ok b) := by
  constructor
  · intro h
    rw [FM.run_bind] at h
    rcases hx : x fr st with ⟨f', st', r⟩
    rw [hx] at h
    cases r with
    | ok a => exact ⟨a, f', st', rfl, h⟩
    | error e => simp at h
  · rintro ⟨a, f', st', h1, h2⟩
    rw [FM.run_bind, h1]
    exact h2

theorem trackAcquireLock_ok_spec (st : KState) (id : SubstateId) (m wt : Bool)
    (st' : KState) (hnd : locksNodup st)
    (h : trackAcquireLock st id m wt = .ok st') :
    locksNodup st' ∧
    (∀ k, heldCount st' k =
      if k = id then heldCount st k + 1 else heldCount st k) ∧
    st'.substates = st.substates ∧ st'.heaps = st.heaps ∧
    st'.feeBalance = st.feeBalance ∧ st'.feeCharges = st.feeCharges := by
  unfold trackAcquireLock at h
  split at h
  · simp at h
  · split at h
    · rename_i ls hl
      split at h
      · simp at h
      · injection h with h'
        subst h'
        refine ⟨?_, ?_, rfl, rfl, rfl, rfl⟩
        · show ((bumpLocks st.locks id).map Prod.fst).Nodup
          rw [keys_bumpLocks]
          exact hnd
        · intro k
          exact countOf_bumpLocks st.locks id k ls hl
    · rename_i hl
      split at h
      · injection h with h'
        subst h'
        refine ⟨?_, ?_, rfl, rfl, rfl, rfl⟩
        · show ((st.locks ++ [(id, (⟨m, 1, wt⟩ : LockSt))]).map Prod.fst).Nodup
          have hid : id ∉ st.locks.map Prod.fst :=
            (alookup_eq_none_iff _ _).mp hl
          have hnd' : (st.locks.map Prod.fst).Nodup := hnd
          simp [List.nodup_append, hnd', hid]
        · intro k
          exact countOf_append_fresh st.locks id k (⟨m, 1, wt⟩ : LockSt) hl
      · simp at h

theorem trackReleaseLock_spec (st : KState) (id : SubstateId) (wt : Bool)
    (hnd : locksNodup st) :
    locksNodup (trackReleaseLock st id wt) ∧
    (∀ k, heldCount (trackReleaseLock st id wt) k =
      if k = id then heldCount st k - 1 else heldCount st k) ∧
    (trackReleaseLock st id wt).substates = st.substates ∧
    (trackReleaseLock st id wt).heaps = st.heaps ∧
    (trackReleaseLock st id wt).touched = st.touched := by
  refine ⟨?_, ?_, rfl, rfl, rfl⟩
  · show ((decLocks st.locks id).map Prod.fst).Nodup
    exact hnd.sublist (keys_decLocks_sublist st.locks id)
  · intro k
    exact countOf_decLocks st.locks id k hnd

theorem pointerAcquireLock_ok_spec (p : RENodePointer) (sid : SubstateId)
    (m wt : Bool) (fr : Frame) (st : KState) (fr' : Frame) (st' : KState)
    (u : Unit) (hnd : locksNodup st)
    (h : pointerAcquireLock p sid m wt fr st = (fr', st', Except.ok u)) :
    fr' = fr ∧ locksNodup st' ∧
    (∀ k, heldCount st' k = heldCount st k + ptrAcq p sid k) ∧
    st'.substates = st.substates ∧ st'.heaps = st.heaps := by
  cases p with
  | HeapPtr a b c =>
      simp only [pointerAcquireLock, FM.run_pure, Prod.mk.injEq] at h
      obtain ⟨h1, h2, -⟩ := h
      subst h1
      subst h2
      exact ⟨rfl, hnd, fun k => by simp [ptrAcq], rfl, rfl⟩
  | Store nid =>
      simp only [pointerAcquireLock, FM.run_bind, FM.run_getSt] at h
      cases htr : trackAcquireLock st sid m wt with
      | ok st₂ =>
          rw [htr] at h
          simp only [FM.run_setSt, Prod.mk.injEq] at h
          obtain ⟨h1, h2, -⟩ := h
          subst h1
          subst h2
          obtain ⟨hn, hc, hs, hh, _, _⟩ :=
            trackAcquireLock_ok_spec st sid m wt st₂ hnd htr
          refine ⟨rfl, hn, ?_, hs, hh⟩
          intro k
          rw [hc k]
          by_cases hk : k = sid <;> simp [ptrAcq, hk]
      | error e =>
          rw [htr] at h
          cases e <;> simp [FM.run_throw] at h

theorem pointerReleaseLock_run (p : RENodePointer) (sid : SubstateId)
    (wt : Bool) (fr : Frame) (st : KState) :
    pointerReleaseLock p sid wt fr st =
      (fr, ptrRelState p sid wt st, Except.ok ()) := by
  cases p <;> rfl

theorem ptrRelState_spec (p : RENodePointer) (sid : SubstateId) (wt : Bool)
    (st : KState) (hnd : locksNodup st) :
    locksNodup (ptrRelState p sid wt st) ∧
    (∀ k, heldCount (ptrRelState p sid wt st) k =
      heldCount st k - ptrAcq p sid k) ∧
    (ptrRelState p sid wt st).substates = st.substates ∧
    (ptrRelState p sid wt st).heaps = st.heaps := by
  cases p with
  | HeapPtr a b c => exact ⟨hnd, fun k => by simp [ptrRelState, ptrAcq], rfl, rfl⟩
  | Store nid =>
      obtain ⟨hn, hc, hs, hh, _⟩ := trackReleaseLock_spec st sid wt hnd
      refine ⟨hn, ?_, hs, hh⟩
      intro k
      rw [show ptrRelState (RENodePointer.Store nid) sid wt st =
        trackReleaseLock st sid wt from rfl, hc k]
      by_cases hk : k = sid <;> simp [ptrAcq, hk]

theorem releaseLocks_run (L : List (RENodePointer × SubstateId × Bool))
    (fr : Frame) (st : KState) :
    releaseLocks L fr st = (fr, relAllState L st, Except.ok ()) := by
  induction L generalizing st with
  | nil => rfl
  | cons e t ih =>
      obtain ⟨p, sid, wt⟩ := e
      show (pointerReleaseLock p sid wt >>= fun _ => releaseLocks t) fr st = _
      rw [FM.run_bind, pointerReleaseLock_run]
      exact ih (ptrRelState p sid wt st)

theorem relAllState_spec (L : List (RENodePointer × SubstateId × Bool))
    (st : KState) (hnd : locksNodup st) :
    locksNodup (relAllState L st) ∧
    (∀ k, heldCount (relAllState L st) k = heldCount st k - acqSum L k) ∧
    (relAllState L st).substates = st.substates ∧
    (relAllState L st).heaps = st.heaps := by
  induction L generalizing st with
  | nil => exact ⟨hnd, fun k => by simp [relAllState, acqSum], rfl, rfl⟩
  | cons e t ih =>
      obtain ⟨p, sid, wt⟩ := e
      obtain ⟨hn1, hc1, hs1, hh1⟩ := ptrRelState_spec p sid wt st hnd
      obtain ⟨hn2, hc2, hs2, hh2⟩ := ih (ptrRelState p sid wt st) hn1
      refine ⟨hn2, ?_, hs2.trans hs1, hh2.trans hh1⟩
      intro k
      show heldCount (relAllState t (ptrRelState p sid wt st)) k = _
      rw [hc2 k, hc1 k]
      simp only [acqSum]
      omega

theorem feeConsume_ok_inv (c : Nat) (rs : String) (fr : Frame) (st : KState)
    (fr' : Frame) (st' : KState) (u : Unit)
    (h : feeConsume c rs fr st = (fr', st', Except.ok u)) :
    fr' = fr ∧ st' = chargedState c rs st := by
  by_cases hb : st.feeBalance < c
  · rw [feeConsume_fail c rs fr st hb] at h
    simp at h
  · rw [feeConsume_success c rs fr st (by omega)] at h
    simp only [Prod.mk.injEq] at h
    exact ⟨h.1.symm, h.2.1.symm⟩

theorem liftE_ok_inv {α : Type} (e : Except RuntimeError α) (fr : Frame)
    (st : KState) (fr' : Frame) (st' : KState) (a : α)
    (h : FM.liftE e fr st = (fr', st', Except.ok a)) :
    fr' = fr ∧ st' = st ∧ e = .ok a := by
  cases e with
  | ok b =>
      simp only [FM.liftE, FM.run_pure, Prod.mk.injEq, Except.ok.injEq] at h
      obtain ⟨h1, h2, h3⟩ := h
      exact ⟨h1.symm, h2.symm, by rw [h3]⟩
  | error er => simp [FM.liftE, FM.run_throw] at h

theorem takeAvailableValues_ok_inv (ids : List RENodeId) (po : Bool)
    (fr : Frame) (st : KState) (fr' : Frame) (st' : KState) (taken : Heap)
    (missing : List RENodeId)
    (h : takeAvailableValues ids po fr st = (fr', st', Except.ok (taken, missing))) :
    ∃ heap', takeLoop (st.heapAt fr.depth) po ids = .ok (heap', taken, missing) ∧
      st' = st.setHeap fr.depth heap' ∧
      fr' = { fr with nodeRefs := refsAfterTake fr.nodeRefs taken } := by
  unfold takeAvailableValues at h
  simp only [FM.run_bind, FM.run_getFrame, FM.run_getSt] at h
  cases htl : takeLoop (st.heapAt fr.depth) po ids with
  | error e =>
      rw [htl] at h
      simp [FM.run_throw] at h
  | ok res =>
      obtain ⟨heap', tk, ms⟩ := res
      rw [htl] at h
      simp only [FM.run_bind, FM.run_setSt, FM.run_setFrame, FM.run_pure,
        Prod.mk.injEq, Except.ok.injEq] at h
      obtain ⟨h1, h2, h3, h4⟩ := h
      subst h3
      subst h4
      exact ⟨heap', rfl, h2.symm, h1.symm⟩

theorem modifySubstates_run (g : List (SubstateId × Substate) →
    List (SubstateId × Substate)) (fr : Frame) (st : KState) :
    modifySubstates g fr st =
      (fr, { st with substates := g st.substates }, Except.ok ()) := rfl

theorem insertNonRootNodes_ok_inv (l : List (RENodeId × HeapRENode))
    (fr : Frame) (st : KState) (fr' : Frame) (st' : KState) (u : Unit)
    (h : insertNonRootNodes l fr st = (fr', st', Except.ok u)) :
    fr' = fr ∧ st'.locks = st.locks ∧ st'.heaps = st.heaps ∧
      st'.touched = st.touched := by
  induction l generalizing fr st with
  | nil =>
      simp only [insertNonRootNodes, FM.run_pure, Prod.mk.injEq] at h
      obtain ⟨h1, h2, -⟩ := h
      exact ⟨h1.symm, by rw [h2], by rw [h2], by rw [h2]⟩
  | cons e rest ih =>
      obtain ⟨id, node⟩ := e
      cases id <;> cases node <;>
        (simp only [insertNonRootNodes] at h
         obtain ⟨a, fr₁, st₁, h₁, h₂⟩ := FM.bind_eq_ok.mp h
         first
         | simp [FM.run_panic] at h₁
         | (rw [modifySubstates_run] at h₁
            simp only [Prod.mk.injEq] at h₁
            obtain ⟨g1, g2, -⟩ := h₁
            obtain ⟨hf', hl', hh', ht'⟩ := ih fr₁ st₁ h₂
            exact ⟨hf'.trans g1.symm, by rw [hl', ← g2],
              by rw [hh', ← g2], by rw [ht', ← g2]⟩))

theorem heapModifyRoot_ok_inv (frameId : Nat) (root : RENodeId)
    (g : HeapRootRENode → Option HeapRootRENode) (fr : Frame) (st : KState)
    (fr' : Frame) (st' : KState) (u : Unit)
    (h : heapModifyRoot frameId root g fr st = (fr', st', Except.ok u)) :
    fr' = fr ∧ st'.locks = st.locks ∧ st'.substates = st.substates ∧
      st'.touched = st.touched := by
  unfold heapModifyRoot at h
  simp only [FM.run_bind, FM.run_getSt] at h
  cases hal : alookup (st.heapAt frameId) root with
  | none => rw [hal] at h; simp [FM.run_panic] at h
  | some rv =>
      rw [hal] at h
      simp only [] at h
      cases hg : g rv with
      | none => rw [hg] at h; simp [FM.run_panic] at h
      | some rv' =>
          rw [hg] at h
          simp only [FM.run_setSt, Prod.mk.injEq] at h
          obtain ⟨h1, h2, -⟩ := h
          refine ⟨h1.symm, ?_, ?_, ?_⟩ <;> rw [← h2]
          · exact setHeap_locks _ _ _
          · exact setHeap_substates _ _ _
          · exact setHeap_touched _ _ _

theorem componentInfoOf_ok (p : RENodePointer) (fr : Frame) (st : KState)
    (fr' : Frame) (st' : KState) (v : Nat × String)
    (h : componentInfoOf p fr st = (fr', st', Except.ok v)) :
    fr' = fr ∧ st' = st := by
  unfold componentInfoOf at h
  simp only [FM.run_bind, FM.run_getSt] at h
  cases p with
  | HeapPtr a b c =>
      simp only [] at h
      cases hl : heapLookupNode st a b c with
      | none => rw [hl] at h; simp [FM.run_panic] at h
      | some node =>
          rw [hl] at h
          cases node <;>
            simp only [FM.run_pure, FM.run_panic, Prod.mk.injEq, reduceCtorEq,
              and_false, false_and] at h
          exact ⟨h.1.symm, h.2.1.symm⟩
  | Store nid =>
      cases nid
      case Component a =>
        simp only [] at h
        cases hl : alookup st.substates (SubstateId.ComponentInfo a) with
        | none => rw [hl] at h; simp [FM.run_panic] at h
        | some sub =>
            rw [hl] at h
            cases sub <;>
              simp only [FM.run_pure, FM.run_panic, Prod.mk.injEq, reduceCtorEq,
                and_false, false_and] at h
            exact ⟨h.1.symm, h.2.1.symm⟩
      all_goals simp [FM.run_panic] at h

theorem vaultResourceOf_ok (p : RENodePointer) (fr : Frame) (st : KState)
    (fr' : Frame) (st' : KState) (v : Nat)
    (h : vaultResourceOf p fr st = (fr', st', Except.ok v)) :
    fr' = fr ∧ st' = st := by
  unfold vaultResourceOf at h
  simp only [FM.run_bind, FM.run_getSt] at h
  cases p with
  | HeapPtr a b c =>
      simp only [] at h
      cases hl : heapLookupNode st a b c with
      | none => rw [hl] at h; simp [FM.run_panic] at h
      | some node =>
          rw [hl] at h
          cases node <;>
            simp only [FM.run_pure, FM.run_panic, Prod.mk.injEq, reduceCtorEq,
              and_false, false_and] at h
          exact ⟨h.1.symm, h.2.1.symm⟩
  | Store nid =>
      cases nid
      case Vault a =>
        simp only [] at h
        cases hl : alookup st.substates (SubstateId.Vault a) with
        | none => rw [hl] at h; simp [FM.run_panic] at h
        | some sub =>
            rw [hl] at h
            cases sub <;>
              simp only [FM.run_pure, FM.run_panic, Prod.mk.injEq, reduceCtorEq,
                and_false, false_and] at h
            exact ⟨h.1.symm, h.2.1.symm⟩
      all_goals simp [FM.run_panic] at h

theorem bucketResourceOf_ok (p : RENodePointer) (fr : Frame) (st : KState)
    (fr' : Frame) (st' : KState) (v : Nat)
    (h : bucketResourceOf p fr st = (fr', st', Except.ok v)) :
    fr' = fr ∧ st' = st := by
  unfold bucketResourceOf at h
  simp only [FM.run_bind, FM.run_getSt] at h
  cases p with
  | HeapPtr a b c =>
      simp only [] at h
      cases hl : heapLookupNode st a b c with
      | none => rw [hl] at h; simp [FM.run_panic] at h
      | some node =>
          rw [hl] at h
          cases node <;>
            simp only [FM.run_pure, FM.run_panic, Prod.mk.injEq, reduceCtorEq,
              and_false, false_and] at h
          exact ⟨h.1.symm, h.2.1.symm⟩
  | Store nid => simp [FM.run_panic] at h

theorem acqSum_append (a b : List (RENodePointer × SubstateId × Bool))
    (k : SubstateId) : acqSum (a ++ b) k = acqSum a k + acqSum b k := by
  induction a with
  | nil => simp [acqSum]
  | cons e t ih => simp [acqSum, ih]; omega

theorem locksNodup_setHeap (st : KState) (i : Nat) (hp : Heap) :
    locksNodup (st.setHeap i hp) ↔ locksNodup st := by
  unfold locksNodup
  rw [setHeap_locks]

theorem heldCount_setHeap (st : KState) (i : Nat) (hp : Heap)
    (k : SubstateId) : heldCount (st.setHeap i hp) k = heldCount st k := by
  unfold heldCount
  rw [setHeap_locks]

theorem releaseTrackLocks_run (L : List SubstateId) (fr : Frame)
    (st : KState) :
    releaseTrackLocks L fr st = (fr, relTrackAll L st, Except.ok ()) := by
  induction L generalizing st with
  | nil => rfl
  | cons s t ih =>
      show (FM.getSt >>= fun st => FM.setSt (trackReleaseLock st s false) >>=
        fun _ => releaseTrackLocks t) fr st = _
      simp only [FM.run_bind, FM.run_getSt, FM.run_setSt]
      exact ih (trackReleaseLock st s false)

theorem relTrackAll_spec (L : List SubstateId) (st : KState)
    (hnd : locksNodup st) :
    locksNodup (relTrackAll L st) ∧
    (∀ k, heldCount (relTrackAll L st) k = heldCount st k - sidSum L k) ∧
    (relTrackAll L st).substates = st.substates ∧
    (relTrackAll L st).heaps = st.heaps := by
  induction L generalizing st with
  | nil => exact ⟨hnd, fun k => by simp [relTrackAll, sidSum], rfl, rfl⟩
  | cons s t ih =>
      obtain ⟨hn1, hc1, hs1, hh1, -⟩ := trackReleaseLock_spec st s false hnd
      obtain ⟨hn2, hc2, hs2, hh2⟩ := ih (trackReleaseLock st s false) hn1
      refine ⟨hn2, ?_, hs2.trans hs1, hh2.trans hh1⟩
      intro k
      show heldCount (relTrackAll t (trackReleaseLock st s false)) k = _
      rw [hc2 k, hc1 k]
      simp only [sidSum]
      by_cases hk : k = s
      · simp only [if_pos hk]
        omega
      · simp only [if_neg hk]
        omega

theorem newNodeId_ok_inv (node : HeapRENode) (fr : Frame) (st : KState)
    (fr' : Frame) (st' : KState) (id : RENodeId)
    (h : newNodeId node fr st = (fr', st', Except.ok id)) :
    fr' = fr ∧ st'.locks = st.locks ∧ st'.substates = st.substates ∧
      st'.heaps = st.heaps ∧ st'.touched = st.touched := by
  unfold newNodeId at h
  simp only [FM.run_bind, FM.run_getSt] at h
  cases node <;>
    simp only [FM.run_bind, FM.run_setSt, FM.run_pure, FM.run_panic,
      Prod.mk.injEq, reduceCtorEq, and_false, false_and] at h <;>
    obtain ⟨h1, h2, -⟩ := h <;>
    exact ⟨h1.symm, by rw [← h2], by rw [← h2], by rw [← h2], by rw [← h2]⟩

theorem acquireComponentInfoOrPanic_ok_spec (p : RENodePointer)
    (sid : SubstateId) (fr : Frame) (st : KState) (fr' : Frame) (st' : KState)
    (u : Unit) (hnd : locksNodup st)
    (h : acquireComponentInfoOrPanic p sid fr st = (fr', st', Except.ok u)) :
    fr' = fr ∧ locksNodup st' ∧
    (∀ k, heldCount st' k = heldCount st k + ptrAcq p sid k) ∧
    st'.substates = st.substates ∧ st'.heaps = st.heaps := by
  cases p with
  | HeapPtr a b c =>
      simp only [acquireComponentInfoOrPanic, FM.run_pure, Prod.mk.injEq] at h
      obtain ⟨h1, h2, -⟩ := h
      subst h1
      subst h2
      exact ⟨rfl, hnd, fun k => by simp [ptrAcq], rfl, rfl⟩
  | Store nid =>
      simp only [acquireComponentInfoOrPanic, FM.run_bind, FM.run_getSt] at h
      cases htr : trackAcquireLock st sid false false with
      | ok st₂ =>
          rw [htr] at h
          simp only [FM.run_setSt, Prod.mk.injEq] at h
          obtain ⟨h1, h2, -⟩ := h
          subst h1
          subst h2
          obtain ⟨hn, hc, hs, hh, -, -⟩ :=
            trackAcquireLock_ok_spec st sid false false st₂ hnd htr
          refine ⟨rfl, hn, ?_, hs, hh⟩
          intro k
          rw [hc k]
          by_cases hk : k = sid <;> simp [ptrAcq, hk]
      | error e =>
          rw [htr] at h
          simp [FM.run_panic] at h

theorem readScryptoValueAt_ok (ext : Ext) (p : RENodePointer)
    (sid : SubstateId) (fr : Frame) (st : KState) (fr' : Frame) (st' : KState)
    (v : ScryptoValue)
    (h : readScryptoValueAt ext p sid fr st = (fr', st', Except.ok v)) :
    fr' = fr ∧ st' = st := by
  unfold readScryptoValueAt at h
  simp only [FM.run_bind, FM.run_getSt] at h
  cases sid
  case ComponentInfo a =>
      simp only [] at h
      obtain ⟨w, fr₁, st₁, h₁, h₂⟩ := FM.bind_eq_ok.mp h
      obtain ⟨hf, hs⟩ := componentInfoOf_ok p fr st fr₁ st₁ w h₁
      simp only [FM.run_pure, Prod.mk.injEq] at h₂
      obtain ⟨g1, g2, -⟩ := h₂
      exact ⟨g1.symm.trans hf, g2.symm.trans hs⟩
  case ComponentState a =>
      simp only [] at h
      cases p with
      | HeapPtr q r s =>
          simp only [] at h
          cases hl : heapLookupNode st q r s with
          | none => rw [hl] at h; simp [FM.run_panic] at h
          | some node =>
              rw [hl] at h
              cases node <;>
                simp only [FM.run_pure, FM.run_panic, Prod.mk.injEq,
                  reduceCtorEq, and_false, false_and] at h
              exact ⟨h.1.symm, h.2.1.symm⟩
      | Store nid =>
          cases nid
          case Component b =>
              simp only [] at h
              cases hl : alookup st.substates (SubstateId.ComponentState b) with
              | none => rw [hl] at h; simp [FM.run_panic] at h
              | some sub =>
                  rw [hl] at h
                  cases sub <;>
                    simp only [FM.run_pure, FM.run_panic, Prod.mk.injEq,
                      reduceCtorEq, and_false, false_and] at h
                  exact ⟨h.1.symm, h.2.1.symm⟩
          all_goals simp [FM.run_panic] at h
  case NonFungible a i =>
      simp only [FM.run_pure, Prod.mk.injEq] at h
      exact ⟨h.1.symm, h.2.1.symm⟩
  case KeyValueStoreEntry k key =>
      simp only [] at h
      cases p with
      | HeapPtr q r s =>
          simp only [] at h
          cases hl : heapLookupNode st q r s with
          | none => rw [hl] at h; simp [FM.run_panic] at h
          | some node =>
              rw [hl] at h
              cases node
              case KeyValueStore entries =>
                  simp only [] at h
                  cases he : alookup entries key with
                  | none =>
                      rw [he] at h
                      simp only [FM.run_pure, Prod.mk.injEq] at h
                      exact ⟨h.1.symm, h.2.1.symm⟩
                  | some raw =>
                      rw [he] at h
                      simp only [FM.run_pure, Prod.mk.injEq] at h
                      exact ⟨h.1.symm, h.2.1.symm⟩
              all_goals simp [FM.run_panic] at h
      | Store nid =>
          simp only [] at h
          cases hl : alookup st.substates (SubstateId.KeyValueStoreEntry k key) with
          | none =>
              rw [hl] at h
              simp only [FM.run_pure, Prod.mk.injEq] at h
              exact ⟨h.1.symm, h.2.1.symm⟩
          | some sub =>
              rw [hl] at h
              cases sub <;>
                first
                | (simp only [FM.run_pure, Prod.mk.injEq] at h
                   exact ⟨h.1.symm, h.2.1.symm⟩)
                | skip
              rename_i o
              cases o <;> simp only [FM.run_pure, Prod.mk.injEq] at h <;>
                exact ⟨h.1.symm, h.2.1.symm⟩
  all_goals (simp only [] at h; simp [FM.run_panic] at h)

theorem readValueInternal_ok_spec (ext : Ext) (sid : SubstateId) (fr : Frame)
    (st : KState) (fr' : Frame) (st' : KState) (pv : RENodePointer × ScryptoValue)
    (hnd : locksNodup st)
    (h : readValueInternal ext sid fr st = (fr', st', Except.ok pv)) :
    fr' = fr ∧ locksNodup st' ∧ (∀ k, heldCount st' k = heldCount st k) ∧
    st'.substates = st.substates ∧ st'.heaps = st.heaps := by
  unfold readValueInternal at h
  simp only [FM.run_bind, FM.run_getFrame] at h
  cases hal : alookup fr.nodeRefs (substateNodeId sid) with
  | none => rw [hal] at h; simp [FM.run_throw] at h
  | some np =>
      rw [hal] at h
      cases sid
      case ComponentInfo a =>
          simp only [] at h
          obtain ⟨w, fr₁, st₁, h₁, h⟩ := FM.bind_eq_ok.mp h
          obtain ⟨hf1, hn1, hc1, hs1, hh1⟩ := acquireComponentInfoOrPanic_ok_spec
            np (SubstateId.ComponentInfo a) fr st fr₁ st₁ w hnd h₁
          obtain ⟨w2, fr₂, st₂, h₂, h⟩ := FM.bind_eq_ok.mp h
          obtain ⟨hf2, hs2⟩ := readScryptoValueAt_ok _ _ _ _ _ _ _ _ h₂
          obtain ⟨w3, fr₃, st₃, h₃, h⟩ := FM.bind_eq_ok.mp h
          rw [pointerReleaseLock_run] at h₃
          simp only [Prod.mk.injEq] at h₃
          obtain ⟨g1, g2, -⟩ := h₃
          simp only [FM.run_pure, Prod.mk.injEq] at h
          obtain ⟨e1, e2, -⟩ := h
          subst hs2
          obtain ⟨hn3, hc3, hs3, hh3⟩ :=
            ptrRelState_spec np (SubstateId.ComponentInfo a) false st₂ hn1
          refine ⟨?_, ?_, ?_, ?_, ?_⟩
          · rw [← e1, ← g1, hf2, hf1]
          · rw [← e2, ← g2]; exact hn3
          · intro k
            rw [← e2, ← g2, hc3 k, hc1 k]
            omega
          · rw [← e2, ← g2, hs3, hs1]
          · rw [← e2, ← g2, hh3, hh1]
      all_goals (
        simp only [] at h
        obtain ⟨w, fr₁, st₁, h₁, h⟩ := FM.bind_eq_ok.mp h
        simp only [FM.run_pure, Prod.mk.injEq] at h₁
        obtain ⟨a1, a2, -⟩ := h₁
        obtain ⟨w2, fr₂, st₂, h₂, h⟩ := FM.bind_eq_ok.mp h
        obtain ⟨hf2, hs2⟩ := readScryptoValueAt_ok _ _ _ _ _ _ _ _ h₂
        obtain ⟨w3, fr₃, st₃, h₃, h⟩ := FM.bind_eq_ok.mp h
        simp only [FM.run_pure, Prod.mk.injEq] at h₃
        obtain ⟨b1, b2, -⟩ := h₃
        simp only [FM.run_pure, Prod.mk.injEq] at h
        obtain ⟨e1, e2, -⟩ := h
        subst a1
        subst a2
        subst hf2
        subst hs2
        subst b1
        subst b2
        subst e1
        subst e2
        exact ⟨rfl, hnd, fun k => rfl, rfl, rfl⟩)

theorem modifyThenInsert_ok_inv (g : List (SubstateId × Substate) →
    List (SubstateId × Substate)) (L : List (RENodeId × HeapRENode))
    (fr : Frame) (st : KState) (fr' : Frame) (st' : KState) (u : Unit)
    (h : (modifySubstates g >>= fun _ => insertNonRootNodes L) fr st =
      (fr', st', Except.ok u)) :
    fr' = fr ∧ st'.locks = st.locks ∧ st'.touched = st.touched := by
  obtain ⟨w, fr₁, st₁, h₁, h₂⟩ := FM.bind_eq_ok.mp h
  rw [modifySubstates_run] at h₁
  simp only [Prod.mk.injEq] at h₁
  obtain ⟨g1, g2, -⟩ := h₁
  obtain ⟨hf, hl, hh, ht⟩ := insertNonRootNodes_ok_inv _ fr₁ st₁ fr' st' u h₂
  exact ⟨hf.trans g1.symm, hl.trans (by rw [← g2]), ht.trans (by rw [← g2])⟩

theorem writeValueAt_ok_inv (p : RENodePointer) (sid : SubstateId)
    (value : ScryptoValue) (taken : Heap) (fr : Frame) (st : KState)
    (fr' : Frame) (st' : KState) (u : Unit)
    (h : writeValueAt p sid value taken fr st = (fr', st', Except.ok u)) :
    fr' = fr ∧ st'.locks = st.locks ∧ st'.touched = st.touched := by
  unfold writeValueAt at h
  cases sid <;> cases p <;> simp only [] at h
  case ComponentState.HeapPtr a q r s =>
      obtain ⟨hf, hl, -, ht⟩ := heapModifyRoot_ok_inv q r _ fr st fr' st' u h
      exact ⟨hf, hl, ht⟩
  case ComponentState.Store a n =>
      exact modifyThenInsert_ok_inv _ _ fr st fr' st' u h
  case KeyValueStoreEntry.HeapPtr k key q r s =>
      obtain ⟨hf, hl, -, ht⟩ := heapModifyRoot_ok_inv q r _ fr st fr' st' u h
      exact ⟨hf, hl, ht⟩
  case KeyValueStoreEntry.Store k key n =>
      exact modifyThenInsert_ok_inv _ _ fr st fr' st' u h
  case NonFungible.HeapPtr a i q r s =>
      obtain ⟨hf, hl, -, ht⟩ := heapModifyRoot_ok_inv q r _ fr st fr' st' u h
      exact ⟨hf, hl, ht⟩
  case NonFungible.Store a i n =>
      rw [modifySubstates_run] at h
      simp only [Prod.mk.injEq] at h
      obtain ⟨g1, g2, -⟩ := h
      exact ⟨g1.symm, by rw [← g2], by rw [← g2]⟩
  all_goals simp [FM.run_panic] at h

theorem emitLogCore_ok_inv (ext : Ext) (msg : String) (fr : Frame)
    (st : KState) (fr' : Frame) (st' : KState) (u : Unit)
    (h : emitLogCore ext msg fr st = (fr', st', Except.ok u)) :
    fr' = fr ∧ st'.locks = st.locks ∧ st'.substates = st.substates ∧
      st'.heaps = st.heaps ∧ st'.touched = st.touched := by
  unfold emitLogCore at h
  obtain ⟨w, fr₁, st₁, h₁, h₂⟩ := FM.bind_eq_ok.mp h
  obtain ⟨hf, hs⟩ := feeConsume_ok_inv _ _ fr st fr₁ st₁ w h₁
  simp only [FM.run_bind, FM.run_getSt, FM.run_setSt, Prod.mk.injEq] at h₂
  obtain ⟨g1, g2, -⟩ := h₂
  subst hf
  subst hs
  refine ⟨g1.symm, ?_, ?_, ?_, ?_⟩ <;> (rw [← g2]; rfl)

theorem dropOwnedValues_run (fr : Frame) (st : KState) :
    dropOwnedValues fr st =
      (fr, st.setHeap fr.depth [],
       match ((st.heapAt fr.depth).map (fun p => p.2)).findSome?
           nodeDropFailure with
       | some k => Except.error (KErr.rt (RuntimeError.DropFailure k))
       | none => Except.ok ()) := by
  unfold dropOwnedValues
  simp only [FM.run_bind, FM.run_getFrame, FM.run_getSt, FM.run_setSt]
  cases hfs : ((st.heapAt fr.depth).map (fun p => p.2)).findSome?
      nodeDropFailure with
  | some k => simp [FM.run_throw]
  | none => simp [FM.run_pure]

theorem findReceiverPointer_ok (nodeId : RENodeId) (fr : Frame) (st : KState)
    (fr' : Frame) (st' : KState) (p : RENodePointer)
    (h : findReceiverPointer nodeId fr st = (fr', st', Except.ok p)) :
    fr' = fr ∧ st' = st := by
  unfold findReceiverPointer at h
  simp only [FM.run_bind, FM.run_getFrame, FM.run_getSt] at h
  by_cases hh : (alookup (st.heapAt fr.depth) nodeId).isSome = true
  · rw [if_pos hh] at h
    simp only [FM.run_pure, Prod.mk.injEq] at h
    exact ⟨h.1.symm, h.2.1.symm⟩
  · rw [if_neg hh] at h
    cases hal : alookup fr.nodeRefs nodeId with
    | some ptr =>
        rw [hal] at h
        simp only [FM.run_pure, Prod.mk.injEq] at h
        exact ⟨h.1.symm, h.2.1.symm⟩
    | none =>
        rw [hal] at h
        simp only [] at h
        cases nodeId <;>
          first
          | (simp only [FM.run_pure, Prod.mk.injEq] at h
             exact ⟨h.1.symm, h.2.1.symm⟩)
          | simp [FM.run_throw] at h

theorem takeConsumedNode_ok_inv (receiver : Receiver) (nodeId : RENodeId)
    (fr : Frame) (st : KState) (fr' : Frame) (st' : KState)
    (res : Option (RENodeId × HeapRootRENode))
    (h : takeConsumedNode receiver nodeId fr st = (fr', st', Except.ok res)) :
    fr' = fr ∧ st'.locks = st.locks ∧ st'.substates = st.substates ∧
      st'.touched = st.touched := by
  cases receiver with
  | Consumed cid =>
      simp only [takeConsumedNode, FM.run_bind, FM.run_getFrame,
        FM.run_getSt] at h
      cases hal : alookup (st.heapAt fr.depth) nodeId with
      | none => rw [hal] at h; simp [FM.run_throw] at h
      | some heapNode =>
          rw [hal] at h
          simp only [FM.run_bind, FM.run_setSt, FM.run_pure,
            Prod.mk.injEq] at h
          obtain ⟨h1, h2, -⟩ := h
          refine ⟨h1.symm, ?_, ?_, ?_⟩ <;> rw [← h2]
          · exact setHeap_locks _ _ _
          · exact setHeap_substates _ _ _
          · exact setHeap_touched _ _ _
  | Ref rid =>
      simp only [takeConsumedNode, FM.run_pure, Prod.mk.injEq] at h
      obtain ⟨h1, h2, -⟩ := h
      exact ⟨h1.symm, by rw [h2], by rw [h2], by rw [h2]⟩
  | AuthZoneRef =>
      simp only [takeConsumedNode, FM.run_pure, Prod.mk.injEq] at h
      obtain ⟨h1, h2, -⟩ := h
      exact ⟨h1.symm, by rw [h2], by rw [h2], by rw [h2]⟩

theorem lockResourceManagers_ok_spec (m : Bool) (addrs : List Nat)
    (fr : Frame) (st : KState) (fr' : Frame) (st' : KState)
    (locked : List (RENodePointer × SubstateId × Bool))
    (refs : List (RENodeId × RENodePointer)) (hnd : locksNodup st)
    (h : lockResourceManagers m addrs fr st = (fr', st', Except.ok (locked, refs))) :
    fr' = fr ∧ locksNodup st' ∧
    (∀ k, heldCount st' k = heldCount st k + acqSum locked k) ∧
    st'.substates = st.substates ∧ st'.heaps = st.heaps := by
  induction addrs generalizing fr st fr' st' locked refs with
  | nil =>
      simp only [lockResourceManagers, FM.run_pure, Prod.mk.injEq,
        Except.ok.injEq] at h
      obtain ⟨h1, h2, h3, h4⟩ := h
      subst h3
      exact ⟨h1.symm, by rw [← h2]; exact hnd,
        fun k => by rw [← h2]; simp [acqSum], by rw [h2], by rw [h2]⟩
  | cons a rest ih =>
      simp only [lockResourceManagers] at h
      obtain ⟨w, fr₁, st₁, h₁, h⟩ := FM.bind_eq_ok.mp h
      obtain ⟨hf1, hn1, hc1, hs1, hh1⟩ := pointerAcquireLock_ok_spec _ _ _ _
        fr st fr₁ st₁ w hnd h₁
      obtain ⟨lr, fr₂, st₂, h₂, h⟩ := FM.bind_eq_ok.mp h
      obtain ⟨locked', refs'⟩ := lr
      obtain ⟨hf2, hn2, hc2, hs2, hh2⟩ := ih fr₁ st₁ fr₂ st₂ locked' refs' hn1 h₂
      simp only [FM.run_pure, Prod.mk.injEq, Except.ok.injEq] at h
      obtain ⟨e1, e2, e3, e4⟩ := h
      subst e3
      refine ⟨?_, ?_, ?_, ?_, ?_⟩
      · rw [← e1, hf2, hf1]
      · rw [← e2]; exact hn2
      · intro k
        rw [← e2, hc2 k, hc1 k]
        simp only [acqSum]
        omega
      · rw [← e2, hs2, hs1]
      · rw [← e2, hh2, hh1]

theorem loadActorLocks_ok_spec (np : RENodePointer) (nodeId : RENodeId)
    (fn : FnIdentifier) (fr : Frame) (st : KState) (fr' : Frame) (st' : KState)
    (L : List (RENodePointer × SubstateId × Bool)) (hnd : locksNodup st)
    (h : loadActorLocks np nodeId fn fr st = (fr', st', Except.ok L)) :
    fr' = fr ∧ locksNodup st' ∧
    (∀ k, heldCount st' k = heldCount st k + acqSum L k) ∧
    st'.substates = st.substates ∧ st'.heaps = st.heaps := by
  cases fn with
  | Native n =>
      simp only [loadActorLocks, FM.run_pure, Prod.mk.injEq,
        Except.ok.injEq] at h
      obtain ⟨h1, h2, h3⟩ := h
      subst h3
      exact ⟨h1.symm, by rw [← h2]; exact hnd,
        fun k => by rw [← h2]; simp [acqSum], by rw [h2], by rw [h2]⟩
  | Scrypto pa bn ident =>
      cases nodeId
      case Component ca =>
        simp only [loadActorLocks] at h
        obtain ⟨w, fr₁, st₁, h₁, h⟩ := FM.bind_eq_ok.mp h
        obtain ⟨hf1, hn1, hc1, hs1, hh1⟩ := pointerAcquireLock_ok_spec _ _ _ _
          fr st fr₁ st₁ w hnd h₁
        obtain ⟨pb, fr₂, st₂, h₂, h⟩ := FM.bind_eq_ok.mp h
        obtain ⟨hf2, hs2⟩ := componentInfoOf_ok _ fr₁ st₁ fr₂ st₂ pb h₂
        by_cases hpa : pa ≠ pb.1
        · rw [if_pos hpa] at h
          simp [FM.run_throw] at h
        · rw [if_neg hpa] at h
          by_cases hbn : bn ≠ pb.2
          · rw [if_pos hbn] at h
            simp [FM.run_throw] at h
          · rw [if_neg hbn] at h
            simp only [FM.run_pure, Prod.mk.injEq, Except.ok.injEq] at h
            obtain ⟨e1, e2, e3⟩ := h
            subst e3
            refine ⟨?_, ?_, ?_, ?_, ?_⟩
            · rw [← e1, hf2, hf1]
            · rw [← e2, hs2]; exact hn1
            · intro k
              rw [← e2, hs2, hc1 k]
              simp [acqSum]
            · rw [← e2, hs2, hs1]
            · rw [← e2, hs2, hh1]
      all_goals simp [loadActorLocks, FM.run_panic] at h

theorem lockParentSubstates_ok_spec (np : RENodePointer) (nodeId : RENodeId)
    (fr : Frame) (st : KState) (fr' : Frame) (st' : KState)
    (locked : List (RENodePointer × SubstateId × Bool))
    (refs : List (RENodeId × RENodePointer)) (hnd : locksNodup st)
    (h : lockParentSubstates np nodeId fr st = (fr', st', Except.ok (locked, refs))) :
    fr' = fr ∧ locksNodup st' ∧
    (∀ k, heldCount st' k = heldCount st k + acqSum locked k) ∧
    st'.substates = st.substates ∧ st'.heaps = st.heaps := by
  cases nodeId
  case Component ca =>
      simp only [lockParentSubstates] at h
      obtain ⟨pb, fr₁, st₁, h₁, h⟩ := FM.bind_eq_ok.mp h
      obtain ⟨hf1, hs1⟩ := componentInfoOf_ok _ fr st fr₁ st₁ pb h₁
      rw [hf1, hs1] at h
      obtain ⟨w, fr₂, st₂, h₂, h⟩ := FM.bind_eq_ok.mp h
      obtain ⟨hf2, hn2, hc2, hs2, hh2⟩ := pointerAcquireLock_ok_spec _ _ _ _
        fr st fr₂ st₂ w hnd h₂
      simp only [FM.run_pure, Prod.mk.injEq, Except.ok.injEq] at h
      obtain ⟨e1, e2, e3, e4⟩ := h
      subst e3
      refine ⟨?_, ?_, ?_, ?_, ?_⟩
      · rw [← e1, hf2]
      · rw [← e2]; exact hn2
      · intro k
        rw [← e2, hc2 k]
        simp [acqSum]
      · rw [← e2, hs2]
      · rw [← e2, hh2]
  case Bucket b =>
      simp only [lockParentSubstates] at h
      obtain ⟨ra, fr₁, st₁, h₁, h⟩ := FM.bind_eq_ok.mp h
      obtain ⟨hf1, hs1⟩ := bucketResourceOf_ok _ fr st fr₁ st₁ ra h₁
      rw [hf1, hs1] at h
      obtain ⟨w, fr₂, st₂, h₂, h⟩ := FM.bind_eq_ok.mp h
      obtain ⟨hf2, hn2, hc2, hs2, hh2⟩ := pointerAcquireLock_ok_spec _ _ _ _
        fr st fr₂ st₂ w hnd h₂
      simp only [FM.run_pure, Prod.mk.injEq, Except.ok.injEq] at h
      obtain ⟨e1, e2, e3, e4⟩ := h
      subst e3
      refine ⟨?_, ?_, ?_, ?_, ?_⟩
      · rw [← e1, hf2]
      · rw [← e2]; exact hn2
      · intro k
        rw [← e2, hc2 k]
        simp [acqSum]
      · rw [← e2, hs2]
      · rw [← e2, hh2]
  case Vault v =>
      simp only [lockParentSubstates] at h
      obtain ⟨ra, fr₁, st₁, h₁, h⟩ := FM.bind_eq_ok.mp h
      obtain ⟨hf1, hs1⟩ := vaultResourceOf_ok _ fr st fr₁ st₁ ra h₁
      rw [hf1, hs1] at h
      obtain ⟨w, fr₂, st₂, h₂, h⟩ := FM.bind_eq_ok.mp h
      obtain ⟨hf2, hn2, hc2, hs2, hh2⟩ := pointerAcquireLock_ok_spec _ _ _ _
        fr st fr₂ st₂ w hnd h₂
      simp only [FM.run_pure, Prod.mk.injEq, Except.ok.injEq] at h
      obtain ⟨e1, e2, e3, e4⟩ := h
      subst e3
      refine ⟨?_, ?_, ?_, ?_, ?_⟩
      · rw [← e1, hf2]
      · rw [← e2]; exact hn2
      · intro k
        rw [← e2, hc2 k]
        simp [acqSum]
      · rw [← e2, hs2]
      · rw [← e2, hh2]
  all_goals (
    simp only [lockParentSubstates, FM.run_pure, Prod.mk.injEq,
      Except.ok.injEq] at h
    obtain ⟨h1, h2, h3, h4⟩ := h
    subst h3
    exact ⟨h1.symm, by rw [← h2]; exact hnd,
      fun k => by rw [← h2]; simp [acqSum], by rw [h2], by rw [h2]⟩)

theorem receiverSetupAuthZone_ok_spec (input : ScryptoValue) (fr : Frame)
    (st : KState) (fr' : Frame) (st' : KState) (S : ReceiverSetup)
    (hnd : locksNodup st)
    (h : receiverSetupAuthZone input fr st = (fr', st', Except.ok S)) :
    fr' = fr ∧ locksNodup st' ∧
    (∀ k, heldCount st' k = heldCount st k + acqSum S.lockedPointers k) ∧
    st'.substates = st.substates := by
  unfold receiverSetupAuthZone at h
  obtain ⟨f0, fr₀, st₀, h₀, h⟩ := FM.bind_eq_ok.mp h
  simp only [FM.run_getFrame, Prod.mk.injEq, Except.ok.injEq] at h₀
  obtain ⟨ha, hb, hc⟩ := h₀
  subst ha
  subst hb
  subst hc
  cases hz : fr.authZone with
  | none => rw [hz] at h; simp [FM.run_throw] at h
  | some az =>
      rw [hz] at h
      simp only [] at h
      obtain ⟨rr, fr₁, st₁, h₁, h⟩ := FM.bind_eq_ok.mp h
      obtain ⟨lockedRMs, rmRefs⟩ := rr
      obtain ⟨hf1, hn1, hc1, hs1, hh1⟩ := lockResourceManagers_ok_spec _ _
        fr st fr₁ st₁ lockedRMs rmRefs hnd h₁
      simp only [FM.run_pure, Prod.mk.injEq, Except.ok.injEq] at h
      obtain ⟨e1, e2, e3⟩ := h
      subst e3
      refine ⟨?_, ?_, ?_, ?_⟩
      · rw [← e1, hf1]
      · rw [← e2]; exact hn1
      · intro k
        rw [← e2, hc1 k]
      · rw [← e2, hs1]

theorem receiverSetupRef_ok_spec (ext : Ext) (receiver : Receiver)
    (nodeId : RENodeId) (fn : FnIdentifier) (input : ScryptoValue)
    (fr : Frame) (st : KState) (fr' : Frame) (st' : KState) (S : ReceiverSetup)
    (hnd : locksNodup st)
    (h : receiverSetupRef ext receiver nodeId fn input fr st =
      (fr', st', Except.ok S)) :
    fr' = fr ∧ locksNodup st' ∧
    (∀ k, heldCount st' k = heldCount st k + acqSum S.lockedPointers k) ∧
    st'.substates = st.substates := by
  unfold receiverSetupRef at h
  obtain ⟨f0, fr₀, st₀, h₀, h⟩ := FM.bind_eq_ok.mp h
  simp only [FM.run_getFrame, Prod.mk.injEq, Except.ok.injEq] at h₀
  obtain ⟨ha, hb, hc⟩ := h₀
  subst ha
  subst hb
  subst hc
  obtain ⟨np, fr₁, st₁, h₁, h⟩ := FM.bind_eq_ok.mp h
  obtain ⟨hf1, hs1⟩ := findReceiverPointer_ok _ _ _ fr₁ st₁ np h₁
  rw [hf1, hs1] at h
  obtain ⟨sid, fr₂, st₂, h₂, h⟩ := FM.bind_eq_ok.mp h
  obtain ⟨hf2, hs2, -⟩ := liftE_ok_inv _ fr st fr₂ st₂ sid h₂
  rw [hf2, hs2] at h
  simp only [] at h
  rw [FM.run_ite] at h
  split at h
  · simp [FM.run_throw] at h
  · obtain ⟨w, fr₃, st₃, h₃, h⟩ := FM.bind_eq_ok.mp h
    obtain ⟨hf3, hn3, hc3, hs3, hh3⟩ := pointerAcquireLock_ok_spec _ _ _ _
      fr st fr₃ st₃ w hnd h₃
    rw [hf3] at h
    obtain ⟨temps, fr₄, st₄, h₄, h⟩ := FM.bind_eq_ok.mp h
    obtain ⟨hf4, hn4, hc4, hs4, hh4⟩ := loadActorLocks_ok_spec _ _ _
      fr st₃ fr₄ st₄ temps hn3 h₄
    rw [hf4] at h
    obtain ⟨pp, fr₅, st₅, h₅, h⟩ := FM.bind_eq_ok.mp h
    obtain ⟨lockedParents, parentRefs⟩ := pp
    obtain ⟨hf5, hn5, hc5, hs5, hh5⟩ := lockParentSubstates_ok_spec _ _
      fr st₄ fr₅ st₅ lockedParents parentRefs hn4 h₅
    rw [hf5] at h
    obtain ⟨rr, fr₆, st₆, h₆, h⟩ := FM.bind_eq_ok.mp h
    obtain ⟨lockedRMs, rmRefs⟩ := rr
    have h6spec : fr₆ = fr ∧ locksNodup st₆ ∧
        (∀ k, heldCount st₆ k = heldCount st₅ k + acqSum lockedRMs k) ∧
        st₆.substates = st₅.substates := by
      cases fn with
      | Native n =>
          simp only [] at h₆
          obtain ⟨hf6, hn6, hc6, hs6, hh6⟩ := lockResourceManagers_ok_spec _ _
            fr st₅ fr₆ st₆ lockedRMs rmRefs hn5 h₆
          exact ⟨hf6, hn6, hc6, hs6⟩
      | Scrypto pa bn i =>
          simp only [FM.run_pure, Prod.mk.injEq, Except.ok.injEq,
            Prod.mk.injEq] at h₆
          obtain ⟨g1, g2, g3, g4⟩ := h₆
          subst g3
          exact ⟨g1.symm, by rw [← g2]; exact hn5,
            fun k => by rw [← g2]; simp [acqSum], by rw [g2]⟩
    rw [h6spec.1] at h
    cases hra : ext.receiverAuth fn receiver input with
    | some e => rw [hra] at h; simp [FM.run_bind, FM.run_throw] at h
    | none =>
        rw [hra] at h
        simp only [] at h
        obtain ⟨w2, fr₇, st₇, h₇, h⟩ := FM.bind_eq_ok.mp h
        simp only [FM.run_pure, Prod.mk.injEq] at h₇
        obtain ⟨q1, q2, -⟩ := h₇
        subst q1
        subst q2
        obtain ⟨cn, fr₈, st₈, h₈, h⟩ := FM.bind_eq_ok.mp h
        obtain ⟨hf8, hl8, hs8, ht8⟩ := takeConsumedNode_ok_inv _ _
          fr st₆ fr₈ st₈ cn h₈
        rw [hf8] at h
        obtain ⟨w3, fr₉, st₉, h₉, h⟩ := FM.bind_eq_ok.mp h
        rw [releaseLocks_run] at h₉
        simp only [Prod.mk.injEq] at h₉
        obtain ⟨r1, r2, -⟩ := h₉
        simp only [FM.run_pure, Prod.mk.injEq, Except.ok.injEq] at h
        obtain ⟨e1, e2, e3⟩ := h
        subst e3
        have hn8 : locksNodup st₈ := by
          unfold locksNodup
          rw [hl8]
          exact h6spec.2.1
        have hc8 : ∀ k, heldCount st₈ k = heldCount st₆ k := by
          intro k
          unfold heldCount countOf
          rw [hl8]
        obtain ⟨hnR, hcR, hsR, -⟩ := relAllState_spec temps st₈ hn8
        refine ⟨?_, ?_, ?_, ?_⟩
        · rw [← e1, ← r1]
        · rw [← e2, ← r2]; exact hnR
        · intro k
          rw [← e2, ← r2, hcR k, hc8 k, h6spec.2.2.1 k, hc5 k, hc4 k, hc3 k]
          simp only [acqSum_append]
          simp only [acqSum]
          omega
        · rw [← e2, ← r2, hsR, hs8, h6spec.2.2.2, hs5, hs4, hs3]

theorem locksNodup_of_locks_eq (st st' : KState) (h : st'.locks = st.locks) :
    locksNodup st' ↔ locksNodup st := by
  unfold locksNodup
  rw [h]

theorem heldCount_of_locks_eq (st st' : KState) (h : st'.locks = st.locks)
    (k : SubstateId) : heldCount st' k = heldCount st k := by
  unfold heldCount countOf
  rw [h]

theorem acquirePackageLock_ok_spec (pa : Nat) (fr : Frame) (st : KState)
    (fr' : Frame) (st' : KState) (u : Unit) (hnd : locksNodup st)
    (h : acquirePackageLock pa fr st = (fr', st', Except.ok u)) :
    fr' = fr ∧ locksNodup st' ∧
    (∀ k, heldCount st' k =
      heldCount st k + (if k = SubstateId.Package pa then 1 else 0)) ∧
    st'.substates = st.substates ∧ st'.heaps = st.heaps := by
  unfold acquirePackageLock at h
  simp only [FM.run_bind, FM.run_getSt] at h
  cases htr : trackAcquireLock st (SubstateId.Package pa) false false with
  | ok st₂ =>
      rw [htr] at h
      simp only [FM.run_setSt, Prod.mk.injEq] at h
      obtain ⟨h1, h2, -⟩ := h
      subst h1
      subst h2
      obtain ⟨hn, hc, hs, hh, -, -⟩ :=
        trackAcquireLock_ok_spec st (SubstateId.Package pa) false false st₂
          hnd htr
      refine ⟨rfl, hn, ?_, hs, hh⟩
      intro k
      rw [hc k]
      by_cases hk : k = SubstateId.Package pa <;> simp [hk]
  | error e =>
      rw [htr] at h
      cases e <;> simp [FM.run_throw, FM.run_panic] at h

theorem scryptoFunctionChecks_ok_spec (ext : Ext) (fn : FnIdentifier)
    (pa : Nat) (bn ident : String) (input : ScryptoValue) (fr : Frame)
    (st : KState) (fr' : Frame) (st' : KState) (L : List SubstateId)
    (hnd : locksNodup st)
    (h : scryptoFunctionChecks ext fn pa bn ident input fr st =
      (fr', st', Except.ok L)) :
    fr' = fr ∧ locksNodup st' ∧
    (∀ k, heldCount st' k = heldCount st k + sidSum L k) ∧
    st'.substates = st.substates ∧ st'.heaps = st.heaps := by
  unfold scryptoFunctionChecks at h
  obtain ⟨w, fr₁, st₁, h₁, h⟩ := FM.bind_eq_ok.mp h
  obtain ⟨hf1, hn1, hc1, hs1, hh1⟩ := acquirePackageLock_ok_spec pa
    fr st fr₁ st₁ w hnd h₁
  rw [hf1] at h
  obtain ⟨s1, fr₂, st₂, h₂, h⟩ := FM.bind_eq_ok.mp h
  simp only [FM.run_getSt, Prod.mk.injEq, Except.ok.injEq] at h₂
  obtain ⟨a1, a2, a3⟩ := h₂
  subst a1
  subst a2
  subst a3
  cases hal : alookup st₁.substates (SubstateId.Package pa) with
  | none => rw [hal] at h; simp [FM.run_panic] at h
  | some sub =>
      rw [hal] at h
      cases sub
      case Package blueprints =>
        simp only [] at h
        cases hbl : alookup blueprints bn with
        | none => rw [hbl] at h; simp [FM.run_throw] at h
        | some fns =>
            rw [hbl] at h
            simp only [] at h
            rw [FM.run_ite] at h
            split at h
            · rw [FM.run_ite] at h
              split at h
              · simp only [FM.run_pure, Prod.mk.injEq, Except.ok.injEq] at h
                obtain ⟨e1, e2, e3⟩ := h
                subst e3
                refine ⟨?_, ?_, ?_, ?_, ?_⟩
                · rw [← e1]
                · rw [← e2]; exact hn1
                · intro k
                  rw [← e2, hc1 k]
                  simp [sidSum]
                · rw [← e2, hs1]
                · rw [← e2, hh1]
              · simp [FM.run_throw] at h
            · simp [FM.run_throw] at h
      all_goals simp [FM.run_panic] at h

theorem makeComponentsVisible_ok_spec (addrs : List Nat) (fr : Frame)
    (st : KState) (fr' : Frame) (st' : KState)
    (refs : List (RENodeId × RENodePointer)) (hnd : locksNodup st)
    (h : makeComponentsVisible addrs fr st = (fr', st', Except.ok refs)) :
    fr' = fr ∧ locksNodup st' ∧
    (∀ k, heldCount st' k = heldCount st k) ∧
    st'.substates = st.substates ∧ st'.heaps = st.heaps := by
  induction addrs generalizing fr st fr' st' refs with
  | nil =>
      simp only [makeComponentsVisible, FM.run_pure, Prod.mk.injEq,
        Except.ok.injEq] at h
      obtain ⟨h1, h2, -⟩ := h
      exact ⟨h1.symm, by rw [← h2]; exact hnd, fun k => by rw [← h2],
        by rw [h2], by rw [h2]⟩
  | cons a rest ih =>
      simp only [makeComponentsVisible] at h
      obtain ⟨w, fr₁, st₁, h₁, h⟩ := FM.bind_eq_ok.mp h
      obtain ⟨hf1, hn1, hc1, hs1, hh1⟩ := pointerAcquireLock_ok_spec _ _ _ _
        fr st fr₁ st₁ w hnd h₁
      obtain ⟨w2, fr₂, st₂, h₂, h⟩ := FM.bind_eq_ok.mp h
      rw [pointerReleaseLock_run] at h₂
      simp only [Prod.mk.injEq] at h₂
      obtain ⟨b1, b2, -⟩ := h₂
      obtain ⟨hnR, hcR, hsR, hhR⟩ := ptrRelState_spec
        (RENodePointer.Store (RENodeId.Component a))
        (SubstateId.ComponentInfo a) false st₁ hn1
      obtain ⟨more, fr₃, st₃, h₃, h⟩ := FM.bind_eq_ok.mp h
      rw [← b1, ← b2] at h₃
      obtain ⟨hf3, hn3, hc3, hs3, hh3⟩ := ih fr₁ _ fr₃ st₃ more hnR h₃
      simp only [FM.run_pure, Prod.mk.injEq, Except.ok.injEq] at h
      obtain ⟨e1, e2, e3⟩ := h
      subst e3
      refine ⟨?_, ?_, ?_, ?_, ?_⟩
      · rw [← e1, hf3, hf1]
      · rw [← e2]; exact hn3
      · intro k
        rw [← e2, hc3 k, hcR k, hc1 k]
        omega
      · rw [← e2, hs3, hsR, hs1]
      · rw [← e2, hh3, hhR, hh1]

theorem feeConsume_ok_locks (c : Nat) (rs : String) (fr : Frame)
    (st : KState) (fr' : Frame) (st' : KState) (u : Unit)
    (h : feeConsume c rs fr st = (fr', st', Except.ok u)) :
    fr' = fr ∧ st'.locks = st.locks ∧ st'.heaps = st.heaps ∧
      st'.substates = st.substates := by
  obtain ⟨hf, hs⟩ := feeConsume_ok_inv c rs fr st fr' st' u h
  subst hs
  exact ⟨hf, chargedState_locks _ _ _, chargedState_heaps _ _ _,
    chargedState_substates _ _ _⟩

theorem substateReadCore_ok_spec (ext : Ext) (sid : SubstateId) (fr : Frame)
    (st : KState) (fr' : Frame) (st' : KState) (v : ScryptoValue)
    (hnd : locksNodup st)
    (h : substateReadCore ext sid fr st = (fr', st', Except.ok v)) :
    fr'.depth = fr.depth ∧ locksNodup st' ∧
    (∀ k, heldCount st' k = heldCount st k) := by
  unfold substateReadCore at h
  obtain ⟨w, fr₁, st₁, h₁, h⟩ := FM.bind_eq_ok.mp h
  obtain ⟨hf1, hl1, hh1, hs1⟩ := feeConsume_ok_locks _ _ fr st fr₁ st₁ w h₁
  rw [hf1] at h
  obtain ⟨f2, fr₂, st₂, h₂, h⟩ := FM.bind_eq_ok.mp h
  simp only [FM.run_getFrame, Prod.mk.injEq, Except.ok.injEq] at h₂
  obtain ⟨b1, b2, b3⟩ := h₂
  subst b1
  subst b2
  subst b3
  rw [FM.run_ite] at h
  split at h
  · simp [FM.run_throw] at h
  · obtain ⟨pv, fr₃, st₃, h₃, h⟩ := FM.bind_eq_ok.mp h
    have hnd1 : locksNodup st₁ := (locksNodup_of_locks_eq st st₁ hl1).mpr hnd
    obtain ⟨hf3, hn3, hc3, hs3, hh3⟩ := readValueInternal_ok_spec ext sid
      fr st₁ fr₃ st₃ pv hnd1 h₃
    rw [hf3] at h
    obtain ⟨pp, cv⟩ := pv
    simp only [] at h
    obtain ⟨f3, fr₄, st₄, h₄, h⟩ := FM.bind_eq_ok.mp h
    simp only [FM.run_getFrame, Prod.mk.injEq, Except.ok.injEq] at h₄
    obtain ⟨c1, c2, c3⟩ := h₄
    subst c1
    subst c2
    subst c3
    obtain ⟨w2, fr₅, st₅, h₅, h⟩ := FM.bind_eq_ok.mp h
    simp only [FM.run_setFrame, Prod.mk.injEq] at h₅
    obtain ⟨d1, d2, -⟩ := h₅
    simp only [FM.run_pure, Prod.mk.injEq, Except.ok.injEq] at h
    obtain ⟨e1, e2, -⟩ := h
    refine ⟨?_, ?_, ?_⟩
    · rw [← e1, ← d1]
    · rw [← e2, ← d2]; exact hn3
    · intro k
      rw [← e2, ← d2, hc3 k]
      exact heldCount_of_locks_eq st st₁ hl1 k

theorem substateWriteCore_ok_spec (ext : Ext) (sid : SubstateId)
    (value : ScryptoValue) (fr : Frame) (st : KState) (fr' : Frame)
    (st' : KState) (u : Unit) (hnd : locksNodup st)
    (h : substateWriteCore ext sid value fr st = (fr', st', Except.ok u)) :
    fr'.depth = fr.depth ∧ locksNodup st' ∧
    (∀ k, heldCount st' k = heldCount st k) := by
  unfold substateWriteCore at h
  obtain ⟨w, fr₁, st₁, h₁, h⟩ := FM.bind_eq_ok.mp h
  obtain ⟨hf1, hl1, hh1, hs1⟩ := feeConsume_ok_locks _ _ fr st fr₁ st₁ w h₁
  rw [hf1] at h
  obtain ⟨f2, fr₂, st₂, h₂, h⟩ := FM.bind_eq_ok.mp h
  simp only [FM.run_getFrame, Prod.mk.injEq, Except.ok.injEq] at h₂
  obtain ⟨b1, b2, b3⟩ := h₂
  subst b1
  subst b2
  subst b3
  rw [FM.run_ite] at h
  split at h
  · simp [FM.run_throw] at h
  · rw [FM.run_ite] at h
    split at h
    · rw [FM.run_ite] at h
      split at h
      · simp [FM.run_bind, FM.run_throw] at h
      · obtain ⟨tm, fr₃, st₃, h₃, h⟩ := FM.bind_eq_ok.mp h
        obtain ⟨takenNodes, missingNodes⟩ := tm
        obtain ⟨hp', htl, hs3, hf3⟩ :=
          takeAvailableValues_ok_inv _ _ _ _ _ _ _ _ h₃
        have hstep : fr₃.depth = fr.depth ∧ st₃.locks = st₁.locks :=
          ⟨by rw [hf3], by rw [hs3]; exact setHeap_locks _ _ _⟩
        simp only [] at h
        obtain ⟨pv, fr₄, st₄, h₄, h⟩ := FM.bind_eq_ok.mp h
        have hnd3 : locksNodup st₃ := by
          rw [locksNodup_of_locks_eq st₁ st₃ hstep.2,
            locksNodup_of_locks_eq st st₁ hl1]
          exact hnd
        obtain ⟨hf4, hn4, hc4, hs4, hh4⟩ := readValueInternal_ok_spec ext sid
          fr₃ st₃ fr₄ st₄ pv hnd3 h₄
        rw [hf4] at h
        obtain ⟨pp, cv⟩ := pv
        simp only [] at h
        obtain ⟨w2, fr₅, st₅, h₅, h⟩ := FM.bind_eq_ok.mp h
        obtain ⟨q1, q2, -⟩ := liftE_ok_inv _ fr₃ st₄ fr₅ st₅ w2 h₅
        rw [q1, q2] at h
        obtain ⟨hfW, hlW, htW⟩ := writeValueAt_ok_inv _ _ _ _ fr₃ st₄
          fr' st' u h
        refine ⟨?_, ?_, ?_⟩
        · rw [hfW, hstep.1]
        · rw [locksNodup_of_locks_eq st₄ st' hlW]
          exact hn4
        · intro k
          rw [heldCount_of_locks_eq st₄ st' hlW k, hc4 k,
            heldCount_of_locks_eq st₁ st₃ hstep.2 k,
            heldCount_of_locks_eq st st₁ hl1 k]
    · obtain ⟨tm, fr₃, st₃, h₃, h⟩ := FM.bind_eq_ok.mp h
      obtain ⟨takenNodes, missingNodes⟩ := tm
      simp only [FM.run_pure, Prod.mk.injEq] at h₃
      obtain ⟨g1, g2, -⟩ := h₃
      have hstep : fr₃.depth = fr.depth ∧ st₃.locks = st₁.locks :=
        ⟨by rw [← g1], by rw [← g2]⟩
      simp only [] at h
      obtain ⟨pv, fr₄, st₄, h₄, h⟩ := FM.bind_eq_ok.mp h
      have hnd3 : locksNodup st₃ := by
        rw [locksNodup_of_locks_eq st₁ st₃ hstep.2,
          locksNodup_of_locks_eq st st₁ hl1]
        exact hnd
      obtain ⟨hf4, hn4, hc4, hs4, hh4⟩ := readValueInternal_ok_spec ext sid
        fr₃ st₃ fr₄ st₄ pv hnd3 h₄
      rw [hf4] at h
      obtain ⟨pp, cv⟩ := pv
      simp only [] at h
      obtain ⟨w2, fr₅, st₅, h₅, h⟩ := FM.bind_eq_ok.mp h
      obtain ⟨q1, q2, -⟩ := liftE_ok_inv _ fr₃ st₄ fr₅ st₅ w2 h₅
      rw [q1, q2] at h
      obtain ⟨hfW, hlW, htW⟩ := writeValueAt_ok_inv _ _ _ _ fr₃ st₄
        fr' st' u h
      refine ⟨?_, ?_, ?_⟩
      · rw [hfW, hstep.1]
      · rw [locksNodup_of_locks_eq st₄ st' hlW]
        exact hn4
      · intro k
        rw [heldCount_of_locks_eq st₄ st' hlW k, hc4 k,
          heldCount_of_locks_eq st₁ st₃ hstep.2 k,
          heldCount_of_locks_eq st st₁ hl1 k]

theorem nodeCreateCore_ok_spec (ext : Ext) (reNode : HeapRENode) (fr : Frame)
    (st : KState) (fr' : Frame) (st' : KState) (nodeId : RENodeId)
    (hnd : locksNodup st)
    (h : nodeCreateCore ext reNode fr st = (fr', st', Except.ok nodeId)) :
    fr'.depth = fr.depth ∧ locksNodup st' ∧
    (∀ k, heldCount st' k = heldCount st k) := by
  unfold nodeCreateCore at h
  obtain ⟨w, fr₁, st₁, h₁, h⟩ := FM.bind_eq_ok.mp h
  obtain ⟨hf1, hl1, hh1, hs1⟩ := feeConsume_ok_locks _ _ fr st fr₁ st₁ w h₁
  rw [hf1] at h
  simp only [] at h
  obtain ⟨tm, fr₂, st₂, h₂, h⟩ := FM.bind_eq_ok.mp h
  obtain ⟨takenRootNodes, missing⟩ := tm
  obtain ⟨hp', htl, hs2, hf2⟩ := takeAvailableValues_ok_inv _ _ _ _ _ _ _ _ h₂
  simp only [] at h
  obtain ⟨w2, fr₃, st₃, h₃, h⟩ := FM.bind_eq_ok.mp h
  have hstep3 : fr₃ = fr₂ ∧ st₃ = st₂ := by
    cases hm : missing.head? with
    | some m => rw [hm] at h₃; simp [FM.run_throw] at h₃
    | none =>
        rw [hm] at h₃
        simp only [FM.run_pure, Prod.mk.injEq] at h₃
        exact ⟨h₃.1.symm, h₃.2.1.symm⟩
  rw [hstep3.1, hstep3.2] at h
  obtain ⟨nid, fr₄, st₄, h₄, h⟩ := FM.bind_eq_ok.mp h
  obtain ⟨hf4, hl4, hs4, hh4, ht4⟩ := newNodeId_ok_inv _ fr₂ st₂ fr₄ st₄ nid h₄
  rw [hf4] at h
  obtain ⟨f5, fr₅, st₅, h₅, h⟩ := FM.bind_eq_ok.mp h
  simp only [FM.run_getFrame, Prod.mk.injEq, Except.ok.injEq] at h₅
  obtain ⟨c1, c2, c3⟩ := h₅
  subst c1
  subst c2
  subst c3
  obtain ⟨s6, fr₆, st₆, h₆, h⟩ := FM.bind_eq_ok.mp h
  simp only [FM.run_getSt, Prod.mk.injEq, Except.ok.injEq] at h₆
  obtain ⟨d1, d2, d3⟩ := h₆
  subst d1
  subst d2
  subst d3
  obtain ⟨w3, fr₇, st₇, h₇, h⟩ := FM.bind_eq_ok.mp h
  simp only [FM.run_setSt, Prod.mk.injEq] at h₇
  obtain ⟨g1, g2, -⟩ := h₇
  obtain ⟨w4, fr₈, st₈, h₈, h⟩ := FM.bind_eq_ok.mp h
  rw [← g1, ← g2] at h₈
  have hstep8 : fr₈.depth = fr₂.depth ∧
      st₈ = st₄.setHeap fr₂.depth
        (upsert (st₄.heapAt fr₂.depth) nid
          ⟨reNode, flattenNodes takenRootNodes⟩) := by
    cases nid <;>
      simp only [FM.run_setFrame, FM.run_pure, Prod.mk.injEq] at h₈ <;>
      obtain ⟨k1, k2, -⟩ := h₈ <;>
      exact ⟨by rw [← k1], k2.symm⟩
  simp only [FM.run_pure, Prod.mk.injEq, Except.ok.injEq] at h
  obtain ⟨e1, e2, -⟩ := h
  have hlocks : st'.locks = st.locks := by
    rw [← e2, hstep8.2, setHeap_locks, hl4, hs2, setHeap_locks, hl1]
  refine ⟨?_, ?_, ?_⟩
  · rw [← e1, hstep8.1, hf2]
  · exact (locksNodup_of_locks_eq st st' hlocks).mpr hnd
  · intro k
    exact heldCount_of_locks_eq st st' hlocks k

theorem nodeGlobalizeCore_ok_spec (ext : Ext) (nodeId : RENodeId) (fr : Frame)
    (st : KState) (fr' : Frame) (st' : KState) (u : Unit)
    (hnd : locksNodup st)
    (h : nodeGlobalizeCore ext nodeId fr st = (fr', st', Except.ok u)) :
    fr'.depth = fr.depth ∧ locksNodup st' ∧
    (∀ k, heldCount st' k = heldCount st k) := by
  unfold nodeGlobalizeCore at h
  obtain ⟨w, fr₁, st₁, h₁, h⟩ := FM.bind_eq_ok.mp h
  obtain ⟨hf1, hl1, hh1, hs1⟩ := feeConsume_ok_locks _ _ fr st fr₁ st₁ w h₁
  rw [hf1] at h
  rw [FM.run_ite] at h
  split at h
  · simp [FM.run_throw] at h
  · obtain ⟨tm, fr₂, st₂, h₂, h⟩ := FM.bind_eq_ok.mp h
    obtain ⟨takenNodes, missingNodes⟩ := tm
    obtain ⟨hp', htl, hs2, hf2⟩ := takeAvailableValues_ok_inv _ _ _ _ _ _ _ _ h₂
    simp only [] at h
    rw [FM.run_ite] at h
    split at h
    · simp [FM.run_panic] at h
    · cases takenNodes with
      | nil => simp [FM.run_panic] at h
      | cons hd tl =>
          cases tl with
          | cons hd2 tl2 => simp [FM.run_panic] at h
          | nil =>
              obtain ⟨x, rootNode⟩ := hd
              obtain ⟨rt, children⟩ := rootNode
              simp only [] at h
              obtain ⟨w2, fr₃, st₃, h₃, h⟩ := FM.bind_eq_ok.mp h
              have hstep3 : fr₃ = fr₂ ∧ st₃.locks = st₂.locks := by
                cases nodeId <;> cases rt <;> simp only [] at h₃
                case Component.Component a pa bn state =>
                    obtain ⟨q1, q2, -⟩ := modifyThenInsert_ok_inv _ _
                      fr₂ st₂ fr₃ st₃ w2 h₃
                    exact ⟨q1, q2⟩
                case Package.Package a blueprints =>
                    obtain ⟨q1, q2, -⟩ := modifyThenInsert_ok_inv _ _
                      fr₂ st₂ fr₃ st₃ w2 h₃
                    exact ⟨q1, q2⟩
                case ResourceManager.Resource a mnf =>
                    obtain ⟨w3, fq, sq, hq, h₃⟩ := FM.bind_eq_ok.mp h₃
                    rw [modifySubstates_run] at hq
                    simp only [Prod.mk.injEq] at hq
                    obtain ⟨q1, q2, -⟩ := hq
                    obtain ⟨w4, fq2, sq2, hq2, h₃⟩ := FM.bind_eq_ok.mp h₃
                    obtain ⟨r1, r2, r3, -⟩ := insertNonRootNodes_ok_inv _
                      fq sq fq2 sq2 w4 hq2
                    have hstep : fr₃ = fq2 ∧ st₃.locks = sq2.locks := by
                      cases mnf with
                      | some ids =>
                          simp only [] at h₃
                          rw [modifySubstates_run] at h₃
                          simp only [Prod.mk.injEq] at h₃
                          obtain ⟨s1, s2, -⟩ := h₃
                          exact ⟨s1.symm, by rw [← s2]⟩
                      | none =>
                          simp only [FM.run_pure, Prod.mk.injEq] at h₃
                          obtain ⟨s1, s2, -⟩ := h₃
                          exact ⟨s1.symm, by rw [← s2]⟩
                    refine ⟨hstep.1.trans (r1.trans q1.symm), ?_⟩
                    rw [hstep.2, r2, ← q2]
                all_goals simp [FM.run_panic] at h₃
              obtain ⟨hsf3, hsl3⟩ := hstep3
              rw [hsf3] at h
              obtain ⟨f4, fr₄, st₄, h₄, h⟩ := FM.bind_eq_ok.mp h
              simp only [FM.run_getFrame, Prod.mk.injEq, Except.ok.injEq] at h₄
              obtain ⟨c1, c2, c3⟩ := h₄
              subst c1
              subst c2
              subst c3
              simp only [FM.run_setFrame, Prod.mk.injEq] at h
              obtain ⟨e1, e2, -⟩ := h
              have hlocks : st'.locks = st.locks := by
                rw [← e2, hsl3, hs2, setHeap_locks, hl1]
              refine ⟨?_, ?_, ?_⟩
              · rw [← e1]
                show fr₂.depth = fr.depth
                rw [hf2]
              · exact (locksNodup_of_locks_eq st st' hlocks).mpr hnd
              · intro k
                exact heldCount_of_locks_eq st st' hlocks k

theorem runChild_run (runFn : RunFn) (cf : Frame) (ow : Heap)
    (mz : Option AuthZone) (inp : ScryptoValue) (fr : Frame) (st : KState) :
    runChild runFn cf ow mz inp fr st =
      (fr, st, Except.ok (runFn cf ow mz inp st)) := rfl

theorem invokeMethodCore_ok_locks (ext : Ext) (runFn : RunFn)
    (hrun : ∀ frame owned zone input st₀ st₁ zone₁ out taken,
      locksNodup st₀ →
      runFn frame owned zone input st₀ = (st₁, zone₁, Except.ok (out, taken)) →
      locksNodup st₁ ∧ ∀ k, heldCount st₁ k = heldCount st₀ k)
    (receiver : Receiver) (fnId : FnIdentifier) (input : ScryptoValue)
    (fr : Frame) (st : KState) (fr' : Frame) (st' : KState) (out : ScryptoValue)
    (hnd : locksNodup st)
    (h : invokeMethodCore ext runFn receiver fnId input fr st =
      (fr', st', Except.ok out)) :
    fr'.depth = fr.depth ∧ locksNodup st' ∧
    (∀ k, heldCount st' k = heldCount st k) := by
  unfold invokeMethodCore at h
  obtain ⟨f0, fr₀, st₀, h₀, h⟩ := FM.bind_eq_ok.mp h
  simp only [FM.run_getFrame, Prod.mk.injEq, Except.ok.injEq] at h₀
  obtain ⟨a1, a2, a3⟩ := h₀
  subst a1
  subst a2
  subst a3
  rw [FM.run_ite] at h
  split at h
  · simp [FM.run_throw] at h
  · obtain ⟨w1, fr₁, st₁, h₁, h⟩ := FM.bind_eq_ok.mp h
    obtain ⟨hfa, hla, hha, hsa⟩ := feeConsume_ok_locks _ _ fr st fr₁ st₁ w1 h₁
    rw [hfa] at h
    obtain ⟨w2, fr₂, st₂, h₂, h⟩ := FM.bind_eq_ok.mp h
    obtain ⟨hfb, hlb, hhb, hsb⟩ := feeConsume_ok_locks _ _ fr st₁ fr₂ st₂ w2 h₂
    rw [hfb] at h
    obtain ⟨w3, fr₃, st₃, h₃, h⟩ := FM.bind_eq_ok.mp h
    obtain ⟨hfc, hsc, -⟩ := liftE_ok_inv _ fr st₂ fr₃ st₃ w3 h₃
    rw [hfc, hsc] at h
    obtain ⟨tm, fr₄, st₄, h₄, h⟩ := FM.bind_eq_ok.mp h
    obtain ⟨takenValues, missing⟩ := tm
    obtain ⟨hp', htl, hs4, hf4⟩ := takeAvailableValues_ok_inv _ _ _ _ _ _ _ _ h₄
    simp only [] at h
    obtain ⟨w4, fr₅, st₅, h₅, h⟩ := FM.bind_eq_ok.mp h
    have hstep5 : fr₅ = fr₄ ∧ st₅ = st₄ := by
      cases hm : missing.head? with
      | some m => rw [hm] at h₅; simp [FM.run_throw] at h₅
      | none =>
          rw [hm] at h₅
          simp only [FM.run_pure, Prod.mk.injEq] at h₅
          exact ⟨h₅.1.symm, h₅.2.1.symm⟩
    rw [hstep5.1, hstep5.2] at h
    have hl4 : st₄.locks = st.locks := by
      rw [hs4, setHeap_locks, hlb, hla]
    have hnd4 : locksNodup st₄ :=
      (locksNodup_of_locks_eq st st₄ hl4).mpr hnd
    obtain ⟨S, fr₆, st₆, h₆, h⟩ := FM.bind_eq_ok.mp h
    have hsetup : fr₆ = fr₄ ∧ locksNodup st₆ ∧
        (∀ k, heldCount st₆ k = heldCount st₄ k + acqSum S.lockedPointers k) := by
      cases receiver with
      | Ref nid =>
          simp only [] at h₆
          obtain ⟨x1, x2, x3, -⟩ := receiverSetupRef_ok_spec ext _ nid fnId
            input fr₄ st₄ fr₆ st₆ S hnd4 h₆
          exact ⟨x1, x2, x3⟩
      | Consumed nid =>
          simp only [] at h₆
          obtain ⟨x1, x2, x3, -⟩ := receiverSetupRef_ok_spec ext _ nid fnId
            input fr₄ st₄ fr₆ st₆ S hnd4 h₆
          exact ⟨x1, x2, x3⟩
      | AuthZoneRef =>
          simp only [] at h₆
          obtain ⟨x1, x2, x3, -⟩ := receiverSetupAuthZone_ok_spec input
            fr₄ st₄ fr₆ st₆ S hnd4 h₆
          exact ⟨x1, x2, x3⟩
    rw [hsetup.1] at h
    obtain ⟨f2, fr₇, st₇, h₇, h⟩ := FM.bind_eq_ok.mp h
    simp only [FM.run_getFrame, Prod.mk.injEq, Except.ok.injEq] at h₇
    obtain ⟨b1, b2, b3⟩ := h₇
    subst b1
    subst b2
    subst b3
    obtain ⟨argRefs, fr₈, st₈, h₈, h⟩ := FM.bind_eq_ok.mp h
    obtain ⟨c1, c2, -⟩ := liftE_ok_inv _ fr₄ st₆ fr₈ st₈ argRefs h₈
    rw [c1, c2] at h
    obtain ⟨trip, fr₁₀, st₁₀, h₁₀, h⟩ := FM.bind_eq_ok.mp h
    obtain ⟨st3, zoneAfter, runResult⟩ := trip
    rw [runChild_run] at h₁₀
    simp only [Prod.mk.injEq, Except.ok.injEq] at h₁₀
    obtain ⟨e1, e2, e3⟩ := h₁₀
    rw [← e1, ← e2] at h
    simp only [] at h
    obtain ⟨w5, fr₁₁, st₁₁, h₁₁, h⟩ := FM.bind_eq_ok.mp h
    simp only [FM.run_setSt, Prod.mk.injEq] at h₁₁
    obtain ⟨f1, f2e, -⟩ := h₁₁
    rw [← f1, ← f2e] at h
    obtain ⟨w6, fr₁₂, st₁₂, h₁₂, h⟩ := FM.bind_eq_ok.mp h
    have hzone : fr₁₂.depth = fr₄.depth ∧
        st₁₂ = st3.setHeap (fr₄.depth + 1) [] := by
      cases receiver <;>
        simp only [FM.run_setFrame, FM.run_pure, Prod.mk.injEq] at h₁₂ <;>
        obtain ⟨z1, z2, -⟩ := h₁₂ <;>
        exact ⟨by rw [← z1], z2.symm⟩
    rw [hzone.2] at h
    cases runResult with
    | error e => simp [FM.run_bind, FM.run_throwK] at h
    | ok rv =>
        obtain ⟨result, received⟩ := rv
        simp only [] at h
        obtain ⟨hnod3, hcnt3⟩ := hrun _ _ _ _ st₆ st3 zoneAfter result
          received hsetup.2.1 e3
        obtain ⟨w7, fr₁₃, st₁₃, h₁₃, h⟩ := FM.bind_eq_ok.mp h
        rw [releaseLocks_run] at h₁₃
        simp only [Prod.mk.injEq] at h₁₃
        obtain ⟨r1, r2, -⟩ := h₁₃
        rw [← r1, ← r2] at h
        obtain ⟨f3, fr₁₄, st₁₄, h₁₄, h⟩ := FM.bind_eq_ok.mp h
        simp only [FM.run_getFrame, Prod.mk.injEq, Except.ok.injEq] at h₁₄
        obtain ⟨g1, g2, g3⟩ := h₁₄
        subst g1
        subst g2
        subst g3
        obtain ⟨s5, fr₁₅, st₁₅, h₁₅, h⟩ := FM.bind_eq_ok.mp h
        simp only [FM.run_getSt, Prod.mk.injEq, Except.ok.injEq] at h₁₅
        obtain ⟨p1, p2, p3⟩ := h₁₅
        subst p1
        subst p2
        subst p3
        obtain ⟨w8, fr₁₆, st₁₆, h₁₆, h⟩ := FM.bind_eq_ok.mp h
        simp only [FM.run_setSt, Prod.mk.injEq] at h₁₆
        obtain ⟨m1, m2, -⟩ := h₁₆
        rw [← m1, ← m2] at h
        obtain ⟨w9, fr₁₇, st₁₇, h₁₇, h⟩ := FM.bind_eq_ok.mp h
        simp only [FM.run_setFrame, Prod.mk.injEq] at h₁₇
        obtain ⟨n1, n2, -⟩ := h₁₇
        simp only [FM.run_pure, Prod.mk.injEq, Except.ok.injEq] at h
        obtain ⟨o1, o2, -⟩ := h
        have hnodRel : locksNodup (st3.setHeap (fr₄.depth + 1) []) :=
          (locksNodup_setHeap st3 _ _).mpr hnod3
        obtain ⟨hnR, hcR, hsR, hhR⟩ :=
          relAllState_spec S.lockedPointers _ hnodRel
        refine ⟨?_, ?_, ?_⟩
        · rw [← o1, ← n1]
          show fr₁₂.depth = fr.depth
          rw [hzone.1, hf4]
        · rw [← o2, ← n2,
            locksNodup_setHeap]
          exact hnR
        · intro k
          rw [← o2, ← n2, heldCount_setHeap, hcR k, heldCount_setHeap,
            hcnt3 k, hsetup.2.2 k,
            heldCount_of_locks_eq st st₄ hl4 k]
          omega

theorem invokeFunctionCore_ok_locks (ext : Ext) (runFn : RunFn)
    (hrun : ∀ frame owned zone input st₀ st₁ zone₁ out taken,
      locksNodup st₀ →
      runFn frame owned zone input st₀ = (st₁, zone₁, Except.ok (out, taken)) →
      locksNodup st₁ ∧ ∀ k, heldCount st₁ k = heldCount st₀ k)
    (fnId : FnIdentifier) (input : ScryptoValue)
    (fr : Frame) (st : KState) (fr' : Frame) (st' : KState) (out : ScryptoValue)
    (hnd : locksNodup st)
    (h : invokeFunctionCore ext runFn fnId input fr st =
      (fr', st', Except.ok out)) :
    fr'.depth = fr.depth ∧ locksNodup st' ∧
    (∀ k, heldCount st' k = heldCount st k) := by
  unfold invokeFunctionCore at h
  obtain ⟨f0, fr₀, st₀, h₀, h⟩ := FM.bind_eq_ok.mp h
  simp only [FM.run_getFrame, Prod.mk.injEq, Except.ok.injEq] at h₀
  obtain ⟨a1, a2, a3⟩ := h₀
  subst a1
  subst a2
  subst a3
  rw [FM.run_ite] at h
  split at h
  · simp [FM.run_throw] at h
  · obtain ⟨w1, fr₁, st₁, h₁, h⟩ := FM.bind_eq_ok.mp h
    obtain ⟨hfa, hla, hha, hsa⟩ := feeConsume_ok_locks _ _ fr st fr₁ st₁ w1 h₁
    rw [hfa] at h
    obtain ⟨w2, fr₂, st₂, h₂, h⟩ := FM.bind_eq_ok.mp h
    obtain ⟨hfb, hlb, hhb, hsb⟩ := feeConsume_ok_locks _ _ fr st₁ fr₂ st₂ w2 h₂
    rw [hfb] at h
    obtain ⟨w3, fr₃, st₃, h₃, h⟩ := FM.bind_eq_ok.mp h
    obtain ⟨hfc, hsc, -⟩ := liftE_ok_inv _ fr st₂ fr₃ st₃ w3 h₃
    rw [hfc, hsc] at h
    obtain ⟨tm, fr₄, st₄, h₄, h⟩ := FM.bind_eq_ok.mp h
    obtain ⟨takenValues, missing⟩ := tm
    obtain ⟨hp', htl, hs4, hf4⟩ := takeAvailableValues_ok_inv _ _ _ _ _ _ _ _ h₄
    simp only [] at h
    obtain ⟨w4, fr₅, st₅, h₅, h⟩ := FM.bind_eq_ok.mp h
    have hstep5 : fr₅ = fr₄ ∧ st₅ = st₄ := by
      cases hm : missing.head? with
      | some m => rw [hm] at h₅; simp [FM.run_throw] at h₅
      | none =>
          rw [hm] at h₅
          simp only [FM.run_pure, Prod.mk.injEq] at h₅
          exact ⟨h₅.1.symm, h₅.2.1.symm⟩
    rw [hstep5.1, hstep5.2] at h
    have hl4 : st₄.locks = st.locks := by
      rw [hs4, setHeap_locks, hlb, hla]
    have hnd4 : locksNodup st₄ :=
      (locksNodup_of_locks_eq st st₄ hl4).mpr hnd
    obtain ⟨L, fr₆, st₆, h₆, h⟩ := FM.bind_eq_ok.mp h
    have hlock : fr₆ = fr₄ ∧ locksNodup st₆ ∧
        (∀ k, heldCount st₆ k = heldCount st₄ k + sidSum L k) := by
      cases fnId with
      | Scrypto pa bn i =>
          simp only [] at h₆
          obtain ⟨x1, x2, x3, -⟩ := scryptoFunctionChecks_ok_spec ext _ pa bn
            i input fr₄ st₄ fr₆ st₆ L hnd4 h₆
          exact ⟨x1, x2, x3⟩
      | Native n =>
          simp only [FM.run_pure, Prod.mk.injEq, Except.ok.injEq] at h₆
          obtain ⟨x1, x2, x3⟩ := h₆
          subst x3
          exact ⟨x1.symm, by rw [← x2]; exact hnd4,
            fun k => by rw [← x2]; simp [sidSum]⟩
    rw [hlock.1] at h
    obtain ⟨f1, fr₇, st₇, h₇, h⟩ := FM.bind_eq_ok.mp h
    simp only [FM.run_getFrame, Prod.mk.injEq, Except.ok.injEq] at h₇
    obtain ⟨b1, b2, b3⟩ := h₇
    subst b1
    subst b2
    subst b3
    obtain ⟨nfr, fr₈, st₈, h₈, h⟩ := FM.bind_eq_ok.mp h
    have hrefs : fr₈ = fr₄ ∧ locksNodup st₈ ∧
        (∀ k, heldCount st₈ k = heldCount st₆ k) := by
      rw [FM.run_ite] at h₈
      split at h₈
      · obtain ⟨refs2, fq, sq, hq, h₈⟩ := FM.bind_eq_ok.mp h₈
        obtain ⟨y1, y2, y3, -, -⟩ := makeComponentsVisible_ok_spec _
          fr₄ st₆ fq sq refs2 hlock.2.1 hq
        simp only [FM.run_pure, Prod.mk.injEq] at h₈
        obtain ⟨y4, y5, -⟩ := h₈
        refine ⟨y4.symm.trans y1, ?_, ?_⟩
        · rw [← y5]; exact y2
        · intro k
          rw [← y5, y3 k]
      · obtain ⟨argRefs, fq, sq, hq, h₈⟩ := FM.bind_eq_ok.mp h₈
        obtain ⟨y1, y2, -⟩ := liftE_ok_inv _ fr₄ st₆ fq sq argRefs hq
        simp only [FM.run_pure, Prod.mk.injEq] at h₈
        obtain ⟨y4, y5, -⟩ := h₈
        refine ⟨y4.symm.trans y1, ?_, ?_⟩
        · rw [← y5, y2]; exact hlock.2.1
        · intro k
          rw [← y5, y2]
    rw [hrefs.1] at h
    obtain ⟨f2, fr₉, st₉, h₉, h⟩ := FM.bind_eq_ok.mp h
    simp only [FM.run_getFrame, Prod.mk.injEq, Except.ok.injEq] at h₉
    obtain ⟨d1, d2, d3⟩ := h₉
    subst d1
    subst d2
    subst d3
    obtain ⟨trip, fr₁₀, st₁₀, h₁₀, h⟩ := FM.bind_eq_ok.mp h
    obtain ⟨st3, zoneAfter, runResult⟩ := trip
    rw [runChild_run] at h₁₀
    simp only [Prod.mk.injEq, Except.ok.injEq] at h₁₀
    obtain ⟨e1, e2, e3⟩ := h₁₀
    rw [← e1, ← e2] at h
    simp only [] at h
    obtain ⟨w5, fr₁₁, st₁₁, h₁₁, h⟩ := FM.bind_eq_ok.mp h
    simp only [FM.run_setSt, Prod.mk.injEq] at h₁₁
    obtain ⟨f1e, f2e, -⟩ := h₁₁
    rw [← f1e, ← f2e] at h
    cases runResult with
    | error e => simp [FM.run_bind, FM.run_throwK] at h
    | ok rv =>
        obtain ⟨result, received⟩ := rv
        simp only [] at h
        obtain ⟨hnod3, hcnt3⟩ := hrun _ _ _ _ st₈ st3 zoneAfter result
          received hrefs.2.1 e3
        obtain ⟨w7, fr₁₃, st₁₃, h₁₃, h⟩ := FM.bind_eq_ok.mp h
        rw [releaseTrackLocks_run] at h₁₃
        simp only [Prod.mk.injEq] at h₁₃
        obtain ⟨r1, r2, -⟩ := h₁₃
        rw [← r1, ← r2] at h
        obtain ⟨f3, fr₁₄, st₁₄, h₁₄, h⟩ := FM.bind_eq_ok.mp h
        simp only [FM.run_getFrame, Prod.mk.injEq, Except.ok.injEq] at h₁₄
        obtain ⟨g1, g2, g3⟩ := h₁₄
        subst g1
        subst g2
        subst g3
        obtain ⟨s5, fr₁₅, st₁₅, h₁₅, h⟩ := FM.bind_eq_ok.mp h
        simp only [FM.run_getSt, Prod.mk.injEq, Except.ok.injEq] at h₁₅
        obtain ⟨p1, p2, p3⟩ := h₁₅
        subst p1
        subst p2
        subst p3
        obtain ⟨w8, fr₁₆, st₁₆, h₁₆, h⟩ := FM.bind_eq_ok.mp h
        simp only [FM.run_setSt, Prod.mk.injEq] at h₁₆
        obtain ⟨m1, m2, -⟩ := h₁₆
        rw [← m1, ← m2] at h
        obtain ⟨w9, fr₁₇, st₁₇, h₁₇, h⟩ := FM.bind_eq_ok.mp h
        simp only [FM.run_setFrame, Prod.mk.injEq] at h₁₇
        obtain ⟨n1, n2, -⟩ := h₁₇
        simp only [FM.run_pure, Prod.mk.injEq, Except.ok.injEq] at h
        obtain ⟨o1, o2, -⟩ := h
        have hnodRel : locksNodup (st3.setHeap (fr₄.depth + 1) []) :=
          (locksNodup_setHeap st3 _ _).mpr hnod3
        obtain ⟨hnR, hcR, hsR, hhR⟩ := relTrackAll_spec L _ hnodRel
        refine ⟨?_, ?_, ?_⟩
        · rw [← o1, ← n1]
          show fr₄.depth = fr.depth
          rw [hf4]
        · rw [← o2, ← n2, locksNodup_setHeap]
          exact hnR
        · intro k
          rw [← o2, ← n2, heldCount_setHeap, hcR k, heldCount_setHeap,
            hcnt3 k, hrefs.2.2 k, hlock.2.2 k,
            heldCount_of_locks_eq st st₄ hl4 k]
          omega

theorem execOp_ok_locks (ext : Ext) (runSub : RunFn)
    (hrun : ∀ frame owned zone input st₀ st₁ zone₁ out taken,
      locksNodup st₀ →
      runSub frame owned zone input st₀ = (st₁, zone₁, Except.ok (out, taken)) →
      locksNodup st₁ ∧ ∀ k, heldCount st₁ k = heldCount st₀ k)
    (op : KOp) (fr : Frame) (st : KState) (fr' : Frame) (st' : KState)
    (u : Unit) (hnd : locksNodup st)
    (h : execOp ext runSub op fr st = (fr', st', Except.ok u)) :
    fr'.depth = fr.depth ∧ locksNodup st' ∧
    (∀ k, heldCount st' k = heldCount st k) := by
  cases op with
  | opInvokeMethod receiver fn input =>
      simp only [execOp] at h
      obtain ⟨v, fr₁, st₁, h₁, h⟩ := FM.bind_eq_ok.mp h
      obtain ⟨x1, x2, x3⟩ := invokeMethodCore_ok_locks ext runSub hrun
        receiver fn input fr st fr₁ st₁ v hnd h₁
      simp only [FM.run_pure, Prod.mk.injEq] at h
      obtain ⟨e1, e2, -⟩ := h
      exact ⟨by rw [← e1, x1], by rw [← e2]; exact x2,
        fun k => by rw [← e2, x3 k]⟩
  | opInvokeFunction fn input =>
      simp only [execOp] at h
      obtain ⟨v, fr₁, st₁, h₁, h⟩ := FM.bind_eq_ok.mp h
      obtain ⟨x1, x2, x3⟩ := invokeFunctionCore_ok_locks ext runSub hrun
        fn input fr st fr₁ st₁ v hnd h₁
      simp only [FM.run_pure, Prod.mk.injEq] at h
      obtain ⟨e1, e2, -⟩ := h
      exact ⟨by rw [← e1, x1], by rw [← e2]; exact x2,
        fun k => by rw [← e2, x3 k]⟩
  | opNodeCreate node =>
      simp only [execOp] at h
      obtain ⟨v, fr₁, st₁, h₁, h⟩ := FM.bind_eq_ok.mp h
      obtain ⟨x1, x2, x3⟩ := nodeCreateCore_ok_spec ext node fr st fr₁ st₁
        v hnd h₁
      simp only [FM.run_pure, Prod.mk.injEq] at h
      obtain ⟨e1, e2, -⟩ := h
      exact ⟨by rw [← e1, x1], by rw [← e2]; exact x2,
        fun k => by rw [← e2, x3 k]⟩
  | opNodeGlobalize nid =>
      simp only [execOp] at h
      exact nodeGlobalizeCore_ok_spec ext nid fr st fr' st' u hnd h
  | opSubstateRead sid =>
      simp only [execOp] at h
      obtain ⟨v, fr₁, st₁, h₁, h⟩ := FM.bind_eq_ok.mp h
      obtain ⟨x1, x2, x3⟩ := substateReadCore_ok_spec ext sid fr st fr₁ st₁
        v hnd h₁
      simp only [FM.run_pure, Prod.mk.injEq] at h
      obtain ⟨e1, e2, -⟩ := h
      exact ⟨by rw [← e1, x1], by rw [← e2]; exact x2,
        fun k => by rw [← e2, x3 k]⟩
  | opSubstateWrite sid v =>
      simp only [execOp] at h
      exact substateWriteCore_ok_spec ext sid v fr st fr' st' u hnd h
  | opEmitLog msg =>
      simp only [execOp] at h
      obtain ⟨x1, x2, x3, x4, x5⟩ := emitLogCore_ok_inv ext msg fr st fr' st'
        u h
      exact ⟨by rw [x1], (locksNodup_of_locks_eq st st' x2).mpr hnd,
        fun k => heldCount_of_locks_eq st st' x2 k⟩
  | opFail e =>
      simp only [execOp] at h
      simp [FM.run_throw] at h

theorem execOps_ok_locks (ext : Ext) (runSub : RunFn)
    (hrun : ∀ frame owned zone input st₀ st₁ zone₁ out taken,
      locksNodup st₀ →
      runSub frame owned zone input st₀ = (st₁, zone₁, Except.ok (out, taken)) →
      locksNodup st₁ ∧ ∀ k, heldCount st₁ k = heldCount st₀ k)
    (ops : List KOp) (fr : Frame) (st : KState) (fr' : Frame) (st' : KState)
    (u : Unit) (hnd : locksNodup st)
    (h : execOps ext runSub ops fr st = (fr', st', Except.ok u)) :
    fr'.depth = fr.depth ∧ locksNodup st' ∧
    (∀ k, heldCount st' k = heldCount st k) := by
  induction ops generalizing fr st fr' st' with
  | nil =>
      simp only [execOps, FM.run_pure, Prod.mk.injEq] at h
      obtain ⟨e1, e2, -⟩ := h
      exact ⟨by rw [← e1], by rw [← e2]; exact hnd, fun k => by rw [← e2]⟩
  | cons op rest ih =>
      simp only [execOps] at h
      obtain ⟨w, fr₁, st₁, h₁, h⟩ := FM.bind_eq_ok.mp h
      obtain ⟨x1, x2, x3⟩ := execOp_ok_locks ext runSub hrun op fr st fr₁ st₁
        w hnd h₁
      obtain ⟨y1, y2, y3⟩ := ih fr₁ st₁ fr' st' x2 h
      exact ⟨y1.trans x1, y2, fun k => (y3 k).trans (x3 k)⟩

theorem dispatchActor_ok_locks (ext : Ext) (bo : BodyOracle) (runSub : RunFn)
    (hrun : ∀ frame owned zone input st₀ st₁ zone₁ out taken,
      locksNodup st₀ →
      runSub frame owned zone input st₀ = (st₁, zone₁, Except.ok (out, taken)) →
      locksNodup st₁ ∧ ∀ k, heldCount st₁ k = heldCount st₀ k)
    (maybeAuthZone : Option AuthZone) (input : ScryptoValue)
    (fr : Frame) (st : KState) (fr' : Frame) (st' : KState)
    (res : ScryptoValue × Option AuthZone) (hnd : locksNodup st)
    (h : dispatchActor ext bo runSub maybeAuthZone input fr st =
      (fr', st', Except.ok res)) :
    fr'.depth = fr.depth ∧ locksNodup st' ∧
    (∀ k, heldCount st' k = heldCount st k) := by
  unfold dispatchActor at h
  obtain ⟨f0, fr₀, st₀, h₀, h⟩ := FM.bind_eq_ok.mp h
  simp only [FM.run_getFrame, Prod.mk.injEq, Except.ok.injEq] at h₀
  obtain ⟨a1, a2, a3⟩ := h₀
  subst a1
  subst a2
  subst a3
  cases hfa : fr.actor.fnIdentifier with
  | Scrypto pa bn i =>
      rw [hfa] at h
      cases hrc : fr.actor.receiver with
      | none =>
          rw [hrc] at h
          simp only [] at h
          obtain ⟨w, fr₁, st₁, h₁, h⟩ := FM.bind_eq_ok.mp h
          obtain ⟨x1, x2, x3⟩ := execOps_ok_locks ext runSub hrun _
            fr st fr₁ st₁ w hnd h₁
          rw [FM.run_ite] at h
          split at h
          · simp only [FM.run_pure, Prod.mk.injEq] at h
            obtain ⟨e1, e2, -⟩ := h
            exact ⟨by rw [← e1, x1], by rw [← e2]; exact x2,
              fun k => by rw [← e2, x3 k]⟩
          · simp [FM.run_throw] at h
      | some rcv =>
          rw [hrc] at h
          cases rcv with
          | Ref nid =>
              cases nid
              case Component a =>
                  simp only [] at h
                  obtain ⟨w, fr₁, st₁, h₁, h⟩ := FM.bind_eq_ok.mp h
                  obtain ⟨x1, x2, x3⟩ := execOps_ok_locks ext runSub hrun _
                    fr st fr₁ st₁ w hnd h₁
                  rw [FM.run_ite] at h
                  split at h
                  · simp only [FM.run_pure, Prod.mk.injEq] at h
                    obtain ⟨e1, e2, -⟩ := h
                    exact ⟨by rw [← e1, x1], by rw [← e2]; exact x2,
                      fun k => by rw [← e2, x3 k]⟩
                  · simp [FM.run_throw] at h
              all_goals simp [FM.run_throw] at h
          | Consumed nid => simp [FM.run_throw] at h
          | AuthZoneRef => simp [FM.run_throw] at h
  | Native nfn =>
      rw [hfa] at h
      cases nfn
      case AuthZone zfn =>
          cases hrc : fr.actor.receiver with
          | none =>
              rw [hrc] at h
              simp [nativeComboOk, FM.run_ite, FM.run_throw] at h
          | some rcv =>
              rw [hrc] at h
              cases rcv
              case AuthZoneRef =>
                  simp only [] at h
                  cases maybeAuthZone with
                  | none => simp [FM.run_panic] at h
                  | some az =>
                      simp only [] at h
                      cases haz : authZoneMain zfn az input with
                      | error e => rw [haz] at h; simp [FM.run_throw] at h
                      | ok p =>
                          rw [haz] at h
                          obtain ⟨out2, az2⟩ := p
                          simp only [FM.run_pure, Prod.mk.injEq] at h
                          obtain ⟨e1, e2, -⟩ := h
                          exact ⟨by rw [← e1], by rw [← e2]; exact hnd,
                            fun k => by rw [← e2]⟩
              all_goals simp [nativeComboOk, FM.run_ite, FM.run_throw] at h
      all_goals (
        simp only [] at h
        rw [FM.run_ite] at h
        split at h
        · obtain ⟨w, fr₁, st₁, h₁, h⟩ := FM.bind_eq_ok.mp h
          obtain ⟨x1, x2, x3⟩ := execOps_ok_locks ext runSub hrun _
            fr st fr₁ st₁ w hnd h₁
          simp only [FM.run_pure, Prod.mk.injEq] at h
          obtain ⟨e1, e2, -⟩ := h
          exact ⟨by rw [← e1, x1], by rw [← e2]; exact x2,
            fun k => by rw [← e2, x3 k]⟩
        · simp [FM.run_throw] at h)

theorem runEpilogue_ok_spec (ext : Ext) (runSub : RunFn)
    (hrun : ∀ frame owned zone input st₀ st₁ zone₁ out taken,
      locksNodup st₀ →
      runSub frame owned zone input st₀ = (st₁, zone₁, Except.ok (out, taken)) →
      locksNodup st₁ ∧ ∀ k, heldCount st₁ k = heldCount st₀ k)
    (output : ScryptoValue) (fr : Frame) (st : KState)
    (fr' : Frame) (st' : KState) (res : ScryptoValue) (taken : Heap)
    (hnd : locksNodup st)
    (h : runEpilogue ext runSub output fr st =
      (fr', st', Except.ok (res, taken))) :
    locksNodup st' ∧ (∀ k, heldCount st' k = heldCount st k) ∧
    st'.heapAt fr.depth = [] := by
  unfold runEpilogue at h
  obtain ⟨w0, fr₁, st₁, h₁, h⟩ := FM.bind_eq_ok.mp h
  obtain ⟨q1, q2, -⟩ := liftE_ok_inv _ fr st fr₁ st₁ w0 h₁
  rw [q1, q2] at h
  obtain ⟨tm, fr₂, st₂, h₂, h⟩ := FM.bind_eq_ok.mp h
  obtain ⟨takenValues, missing⟩ := tm
  obtain ⟨hp', htl, hs2, hf2⟩ := takeAvailableValues_ok_inv _ _ _ _ _ _ _ _ h₂
  simp only [] at h
  obtain ⟨w1, fr₃, st₃, h₃, h⟩ := FM.bind_eq_ok.mp h
  have hstep3 : fr₃ = fr₂ ∧ st₃ = st₂ := by
    cases hm : missing.head? with
    | some m => rw [hm] at h₃; simp [FM.run_throw] at h₃
    | none =>
        rw [hm] at h₃
        simp only [FM.run_pure, Prod.mk.injEq] at h₃
        exact ⟨h₃.1.symm, h₃.2.1.symm⟩
  rw [hstep3.1, hstep3.2] at h
  obtain ⟨f4, fr₄, st₄, h₄, h⟩ := FM.bind_eq_ok.mp h
  simp only [FM.run_getFrame, Prod.mk.injEq, Except.ok.injEq] at h₄
  obtain ⟨b1, b2, b3⟩ := h₄
  subst b1
  subst b2
  subst b3
  obtain ⟨w2, fr₅, st₅, h₅, h⟩ := FM.bind_eq_ok.mp h
  obtain ⟨c1, c2, -⟩ := liftE_ok_inv _ fr₂ st₂ fr₅ st₅ w2 h₅
  rw [c1, c2] at h
  have hnd2 : locksNodup st₂ := by
    rw [locksNodup_of_locks_eq st st₂ (by rw [hs2, setHeap_locks])]
    exact hnd
  obtain ⟨w3, fr₆, st₆, h₆, h⟩ := FM.bind_eq_ok.mp h
  have hclear : fr₆.depth = fr₂.depth ∧ locksNodup st₆ ∧
      (∀ k, heldCount st₆ k = heldCount st₂ k) := by
    rw [FM.run_ite] at h₆
    split at h₆
    · obtain ⟨v, fq, sq, hq, h₆⟩ := FM.bind_eq_ok.mp h₆
      obtain ⟨x1, x2, x3⟩ := invokeMethodCore_ok_locks ext runSub hrun _ _ _
        fr₂ st₂ fq sq v hnd2 hq
      simp only [FM.run_pure, Prod.mk.injEq] at h₆
      obtain ⟨e1, e2, -⟩ := h₆
      exact ⟨by rw [← e1, x1], by rw [← e2]; exact x2,
        fun k => by rw [← e2, x3 k]⟩
    · simp only [FM.run_pure, Prod.mk.injEq] at h₆
      obtain ⟨e1, e2, -⟩ := h₆
      exact ⟨by rw [← e1], by rw [← e2]; exact hnd2, fun k => by rw [← e2]⟩
  obtain ⟨w4, fr₇, st₇, h₇, h⟩ := FM.bind_eq_ok.mp h
  rw [dropOwnedValues_run] at h₇
  simp only [Prod.mk.injEq] at h₇
  obtain ⟨r1, r2, -⟩ := h₇
  simp only [FM.run_pure, Prod.mk.injEq, Except.ok.injEq] at h
  obtain ⟨e1, e2, -⟩ := h
  have hdep6 : fr₆.depth = fr.depth := by
    rw [hclear.1, hf2]
  refine ⟨?_, ?_, ?_⟩
  · rw [← e2, ← r2, locksNodup_setHeap]
    exact hclear.2.1
  · intro k
    rw [← e2, ← r2, heldCount_setHeap, hclear.2.2 k,
      heldCount_of_locks_eq st st₂ (by rw [hs2, setHeap_locks]) k]
  · rw [← e2, ← r2, ← hdep6]
    exact heapAt_setHeap_self _ _ _

theorem runFrameM_ok_spec (ext : Ext) (bo : BodyOracle) (runSub : RunFn)
    (hrun : ∀ frame owned zone input st₀ st₁ zone₁ out taken,
      locksNodup st₀ →
      runSub frame owned zone input st₀ = (st₁, zone₁, Except.ok (out, taken)) →
      locksNodup st₁ ∧ ∀ k, heldCount st₁ k = heldCount st₀ k)
    (mz : Option AuthZone) (input : ScryptoValue)
    (fr : Frame) (st : KState) (fr' : Frame) (st' : KState)
    (out : ScryptoValue) (taken : Heap) (zone' : Option AuthZone)
    (hnd : locksNodup st)
    (h : runFrameM ext bo runSub mz input fr st =
      (fr', st', Except.ok (out, taken, zone'))) :
    locksNodup st' ∧ (∀ k, heldCount st' k = heldCount st k) ∧
    st'.heapAt fr.depth = [] := by
  unfold runFrameM at h
  obtain ⟨dz, fr₁, st₁, h₁, h⟩ := FM.bind_eq_ok.mp h
  obtain ⟨output, zoneAfter⟩ := dz
  obtain ⟨x1, x2, x3⟩ := dispatchActor_ok_locks ext bo runSub hrun mz input
    fr st fr₁ st₁ _ hnd h₁
  simp only [] at h
  obtain ⟨rt, fr₂, st₂, h₂, h⟩ := FM.bind_eq_ok.mp h
  obtain ⟨res2, taken2⟩ := rt
  obtain ⟨y1, y2, y3⟩ := runEpilogue_ok_spec ext runSub hrun output
    fr₁ st₁ fr₂ st₂ res2 taken2 x2 h₂
  simp only [] at h
  simp only [FM.run_pure, Prod.mk.injEq, Except.ok.injEq] at h
  obtain ⟨e1, e2, -⟩ := h
  refine ⟨?_, ?_, ?_⟩
  · rw [← e2]; exact y1
  · intro k
    rw [← e2, y2 k, x3 k]
  · rw [← e2, ← x1]
    exact y3

theorem runFrameFn_ok_spec (ext : Ext) (bo : BodyOracle) :
    ∀ fuel frame owned zone input st st' zone' out taken,
      locksNodup st →
      runFrameFn ext bo fuel frame owned zone input st =
        (st', zone', Except.ok (out, taken)) →
      locksNodup st' ∧ (∀ k, heldCount st' k = heldCount st k) ∧
      st'.heapAt frame.depth = [] := by
  intro fuel
  induction fuel with
  | zero =>
      intro frame owned zone input st st' zone' out taken hnd h
      simp [runFrameFn] at h
  | succ n ih =>
      intro frame owned zone input st st' zone' out taken hnd h
      simp only [runFrameFn] at h
      rcases hm : runFrameM ext bo (runFrameFn ext bo n) zone input frame
        (st.setHeap frame.depth owned) with ⟨fr₁, st₁, r₁⟩
      rw [hm] at h
      cases r₁ with
      | error e => simp at h
      | ok trip =>
          obtain ⟨out2, taken2, zone2⟩ := trip
          simp only [Prod.mk.injEq, Except.ok.injEq] at h
          obtain ⟨e1, e2, e3⟩ := h
          have hrun' : ∀ frame2 owned2 zone3 input2 st₀ st₂ zone₄ out3 taken3,
              locksNodup st₀ →
              runFrameFn ext bo n frame2 owned2 zone3 input2 st₀ =
                (st₂, zone₄, Except.ok (out3, taken3)) →
              locksNodup st₂ ∧ ∀ k, heldCount st₂ k = heldCount st₀ k := by
            intro frame2 owned2 zone3 input2 st₀ st₂ zone₄ out3 taken3 hh hq
            obtain ⟨a, b, c⟩ := ih frame2 owned2 zone3 input2 st₀ st₂ zone₄
              out3 taken3 hh hq
            exact ⟨a, b⟩
          obtain ⟨y1, y2, y3⟩ := runFrameM_ok_spec ext bo _ hrun' zone input
            frame (st.setHeap frame.depth owned) fr₁ st₁ out2 taken2 zone2
            ((locksNodup_setHeap st frame.depth owned).mpr hnd) hm
          refine ⟨?_, ?_, ?_⟩
          · rw [← e1]; exact y1
          · intro k
            rw [← e1, y2 k, heldCount_setHeap]
          · rw [← e1]; exact y3

/-- C2: for every frame whose `run()` returns successfully (the fuel
interpreter `runFrameFn` over the embedded `CallFrame::run`): at exit every
lock the frame and its callees acquired has been released — the Track hold
count of every substate returns to its entry value and the lock table stays
well-formed — and the frame's owned heap slot is empty: every node the frame
still owned was either moved to the parent (the returned `taken` values),
globalized into the Track substates, or dropped.  The drop step
(`drop_owned_values`) wipes the frame's slot and fails with `DropFailure`
exactly when some leftover node is not freely droppable
(buckets, proofs and the worktop drop freely), which makes `run()` itself
fail with `DropFailure` on a non-droppable leftover. -/
theorem run_frame_exit_discipline (ext : Ext) (bo : BodyOracle) :
    (∀ fuel frame owned zone input st st' zone' out taken,
      locksNodup st →
      runFrameFn ext bo fuel frame owned zone input st =
        (st', zone', Except.ok (out, taken)) →
      locksNodup st' ∧ (∀ k, heldCount st' k = heldCount st k) ∧
      st'.heapAt frame.depth = []) ∧
    (∀ fr st, dropOwnedValues fr st =
      (fr, st.setHeap fr.depth [],
       match ((st.heapAt fr.depth).map (fun p => p.2)).findSome?
           nodeDropFailure with
       | some k => Except.error (KErr.rt (RuntimeError.DropFailure k))
       | none => Except.ok ())) :=
  ⟨runFrameFn_ok_spec ext bo, dropOwnedValues_run⟩

/-- Witness for C2: a concrete successful frame run (transaction-processor
root frame, empty body) exits with the lock table empty as it started and
its heap slot empty. -/
theorem run_frame_exit_discipline_witness :
    locksNodup
      ((runFrameFn witnessExt trivialBody 1 baseFrame [] none
        emptyScryptoValue emptyKState).1) ∧
    (runFrameFn witnessExt trivialBody 1 baseFrame [] none emptyScryptoValue
        emptyKState).1.heapAt baseFrame.depth = [] := by
  have happ := (run_frame_exit_discipline witnessExt trivialBody).1 1
    baseFrame [] none emptyScryptoValue emptyKState
    (runFrameFn witnessExt trivialBody 1 baseFrame [] none emptyScryptoValue
      emptyKState).1
    (runFrameFn witnessExt trivialBody 1 baseFrame [] none emptyScryptoValue
      emptyKState).2.1
    emptyScryptoValue [] (by unfold locksNodup; decide) (by decide)
  exact ⟨happ.1, happ.2.2⟩

end RadixKernel
